import Mathlib

/-!
# qq_render — verified model of the compositor-node generator

This file gives a shallow embedding, in Lean 4, of the qq_render Blender
add-on (`src/`): the path builders of `core/path_utils.py` and
`core/relative_path.py`, the node-tree utilities of `core/tools.py`, the
node-generation operator of `operators/render_nodes.py`, the render-check
operator of `operators/render.py` and the camera-export operator of
`operators/export.py`.  Node trees are modelled as explicit lists of nodes
and links; Blender's mutating API calls become pure state-passing
functions.  The theorems at the end settle the specification claims about
these operations.
-/

set_option maxHeartbeats 1000000

namespace QQRender

/-! ## Python string / regex primitives

`core/path_utils.py` and `core/relative_path.py` both use
`re.compile(r"(v\d{1,3})", re.IGNORECASE).search(project_name)`.
`Re.versionSearch` reproduces that search on the character list of the
string: the leftmost position whose character is `v` or `V` and is
followed by at least one digit matches, and the match greedily takes at
most three digits.  `rstripDots` is Python's `str.rstrip(".")`. -/

namespace Re

/-- Length of the run of decimal digits at the head of the list. -/
def digitRun : List Char → Nat
  | [] => 0
  | c :: cs => if c.isDigit then digitRun cs + 1 else 0

/-- Search for `(v\d{1,3})` (case-insensitive) starting at index `i`:
returns `(start, length)` of the leftmost match. -/
def versionSearchAux : Nat → List Char → Option (Nat × Nat)
  | _, [] => none
  | i, c :: rest =>
    if (c = 'v' ∨ c = 'V') ∧ 0 < digitRun rest then
      some (i, 1 + min (digitRun rest) 3)
    else
      versionSearchAux (i + 1) rest

/-- `re.search` of the version pattern over a whole string. -/
def versionSearch (s : String) : Option (Nat × Nat) :=
  versionSearchAux 0 s.data

end Re

/-- Python `str.rstrip(".")` on a character list. -/
def rstripDots (l : List Char) : List Char :=
  (l.reverse.dropWhile (fun c => c = '.')).reverse

/-- Python `str.rstrip(".")` on a string. -/
def rstripDotsStr (s : String) : String :=
  String.mk (rstripDots s.data)

/-- Substring `s[a:b]` as in Python slicing (on the char list). -/
def pySlice (s : String) (a b : Nat) : String :=
  String.mk ((s.data.drop a).take (b - a))

/-- Python slice `s[a:]`. -/
def pySliceFrom (s : String) (a : Nat) : String :=
  String.mk (s.data.drop a)

/-- Python slice `s[:b]`. -/
def pySliceTo (s : String) (b : Nat) : String :=
  String.mk (s.data.take b)

/-- `pathlib.Path(p).name`: the component after the last `/`. -/
def pathName (p : String) : String :=
  String.mk ((p.data.reverse.takeWhile (fun c => c ≠ '/')).reverse)

/-- Index of the last `.` in the list, as `name.rfind('.')` (or none). -/
def lastDotIdx (l : List Char) : Option Nat :=
  match (List.range l.length).filter
      (fun i => l.getD i ' ' = '.') |>.getLast? with
  | some i => some i
  | none => none

/-- `pathlib.Path(p).stem`: the final component without its last suffix.
CPython keeps the whole name when the last dot is at position 0 or at the
very end. -/
def pathStem (p : String) : String :=
  let nm := pathName p
  match lastDotIdx nm.data with
  | some i => if 0 < i ∧ i < nm.data.length - 1 then pySliceTo nm i else nm
  | none => nm

/-! ## `core/relative_path.py` -/

namespace relative_path

/-- `relative_path.build_base_path`: inserts the layer name before the
version token of the project name and produces the render-master base
path (no per-project directory level). -/
def build_base_path (project_name layer_name : String) : String :=
  let result :=
    match Re.versionSearch project_name with
    | some (s, len) =>
      let version_part := pySlice project_name s (s + len)
      let prefixPart := rstripDotsStr (pySliceTo project_name s)
      let suffixPart := pySliceFrom project_name (s + len)
      prefixPart ++ ".l." ++ layer_name ++ "." ++ version_part ++ suffixPart
    | none =>
      project_name ++ ".l." ++ layer_name
  "//../render/render_master/" ++ result ++ "/" ++ result ++ ".####.exr"

/-- `relative_path.build_camera_export_path`. -/
def build_camera_export_path (project_name : String) : String :=
  let filename :=
    match Re.versionSearch project_name with
    | some (s, len) =>
      let version_part := pySlice project_name s (s + len)
      let prefixPart := rstripDotsStr (pySliceTo project_name s)
      let suffixPart := pySliceFrom project_name (s + len)
      prefixPart ++ ".camera." ++ version_part ++ suffixPart ++ ".abc"
    | none =>
      project_name ++ ".camera.abc"
  "//../render/render_master/" ++ filename

end relative_path

/-! ## `core/path_utils.py` (duplicated path builders) -/

namespace path_utils

/-- `path_utils.build_base_path`: same layer/version insertion, but the
base path keeps an extra `<project_name>/` directory level after
`render_master/`. -/
def build_base_path (project_name layer_name : String) : String :=
  let result :=
    match Re.versionSearch project_name with
    | some (s, len) =>
      let version_part := pySlice project_name s (s + len)
      let prefixPart := rstripDotsStr (pySliceTo project_name s)
      let suffixPart := pySliceFrom project_name (s + len)
      prefixPart ++ ".l." ++ layer_name ++ "." ++ version_part ++ suffixPart
    | none =>
      project_name ++ ".l." ++ layer_name
  "//../render/render_master/" ++ project_name ++ "/" ++ result ++ "/" ++
    result ++ ".####.exr"

/-- `path_utils.build_camera_export_path` (extra `<project_name>/`
directory level compared with the `relative_path` version). -/
def build_camera_export_path (project_name : String) : String :=
  let filename :=
    match Re.versionSearch project_name with
    | some (s, len) =>
      let version_part := pySlice project_name s (s + len)
      let prefixPart := rstripDotsStr (pySliceTo project_name s)
      let suffixPart := pySliceFrom project_name (s + len)
      prefixPart ++ ".camera." ++ version_part ++ suffixPart ++ ".abc"
    | none =>
      project_name ++ ".camera.abc"
  "//../render/render_master/" ++ project_name ++ "/" ++ filename

end path_utils

example :
    relative_path.build_base_path "rendering.v01" "letadlo" =
      "//../render/render_master/rendering.l.letadlo.v01/rendering.l.letadlo.v01.####.exr" := by
  decide

example :
    relative_path.build_base_path "rendering.v01.test" "letadlo" =
      "//../render/render_master/rendering.l.letadlo.v01.test/rendering.l.letadlo.v01.test.####.exr" := by
  decide

example :
    relative_path.build_base_path "noversion" "layer1" =
      "//../render/render_master/noversion.l.layer1/noversion.l.layer1.####.exr" := by
  decide

example :
    relative_path.build_camera_export_path "rendering.v01" =
      "//../render/render_master/rendering.camera.v01.abc" := by
  decide

example :
    path_utils.build_base_path "p" "l" =
      "//../render/render_master/p/p.l.l/p.l.l.####.exr" := by
  decide

example : pathStem "/tmp/shot.v02.blend" = "shot.v02" := by decide

/-! ## Compositor node-tree model

Blender's compositor trees become explicit lists of nodes and links.  A
socket is referenced by `(node id, socket index)`.  Node colours and
widths are purely visual and referenced by no claim, so the model drops
them; every structural field touched by the operators (name, label,
location, hide, sockets, file-output format and base path) is kept. -/

/-- A node socket: its `name` and whether the host shows it as enabled. -/
structure Socket where
  name : String
  enabled : Bool
deriving DecidableEq, Repr

/-- `FILE_OUTPUT_DEFAULTS` from `core/constants.py`. -/
structure FileOutputDefaults where
  format : String
  color_depth : String
  codec : String
deriving DecidableEq, Repr

def FILE_OUTPUT_DEFAULTS : FileOutputDefaults :=
  { format := "OPEN_EXR_MULTILAYER", color_depth := "32", codec := "DWAA" }

/-- The node types the operators create, with the per-type payload. -/
inductive NodeKind where
  | rlayers (layer : String)
  | outputFile (base_path : String) (fmt : FileOutputDefaults)
  | denoise
  | invertGroup
  | image (imageName : String)
  | alphaOver
  | composite
  | viewer
  | preexisting (tag : Nat)
deriving DecidableEq, Repr

/-- A compositor node.  `dimY` models `node.dimensions.y`, a host-computed
value read by `get_lowest_node_position`. -/
structure Node where
  id : Nat
  name : String
  label : String
  kind : NodeKind
  location : Int × Int
  hide : Bool
  inputs : List Socket
  outputs : List Socket
  dimY : Int
deriving DecidableEq, Repr

/-- A link from `(fromNode, fromPort)` output socket to
`(toNode, toPort)` input socket. -/
structure Link where
  fromNode : Nat
  fromPort : Nat
  toNode : Nat
  toPort : Nat
deriving DecidableEq, Repr

/-- A compositor node tree; `nextId` supplies fresh node identities. -/
structure Tree where
  nodes : List Node
  links : List Link
  nextId : Nat
deriving DecidableEq, Repr

namespace Tree

/-- `tree.nodes.new(...)`: append a node with a fresh id. -/
def addNode (t : Tree) (mk : Nat → Node) : Tree × Nat :=
  ({ t with nodes := t.nodes ++ [mk t.nextId], nextId := t.nextId + 1 },
   t.nextId)

/-- Look a node up by id. -/
def getNode (t : Tree) (i : Nat) : Option Node :=
  t.nodes.find? (fun n => n.id = i)

/-- `tree.links.new(out_socket, in_socket)` with both sockets given as
`(node id, socket index)`. -/
def linkNew (t : Tree) (a b : Nat × Nat) : Tree :=
  { t with links := t.links ++ [⟨a.1, a.2, b.1, b.2⟩] }

/-- In-place node mutation (Python mutates the node object held in the
collection). -/
def updateNode (t : Tree) (i : Nat) (f : Node → Node) : Tree :=
  { t with nodes := t.nodes.map (fun n => if n.id = i then f n else n) }

/-- First output-socket index of node `src` whose name is `nm`, as
`node.outputs["nm"]`.  The Python expression raises `KeyError` when the
name is absent; every call site below is used only under hypotheses that
make the lookup succeed, and the embedding then skips the link. -/
def linkNewByNameFrom (t : Tree) (src : Nat) (nm : String) (dst : Nat × Nat) :
    Tree :=
  match t.getNode src with
  | none => t
  | some n =>
    match n.outputs.findIdx? (fun s => s.name = nm) with
    | none => t
    | some j => t.linkNew (src, j) dst

/-- `file_output_node.file_slots.new(name=...)`: appends an (enabled)
input slot to the File Output node. -/
def fileSlotsNew (t : Tree) (foId : Nat) (slotName : String) : Tree :=
  t.updateNode foId (fun n => { n with inputs := n.inputs ++ [⟨slotName, true⟩] })

/-- `tree.links.new(src.outputs[nmF], dst.inputs[nmT])` with both sockets
named; skips only in the `KeyError` cases excluded by the theorems. -/
def linkByNames (t : Tree) (src : Nat) (nmF : String) (dst : Nat)
    (nmT : String) : Tree :=
  match t.getNode src, t.getNode dst with
  | some a, some b =>
    match a.outputs.findIdx? (fun s => s.name = nmF),
        b.inputs.findIdx? (fun s => s.name = nmT) with
    | some j, some k => t.linkNew (src, j) (dst, k)
    | _, _ => t
  | _, _ => t

end Tree

/-- Well-formedness the operators preserve: node ids are below `nextId`
and pairwise distinct. -/
structure TreeWF (t : Tree) : Prop where
  idsLt : ∀ n ∈ t.nodes, n.id < t.nextId
  idsNodup : (t.nodes.map Node.id).Nodup

/-! ## Scene model

A view layer carries the add-on's per-layer properties together with
`passes`, the output sockets the host materializes on a Render Layers
node pointed at that layer. -/

structure ViewLayer where
  name : String
  use : Bool
  sortOrder : Int
  useComposite : Bool
  denoisingStorePasses : Bool
  passes : List Socket
deriving DecidableEq, Repr

/-- A camera background image (`camera.data.background_images` entry);
the image-user frame fields the node creator copies are referenced by no
claim and are dropped. -/
structure BgImage where
  showBackgroundImage : Bool
  source : String
  hasImage : Bool
  imageName : String
deriving DecidableEq, Repr

structure Camera where
  backgroundImages : List BgImage
deriving DecidableEq, Repr

/-- The scene state the operators read. -/
structure Scene where
  viewLayers : List ViewLayer
  camera : Option Camera
  renderEngine : String
  useNodes : Bool
  clearNodesFlag : Bool
  makeYUp : Bool
  exportCameraFlag : Bool
  updatePathsFlag : Bool
deriving DecidableEq, Repr

/-! ## `core/tools.py` -/

namespace tools

/-- `get_renderable_view_layers`: the view layers with `use` set, sorted
ascending by `qq_render_sort_order`.  Python's `list.sort` is a stable
ascending sort, modelled by the (stable) insertion sort. -/
def get_renderable_view_layers (s : Scene) : List ViewLayer :=
  (s.viewLayers.filter (fun vl => vl.use)).insertionSort
    (fun a b => a.sortOrder ≤ b.sortOrder)

/-- `for node in tree.nodes: tree.nodes.remove(node)` — the iterator
walks the live collection by index while `remove` shifts the remaining
elements down, so each step erases the element at the current cursor and
then advances past the element that slid into its place.  Structurally
recursive on a fuel that bounds the number of iterations (each step
either stops or shortens the list, so `ns.length` steps always
suffice). -/
def pyRemoveEachGo : Nat → Nat → List Node → List Node
  | 0, _, ns => ns
  | fuel + 1, i, ns =>
    if i < ns.length then pyRemoveEachGo fuel (i + 1) (ns.eraseIdx i) else ns

def pyRemoveEach (i : Nat) (ns : List Node) : List Node :=
  pyRemoveEachGo ns.length i ns

/-- `clear_nodes`: removing a node also drops its links (host
behaviour), so surviving links are those between surviving nodes. -/
def clear_nodes (t : Tree) : Tree :=
  let ns := pyRemoveEach 0 t.nodes
  { t with
    nodes := ns
    links := t.links.filter (fun l =>
      ns.any (fun n => n.id = l.fromNode) && ns.any (fun n => n.id = l.toNode)) }

/-- `count_visible_sockets`. -/
def count_visible_sockets (socks : List Socket) : Nat :=
  (socks.filter (fun s => s.enabled)).length

/-- `estimate_node_height`. -/
def estimate_node_height (n : Node) : Int :=
  if n.hide then 40
  else
    (max (count_visible_sockets n.inputs) (count_visible_sockets n.outputs) : Int)
      * 22 + 80

/-- `min(...)` over a list, `0` when the list is empty (source guards the
empty tree and returns `0`). -/
def lowestOf (vals : List Int) : Int :=
  match vals with
  | [] => 0
  | x :: xs => xs.foldl min x

/-- `estimate_lowest_node_position`. -/
def estimate_lowest_node_position (t : Tree) : Int :=
  lowestOf (t.nodes.map (fun n => n.location.2 - estimate_node_height n))

/-- `get_lowest_node_position` (uses host-computed `dimensions.y`). -/
def get_lowest_node_position (t : Tree) : Int :=
  lowestOf (t.nodes.map (fun n => n.location.2 - n.dimY))

/-- Node value built by `create_render_layers_node`.  The host assigns
the default node name; no claim reads it.  `dimY` is `0` until the host
draws the node. -/
def mkRenderLayers (vl : ViewLayer) (loc : Int × Int) (i : Nat) : Node :=
  { id := i, name := "Render Layers", label := "", kind := .rlayers vl.name,
    location := loc, hide := false, inputs := [], outputs := vl.passes,
    dimY := 0 }

/-- `create_render_layers_node`. -/
def create_render_layers_node (t : Tree) (vl : ViewLayer) (loc : Int × Int) :
    Tree × Nat :=
  t.addNode (mkRenderLayers vl loc)

/-- Node value built by `create_file_output_node`: EXR-multilayer
defaults, then `node.inputs.clear()` leaves it with no slots. -/
def mkFileOutput (name : String) (loc : Int × Int) (base_path : String)
    (i : Nat) : Node :=
  { id := i, name := name, label := name,
    kind := .outputFile base_path FILE_OUTPUT_DEFAULTS,
    location := loc, hide := false, inputs := [], outputs := [], dimY := 0 }

/-- `create_file_output_node`. -/
def create_file_output_node (t : Tree) (name : String) (loc : Int × Int)
    (base_path : String) : Tree × Nat :=
  t.addNode (mkFileOutput name loc base_path)

/-- Node value built by `create_denoise_node` (hidden; fixed Blender
socket layout). -/
def mkDenoise (name : String) (loc : Int × Int) (i : Nat) : Node :=
  { id := i, name := name, label := name, kind := .denoise,
    location := loc, hide := true,
    inputs := [⟨"Image", true⟩, ⟨"Normal", true⟩, ⟨"Albedo", true⟩],
    outputs := [⟨"Image", true⟩], dimY := 0 }

/-- `create_denoise_node`. -/
def create_denoise_node (t : Tree) (name : String) (loc : Int × Int) :
    Tree × Nat :=
  t.addNode (mkDenoise name loc)

/-- Node value built by `create_image_node` from a background image. -/
def mkImage (bg : BgImage) (loc : Int × Int) (i : Nat) : Node :=
  { id := i, name := "Image", label := "", kind := .image bg.imageName,
    location := loc, hide := false, inputs := [],
    outputs := [⟨"Image", true⟩, ⟨"Alpha", true⟩], dimY := 0 }

/-- `create_image_node`. -/
def create_image_node (t : Tree) (bg : BgImage) (loc : Int × Int) :
    Tree × Nat :=
  t.addNode (mkImage bg loc)

/-- Node value built by `create_alpha_over_node` (inputs `Fac`, `Image`,
`Image`). -/
def mkAlphaOver (loc : Int × Int) (name : String) (i : Nat) : Node :=
  { id := i, name := name, label := name, kind := .alphaOver,
    location := loc, hide := false,
    inputs := [⟨"Fac", true⟩, ⟨"Image", true⟩, ⟨"Image", true⟩],
    outputs := [⟨"Image", true⟩], dimY := 0 }

/-- `create_alpha_over_node`. -/
def create_alpha_over_node (t : Tree) (loc : Int × Int) (name : String) :
    Tree × Nat :=
  t.addNode (mkAlphaOver loc name)

/-- Node value built by `create_composite_node`. -/
def mkComposite (loc : Int × Int) (i : Nat) : Node :=
  { id := i, name := "Composite", label := "", kind := .composite,
    location := loc, hide := false,
    inputs := [⟨"Image", true⟩, ⟨"Alpha", true⟩], outputs := [], dimY := 0 }

/-- `create_composite_node`. -/
def create_composite_node (t : Tree) (loc : Int × Int) : Tree × Nat :=
  t.addNode (mkComposite loc)

/-- Node value built by `create_viewer_node`. -/
def mkViewer (loc : Int × Int) (i : Nat) : Node :=
  { id := i, name := "Viewer", label := "", kind := .viewer,
    location := loc, hide := false,
    inputs := [⟨"Image", true⟩, ⟨"Alpha", true⟩], outputs := [], dimY := 0 }

/-- `create_viewer_node`. -/
def create_viewer_node (t : Tree) (loc : Int × Int) : Tree × Nat :=
  t.addNode (mkViewer loc)

/-- Node value of the compositor-group node `create_vector_invert_group`
adds to the main tree (one `Vector` input, one `Vector` output, hidden).
The group's internal graph is modelled separately by `VecGroup.graph`. -/
def mkInvertGroup (loc : Int × Int) (name : String) (i : Nat) : Node :=
  { id := i, name := name, label := name, kind := .invertGroup,
    location := loc, hide := true,
    inputs := [⟨"Vector", true⟩], outputs := [⟨"Vector", true⟩], dimY := 0 }

/-- `create_vector_invert_group` (main-tree side). -/
def create_vector_invert_group (t : Tree) (loc : Int × Int) (name : String) :
    Tree × Nat :=
  t.addNode (mkInvertGroup loc name)

end tools

/-! ## `operators/render_nodes.py`

The module imports `SKIP_PASSES`, `DENOISE_PASSES` and `INVERT_Y_PASSES`
from `core.constants`, but `core/constants.py` defines none of them
(claim C2).  The embedding is therefore parametric in their values. -/

/-- The three pass-name sets the operator module expects from
`core.constants`. -/
structure PassConsts where
  skipPasses : List String
  denoisePasses : List String
  invertYPasses : List String
deriving DecidableEq, Repr

inductive OpStatus where
  | finished
  | cancelled
deriving DecidableEq, Repr

namespace render_nodes

/-- `_has_denoising_data`: both denoising outputs present and enabled
(`outputs.get` returns the first socket of that name). -/
def _has_denoising_data (rl : Node) : Bool :=
  match rl.outputs.find? (fun s => s.name = "Denoising Normal"),
      rl.outputs.find? (fun s => s.name = "Denoising Albedo") with
  | some n, some a => n.enabled && a.enabled
  | _, _ => false

/-- `_connect_pass_with_denoise`: pass → denoise input 0, denoising
normal → input 1, denoising albedo → input 2, denoise output 0 → slot. -/
def _connect_pass_with_denoise (t : Tree) (outRef : Nat × Nat)
    (outName : String) (target : Nat × Nat) (rlId : Nat)
    (loc : Int × Int) : Tree :=
  let (t, dId) := tools.create_denoise_node t ("Denoise_" ++ outName) loc
  let t := t.linkNew outRef (dId, 0)
  let t := t.linkNewByNameFrom rlId "Denoising Normal" (dId, 1)
  let t := t.linkNewByNameFrom rlId "Denoising Albedo" (dId, 2)
  t.linkNew (dId, 0) target

/-- `_connect_pass_with_invert`: pass → group input 0, group output 0 →
slot. -/
def _connect_pass_with_invert (t : Tree) (outRef : Nat × Nat)
    (outName : String) (target : Nat × Nat) (loc : Int × Int) : Tree :=
  let (t, gId) := tools.create_vector_invert_group t loc ("Invert_" ++ outName)
  let t := t.linkNew outRef (gId, 0)
  t.linkNew (gId, 0) target

/-- `_find_target_input`: first input slot of the File Output node whose
name matches. -/
def _find_target_input (fo : Node) (slotName : String) : Option Nat :=
  fo.inputs.findIdx? (fun s => s.name = slotName)

/-- Loop body of `_connect_passes` over the enumerated Render Layers
outputs, threading the `middle_y_offset` accumulator. -/
def connectPassesGo (cs : PassConsts) (rlId foId : Nat)
    (use_denoise make_y_up has_denoise_data : Bool) (rl_x rl_y : Int) :
    List (Nat × Socket) → Int → Tree → Tree
  | [], _, t => t
  | (j, sock) :: rest, yoff, t =>
    if ¬ sock.enabled ∨ cs.skipPasses.contains sock.name then
      connectPassesGo cs rlId foId use_denoise make_y_up has_denoise_data
        rl_x rl_y rest yoff t
    else
      let slot_name := if sock.name = "Image" then "Beauty" else sock.name
      let t1 := t.fileSlotsNew foId slot_name
      match t1.getNode foId >>= fun fo => _find_target_input fo slot_name with
      | none =>
        connectPassesGo cs rlId foId use_denoise make_y_up has_denoise_data
          rl_x rl_y rest yoff t1
      | some k =>
        let should_denoise :=
          use_denoise && has_denoise_data && cs.denoisePasses.contains sock.name
        let should_invert := make_y_up && cs.invertYPasses.contains sock.name
        if should_denoise then
          let t2 := _connect_pass_with_denoise t1 (rlId, j) sock.name (foId, k)
            rlId (rl_x + 450, rl_y + yoff)
          connectPassesGo cs rlId foId use_denoise make_y_up has_denoise_data
            rl_x rl_y rest (yoff - 30) t2
        else if should_invert then
          let t2 := _connect_pass_with_invert t1 (rlId, j) sock.name (foId, k)
            (rl_x + 450, rl_y + yoff)
          connectPassesGo cs rlId foId use_denoise make_y_up has_denoise_data
            rl_x rl_y rest (yoff - 30) t2
        else
          connectPassesGo cs rlId foId use_denoise make_y_up has_denoise_data
            rl_x rl_y rest yoff (t1.linkNew (rlId, j) (foId, k))

/-- `_connect_passes`: connects every enabled, non-skipped pass of the
Render Layers node to a fresh slot of the File Output node, possibly
through a denoise node or a vector-invert group. -/
def _connect_passes (cs : PassConsts) (t : Tree) (rlId foId : Nat)
    (use_denoise make_y_up : Bool) : Tree :=
  match t.getNode rlId with
  | none => t
  | some rl =>
    let has_denoise_data := if use_denoise then _has_denoising_data rl else false
    connectPassesGo cs rlId foId use_denoise make_y_up has_denoise_data
      rl.location.1 rl.location.2 rl.outputs.enum 0 t

/-- `_get_composite_render_layers`: the given Render Layers nodes whose
view layer has `qq_render_use_composite`, stably sorted by
`qq_render_sort_order`. -/
def _get_composite_render_layers (t : Tree) (rlIds : List Nat) (s : Scene) :
    List Nat :=
  let pairs := rlIds.filterMap (fun nid =>
    match t.getNode nid with
    | none => none
    | some n =>
      match n.kind with
      | .rlayers layer =>
        match s.viewLayers.find? (fun vl => vl.name = layer) with
        | some vl => if vl.useComposite then some (nid, vl.sortOrder) else none
        | none => none
      | _ => none)
  (pairs.insertionSort (fun a b => a.2 ≤ b.2)).map Prod.fst

/-- `_get_camera_background_image`: the first visible background image of
the active camera, provided it is an assigned IMAGE source. -/
def _get_camera_background_image (s : Scene) : Option BgImage :=
  match s.camera with
  | none => none
  | some cam =>
    if cam.backgroundImages.isEmpty then none
    else
      match cam.backgroundImages.filter (fun bg => bg.showBackgroundImage) with
      | [] => none
      | bg :: _ =>
        if bg.source ≠ "IMAGE" ∨ ¬ bg.hasImage then none else some bg

/-- One step of the `_create_alpha_chain` loop. -/
def alphaChainStep (start : Int × Int) (x_offset : Int)
    (st : Tree × List Nat) (i : Nat) : Tree × List Nat :=
  let (t, acc) := st
  let (t, aId) := tools.create_alpha_over_node t
    (start.1 + (i : Int) * x_offset, start.2) ("Alpha_Over_" ++ toString (i + 1))
  let t :=
    if 0 < i then
      match acc.getLast? with
      | some prevId => t.linkNew (prevId, 0) (aId, 1)
      | none => t
    else t
  (t, acc ++ [aId])

/-- `_create_alpha_chain`: `count` Alpha Over nodes, each previous output
0 linked into the next input 1. -/
def _create_alpha_chain (t : Tree) (count : Nat) (start : Int × Int)
    (x_offset : Int) : Tree × List Nat :=
  (List.range count).foldl (alphaChainStep start x_offset) (t, [])

/-- `_connect_alpha_inputs`: wires the optional background image node and
the composite Render Layers nodes into the alpha chain. -/
def _connect_alpha_inputs (t : Tree) (alphaIds compositeIds : List Nat)
    (imageNode : Option Nat) : Tree :=
  match imageNode with
  | some imgId =>
    let t := t.linkNewByNameFrom imgId "Image" (alphaIds.getD 0 0, 1)
    compositeIds.enum.foldl (fun t p =>
      if p.1 = 0 then t.linkNewByNameFrom p.2 "Image" (alphaIds.getD 0 0, 2)
      else t.linkNewByNameFrom p.2 "Image" (alphaIds.getD p.1 0, 2)) t
  | none =>
    match compositeIds with
    | [] => t
    | c0 :: restC =>
      let t := t.linkNewByNameFrom c0 "Image" (alphaIds.getD 0 0, 1)
      restC.enum.foldl (fun t p =>
        let i := p.1 + 1
        if i = 1 then t.linkNewByNameFrom p.2 "Image" (alphaIds.getD 0 0, 2)
        else t.linkNewByNameFrom p.2 "Image" (alphaIds.getD (i - 1) 0, 2)) t

/-- `_build_composite_chain`. -/
def _build_composite_chain (t : Tree) (s : Scene) (compositeIds : List Nat)
    (loc : Int × Int) : Tree × Option Nat :=
  if compositeIds.isEmpty then (t, none)
  else
    let current_x := loc.1
    let current_y := loc.2
    let x_offset : Int := 200
    let viewer_y_offset : Int := -150
    let bg := _get_camera_background_image s
    let (t, imageNode) :=
      match bg with
      | some b =>
        let (t, iid) := tools.create_image_node t b (current_x, current_y)
        (t, some iid)
      | none => (t, none)
    let has_background := imageNode.isSome
    let current_x := current_x + 800
    let total_inputs : Nat :=
      compositeIds.length + (if has_background then 1 else 0)
    let alpha_count : Nat := total_inputs - 1
    let composite_x := current_x + (alpha_count : Int) * x_offset +
      (if alpha_count ≠ 0 then 200 else 0)
    let (t, compId) := tools.create_composite_node t (composite_x, current_y)
    let (t, viewId) :=
      tools.create_viewer_node t (composite_x, current_y + viewer_y_offset)
    if total_inputs = 1 then
      let sourceId :=
        match imageNode with
        | some iid => iid
        | none => compositeIds.getD 0 0
      let t := t.linkByNames sourceId "Image" compId "Image"
      let t := t.linkByNames sourceId "Image" viewId "Image"
      (t, some compId)
    else
      let (t, alphaIds) :=
        _create_alpha_chain t alpha_count (current_x, current_y) x_offset
      let t := _connect_alpha_inputs t alphaIds compositeIds imageNode
      let lastAlpha := (alphaIds.getLast?).getD 0
      let t := t.linkByNames lastAlpha "Image" compId "Image"
      let t := t.linkByNames lastAlpha "Image" viewId "Image"
      (t, some compId)

/-- Result of `QQ_RENDER_OT_generate_nodes.execute`.  `layerNodes`
records, in processing order, the Render Layers and File Output node ids
the loop created for each view layer. -/
structure GenResult where
  tree : Tree
  status : OpStatus
  layerNodes : List (Nat × Nat)
deriving DecidableEq, Repr

/-- One iteration of the per-view-layer loop of `execute`. -/
def genLayerStep (cs : PassConsts) (s : Scene) (filepath : String)
    (st : Tree × Int × List (Nat × Nat)) (vl : ViewLayer) :
    Tree × Int × List (Nat × Nat) :=
  let (t, node_rl_offset, acc) := st
  let rl_location := ((0 : Int), node_rl_offset)
  let fo_location := ((800 : Int), node_rl_offset)
  let (t, rlId) := tools.create_render_layers_node t vl rl_location
  let project_name := if filepath ≠ "" then pathStem filepath else "untitled"
  let base_path := relative_path.build_base_path project_name vl.name
  let (t, foId) := tools.create_file_output_node t vl.name fo_location base_path
  let use_denoise :=
    if s.renderEngine = "CYCLES" then vl.denoisingStorePasses else false
  let make_y_up := s.makeYUp
  let t := _connect_passes cs t rlId foId use_denoise make_y_up
  let node_rl_offset := tools.estimate_lowest_node_position t - 50
  (t, node_rl_offset, acc ++ [(rlId, foId)])

/-- `QQ_RENDER_OT_generate_nodes.execute`.  `setup_compositor` enables
`scene.use_nodes` and hands back the scene tree `t0`. -/
def generate_nodes_execute (cs : PassConsts) (s : Scene) (filepath : String)
    (t0 : Tree) : GenResult :=
  let view_layers := tools.get_renderable_view_layers s
  if view_layers.isEmpty then ⟨t0, .cancelled, []⟩
  else
    let t := if s.clearNodesFlag then tools.clear_nodes t0 else t0
    let node_y_offset := tools.get_lowest_node_position t - 50
    let node_rl_offset := node_y_offset - 400
    let (t, _, pairs) :=
      view_layers.foldl (genLayerStep cs s filepath) (t, node_rl_offset, [])
    let composite_ids := _get_composite_render_layers t (pairs.map Prod.fst) s
    let t :=
      if ¬ composite_ids.isEmpty then
        (_build_composite_chain t s composite_ids (0, node_y_offset)).1
      else t
    ⟨t, .finished, pairs⟩

end render_nodes

/-! ## `core/path_utils.py` — disk-facing helpers -/

namespace path_utils

/-- `pathlib.Path(p).parent` as a string (lexical). -/
def parentDir (p : String) : String :=
  if p.data.contains '/' then
    String.mk ((p.data.reverse.dropWhile (fun c => c ≠ '/')).drop 1).reverse
  else "."

/-- Lexical part of `Path.resolve()`: collapse `.`, `..` and empty
components of an absolute path. -/
def normalizeAux : List String → List String → List String
  | acc, [] => acc.reverse
  | acc, p :: rest =>
    if p = "" ∨ p = "." then normalizeAux acc rest
    else if p = ".." then
      match acc with
      | [] => normalizeAux [] rest
      | _ :: as => normalizeAux as rest
    else normalizeAux (p :: acc) rest

/-- Split on `/` (as Python's `str.split("/")`: empty parts kept). -/
def splitSlashGo : List Char → List Char → List String
  | acc, [] => [String.mk acc.reverse]
  | acc, c :: rest =>
    if c = '/' then String.mk acc.reverse :: splitSlashGo [] rest
    else splitSlashGo (c :: acc) rest

def resolveString (p : String) : String :=
  "/" ++ String.intercalate "/" (normalizeAux [] (splitSlashGo [] p.data))

/-- `resolve_relative_path`: strip a Blender `//` marker and resolve
against the blend file's directory. -/
def resolve_relative_path (blend_path rel : String) : String :=
  let rel :=
    if rel.data.take 2 = ['/', '/'] then String.mk (rel.data.drop 2) else rel
  resolveString (parentDir blend_path ++ "/" ++ rel)

/-- `_SEQUENCE_PATTERN` (`[#@]+|%\d*d|\$F\d*`) found somewhere in the
string. -/
def hasSeqToken : List Char → Bool
  | [] => false
  | c :: rest =>
    if c = '#' ∨ c = '@' then true
    else if c = '%' then
      match rest.dropWhile Char.isDigit with
      | 'd' :: _ => true
      | _ => hasSeqToken rest
    else if c = '$' then
      match rest with
      | 'F' :: _ => true
      | _ => hasSeqToken rest
    else hasSeqToken rest

/-- `path_exists`: sequence patterns are checked on disk through the
vendored `fileseq` (not under `src/`), plain paths through
`Path.exists`; both are read-only disk-existence queries, abstracted by
the oracle `fsExists` indexed by the path string. -/
def path_exists (fsExists : String → Bool) (p : String) : Bool :=
  if hasSeqToken p.data then fsExists p else fsExists p

end path_utils

/-! ## `operators/render.py` and `QQ_RENDER_OT_update_output_paths` -/

def Node.isOutputFile (n : Node) : Bool :=
  match n.kind with
  | .outputFile _ _ => true
  | _ => false

def Node.basePathOf (n : Node) : String :=
  match n.kind with
  | .outputFile bp _ => bp
  | _ => ""

namespace render_ops

/-- `QQ_RENDER_OT_update_output_paths.execute`: rewrite every File
Output node's base path from its node name. -/
def update_output_paths_execute (s : Scene) (filepath : String)
    (t : Option Tree) : Option Tree × OpStatus :=
  match t with
  | none => (none, .cancelled)
  | some tree =>
    if ¬ s.useNodes then (some tree, .cancelled)
    else
      let project_name := if filepath ≠ "" then pathStem filepath else "untitled"
      let tree' := { tree with
        nodes := tree.nodes.map (fun n =>
          match n.kind with
          | .outputFile _ fmt =>
            { n with kind :=
                .outputFile (relative_path.build_base_path project_name n.name) fmt }
          | _ => n) }
      let cnt := (tree.nodes.filter Node.isOutputFile).length
      if cnt = 0 then (some tree', .cancelled) else (some tree', .finished)

/-- World state read by `QQ_RENDER_OT_check_and_render.invoke`:
`fsExists` is the read-only disk-existence oracle behind
`path_utils.path_exists`. -/
structure RenderWorld where
  filepath : String
  scene : Scene
  tree : Option Tree
  fsExists : String → Bool

/-- Outcome of `check_and_render.invoke`.  `renderImmediately` is the
tail call into `render_animation_execute`. -/
inductive RenderDecision where
  | cancelledUnsaved
  | cancelledNoFileOutput
  | renderImmediately
  | showOverwriteDialog (paths : List String)
deriving DecidableEq, Repr

/-- `QQ_RENDER_OT_check_and_render.invoke`. -/
def check_and_render_invoke (w : RenderWorld) : RenderDecision :=
  if w.filepath = "" then .cancelledUnsaved
  else
    let t1 :=
      if w.scene.updatePathsFlag then
        (update_output_paths_execute w.scene w.filepath w.tree).1
      else w.tree
    match t1, w.scene.useNodes with
    | none, _ => .renderImmediately
    | some _, false => .renderImmediately
    | some tree, true =>
      let blend_path := w.filepath
      let project_name := pathStem blend_path
      let cameraExisting : List String :=
        if w.scene.exportCameraFlag then
          let camera_relative := path_utils.build_camera_export_path project_name
          let camera_path :=
            path_utils.resolve_relative_path blend_path camera_relative
          if path_utils.path_exists w.fsExists camera_path then [camera_path]
          else []
        else []
      let foNodes := tree.nodes.filter Node.isOutputFile
      let foExisting := foNodes.filterMap (fun n =>
        let resolved :=
          path_utils.resolve_relative_path blend_path n.basePathOf
        if path_utils.path_exists w.fsExists resolved then some resolved
        else none)
      let existing := cameraExisting ++ foExisting
      if foNodes.length = 0 then .cancelledNoFileOutput
      else if ¬ existing.isEmpty then .showOverwriteDialog existing
      else .renderImmediately

end render_ops

/-! ## `operators/export.py` — camera export and its disk effects -/

namespace export_ops

/-- A filesystem side effect performed by an operator. -/
inductive FsEffect where
  | mkdirParents (dir : String)
  | writeFile (path : String)
deriving DecidableEq, Repr

structure ExportWorld where
  filepath : String
  hasCamera : Bool
  alembicOk : Bool
deriving DecidableEq, Repr

/-- `bpy.path.abspath`: replace a leading `//` with the blend file's
directory. -/
def bpy_abspath (blend_path rel : String) : String :=
  if rel.data.take 2 = ['/', '/'] then
    path_utils.parentDir blend_path ++ "/" ++ String.mk (rel.data.drop 2)
  else rel

/-- `QQ_RENDER_OT_export_camera.execute`, with its disk effects in
order: `export_path_obj.parent.mkdir(parents=True, exist_ok=True)`, then
`bpy.ops.wm.alembic_export(filepath=...)` writing the `.abc` file when
the host exporter succeeds.  The selection save/restore around the
export touches only scene state. -/
def export_camera_execute (w : ExportWorld) : OpStatus × List FsEffect :=
  if ¬ w.hasCamera then (.cancelled, [])
  else if w.filepath = "" then (.cancelled, [])
  else
    let project_name := pathStem w.filepath
    let rel := relative_path.build_camera_export_path project_name
    let export_path := bpy_abspath w.filepath rel
    let mkdirEff := FsEffect.mkdirParents (path_utils.parentDir export_path)
    if w.alembicOk then (.finished, [mkdirEff, .writeFile export_path])
    else (.cancelled, [mkdirEff])

end export_ops

/-! ## The vector-invert node group (`create_vector_invert_group`)

The group's internal compositor tree, with node ids in creation order:
Group Input 0, Group Output 1, Separate XYZ 2, Math-Multiply 3 (second
input's default value set to `-1`), Combine XYZ 4.  Pass data is
modelled over `Int`; the claimed transfer function is a component
permutation and sign flip, which is exact in the host's floats as
well. -/

namespace VecGroup

inductive GKind where
  | groupInput
  | groupOutput
  | separateXYZ
  | mathMultiply
  | combineXYZ
deriving DecidableEq, Repr

structure GNode where
  id : Nat
  kind : GKind
  defaults : List Int
deriving DecidableEq, Repr

structure GGraph where
  nodes : List GNode
  links : List Link
deriving DecidableEq, Repr

/-- The graph `create_vector_invert_group` builds, link for link. -/
def graph : GGraph :=
  { nodes :=
      [ ⟨0, .groupInput, []⟩, ⟨1, .groupOutput, [0]⟩, ⟨2, .separateXYZ, [0]⟩,
        ⟨3, .mathMultiply, [0, -1]⟩, ⟨4, .combineXYZ, [0, 0, 0]⟩ ]
    links :=
      [ ⟨0, 0, 2, 0⟩,   -- group input → separate
        ⟨2, 0, 4, 0⟩,   -- separate X → combine X
        ⟨2, 1, 3, 0⟩,   -- separate Y → multiply
        ⟨3, 0, 4, 2⟩,   -- multiply → combine Z
        ⟨2, 2, 4, 1⟩,   -- separate Z → combine Y
        ⟨4, 0, 1, 0⟩ ] }  -- combine → group output

inductive GVal where
  | s (x : Int)
  | v (p : Int × Int × Int)
deriving DecidableEq, Repr

def findNode (g : GGraph) (i : Nat) : Option GNode :=
  g.nodes.find? (fun n => n.id = i)

/-- Evaluate the value on output socket `port` of node `nid`, for group
input vector `v`; unlinked inputs fall back to the socket defaults. -/
def evalOut (g : GGraph) (v : Int × Int × Int) :
    Nat → Nat → Nat → Option GVal
  | 0, _, _ => none
  | fuel + 1, nid, port =>
    let inVal := fun (p : Nat) =>
      match g.links.find? (fun l => l.toNode = nid && l.toPort = p) with
      | some l => evalOut g v fuel l.fromNode l.fromPort
      | none => (findNode g nid).bind fun n => (n.defaults.get? p).map GVal.s
    match (findNode g nid).map GNode.kind with
    | some .groupInput => if port = 0 then some (GVal.v v) else none
    | some .separateXYZ =>
      match inVal 0 with
      | some (.v (x, y, z)) => ([x, y, z].get? port).map GVal.s
      | _ => none
    | some .mathMultiply =>
      if port = 0 then
        match inVal 0, inVal 1 with
        | some (.s a), some (.s b) => some (.s (a * b))
        | _, _ => none
      else none
    | some .combineXYZ =>
      if port = 0 then
        match inVal 0, inVal 1, inVal 2 with
        | some (.s a), some (.s b), some (.s c) => some (.v (a, b, c))
        | _, _, _ => none
      else none
    | _ => none

/-- The vector the group delivers on its output socket. -/
def groupMap (g : GGraph) (v : Int × Int × Int) : Option (Int × Int × Int) :=
  match g.links.find? (fun l => l.toNode = 1 && l.toPort = 0) with
  | some l =>
    match evalOut g v 8 l.fromNode l.fromPort with
    | some (.v p) => some p
    | _ => none
  | none => none

example : groupMap graph (3, 5, 7) = some (3, 7, -5) := by decide

end VecGroup

/-! ## Machinery: equations for the tree primitives -/

theorem list_find?_congr {α : Type} {p q : α → Bool} (l : List α)
    (h : ∀ a, p a = q a) : l.find? p = l.find? q := by
  induction l with
  | nil => rfl
  | cons a l ih =>
    simp only [List.find?]
    rw [h a, ih]

namespace Tree

theorem nodes_addNode (t : Tree) (mk : Nat → Node) :
    (t.addNode mk).1.nodes = t.nodes ++ [mk t.nextId] := rfl

theorem links_addNode (t : Tree) (mk : Nat → Node) :
    (t.addNode mk).1.links = t.links := rfl

theorem nextId_addNode (t : Tree) (mk : Nat → Node) :
    (t.addNode mk).1.nextId = t.nextId + 1 := rfl

theorem snd_addNode (t : Tree) (mk : Nat → Node) :
    (t.addNode mk).2 = t.nextId := rfl

theorem getNode_addNode (t : Tree) (mk : Nat → Node) (j : Nat)
    (hid : (mk t.nextId).id = t.nextId) (hw : TreeWF t) :
    (t.addNode mk).1.getNode j =
      if j = t.nextId then some (mk t.nextId) else t.getNode j := by
  have hsplit : (t.addNode mk).1.nodes = t.nodes ++ [mk t.nextId] := rfl
  unfold getNode
  rw [hsplit, List.find?_append]
  by_cases hj : j = t.nextId
  · subst hj
    have hnone : t.nodes.find? (fun n => n.id = t.nextId) = none := by
      rw [List.find?_eq_none]
      intro n hn
      have := hw.idsLt n hn
      simp only [decide_eq_true_eq]
      omega
    rw [hnone]
    simp [List.find?, hid]
  · have hone : List.find? (fun n => n.id = j) [mk t.nextId] = none := by
      rw [List.find?_eq_none]
      intro x hx
      simp only [List.mem_singleton] at hx
      subst hx
      simp only [hid, decide_eq_true_eq]
      omega
    rw [hone]
    simp [hj]

theorem getNode_updateNode (t : Tree) (i j : Nat) (f : Node → Node)
    (hf : ∀ n, (f n).id = n.id) :
    (t.updateNode i f).getNode j =
      (t.getNode j).map (fun n => if n.id = i then f n else n) := by
  unfold updateNode getNode
  rw [List.find?_map]
  refine congrArg _ (list_find?_congr _ ?_)
  intro a
  simp only [Function.comp]
  by_cases ha : a.id = i <;> simp [ha, hf]

theorem nodes_updateNode (t : Tree) (i : Nat) (f : Node → Node) :
    (t.updateNode i f).nodes = t.nodes.map (fun n => if n.id = i then f n else n) := rfl

theorem links_updateNode (t : Tree) (i : Nat) (f : Node → Node) :
    (t.updateNode i f).links = t.links := rfl

theorem nextId_updateNode (t : Tree) (i : Nat) (f : Node → Node) :
    (t.updateNode i f).nextId = t.nextId := rfl

theorem getNode_linkNew (t : Tree) (a b : Nat × Nat) (j : Nat) :
    (t.linkNew a b).getNode j = t.getNode j := rfl

theorem nodes_linkNew (t : Tree) (a b : Nat × Nat) :
    (t.linkNew a b).nodes = t.nodes := rfl

theorem links_linkNew (t : Tree) (a b : Nat × Nat) :
    (t.linkNew a b).links = t.links ++ [⟨a.1, a.2, b.1, b.2⟩] := rfl

theorem nextId_linkNew (t : Tree) (a b : Nat × Nat) :
    (t.linkNew a b).nextId = t.nextId := rfl

/-- The (zero- or one-element) link list `linkNewByNameFrom` appends. -/
def nameLinkFrom (t : Tree) (src : Nat) (nm : String) (dst : Nat × Nat) :
    List Link :=
  match t.getNode src with
  | none => []
  | some n =>
    match n.outputs.findIdx? (fun s => s.name = nm) with
    | none => []
    | some j => [⟨src, j, dst.1, dst.2⟩]

theorem linkNewByNameFrom_eq (t : Tree) (src : Nat) (nm : String)
    (dst : Nat × Nat) :
    t.linkNewByNameFrom src nm dst =
      { t with links := t.links ++ nameLinkFrom t src nm dst } := by
  unfold linkNewByNameFrom nameLinkFrom
  cases h1 : t.getNode src with
  | none => simp
  | some n =>
    cases h2 : n.outputs.findIdx? (fun s => s.name = nm) with
    | none => simp [h2]
    | some j => simp [h2, linkNew]

/-- The (zero- or one-element) link list `linkByNames` appends. -/
def namesLink (t : Tree) (src : Nat) (nmF : String) (dst : Nat)
    (nmT : String) : List Link :=
  match t.getNode src, t.getNode dst with
  | some a, some b =>
    match a.outputs.findIdx? (fun s => s.name = nmF),
        b.inputs.findIdx? (fun s => s.name = nmT) with
    | some j, some k => [⟨src, j, dst, k⟩]
    | _, _ => []
  | _, _ => []

theorem linkByNames_eq (t : Tree) (src : Nat) (nmF : String) (dst : Nat)
    (nmT : String) :
    t.linkByNames src nmF dst nmT =
      { t with links := t.links ++ namesLink t src nmF dst nmT } := by
  unfold linkByNames namesLink
  cases h1 : t.getNode src with
  | none => simp
  | some a =>
    cases h2 : t.getNode dst with
    | none => simp
    | some b =>
      cases h3 : a.outputs.findIdx? (fun s => s.name = nmF) with
      | none => simp [h3]
      | some j =>
        cases h4 : b.inputs.findIdx? (fun s => s.name = nmT) with
        | none => simp [h3, h4]
        | some k => simp [h3, h4, linkNew]

end Tree

theorem treeWF_addNode {t : Tree} (hw : TreeWF t) (mk : Nat → Node)
    (hid : (mk t.nextId).id = t.nextId) : TreeWF (t.addNode mk).1 := by
  refine ⟨?_, ?_⟩
  · intro n hn
    have hn' : n ∈ t.nodes ++ [mk t.nextId] := hn
    show n.id < t.nextId + 1
    rcases List.mem_append.1 hn' with h | h
    · have := hw.idsLt n h; omega
    · simp only [List.mem_singleton] at h
      subst h; omega
  · show (List.map Node.id (t.nodes ++ [mk t.nextId])).Nodup
    rw [List.map_append]
    refine List.Nodup.append hw.idsNodup (by simp) ?_
    intro x hx hy
    simp only [List.map_cons, List.map_nil, List.mem_singleton] at hy
    rcases List.mem_map.1 hx with ⟨n, hn, rfl⟩
    have := hw.idsLt n hn
    rw [hy, hid] at *
    omega

theorem treeWF_updateNode {t : Tree} (hw : TreeWF t) (i : Nat)
    (f : Node → Node) (hf : ∀ n, (f n).id = n.id) :
    TreeWF (t.updateNode i f) := by
  refine ⟨?_, ?_⟩
  · intro n hn
    have hn' : n ∈ t.nodes.map (fun n => if n.id = i then f n else n) := hn
    show n.id < t.nextId
    rcases List.mem_map.1 hn' with ⟨m, hm, rfl⟩
    have := hw.idsLt m hm
    by_cases h : m.id = i
    · simp only [h, if_true, hf]; omega
    · simp only [h, if_false]; omega
  · show (List.map Node.id
      (t.nodes.map (fun n => if n.id = i then f n else n))).Nodup
    have heq : (t.nodes.map (fun n => if n.id = i then f n else n)).map Node.id =
        t.nodes.map Node.id := by
      rw [List.map_map]
      refine List.map_congr_left ?_
      intro n _
      by_cases h : n.id = i <;> simp [Function.comp, h, hf]
    rw [heq]
    exact hw.idsNodup

theorem treeWF_linkNew {t : Tree} (hw : TreeWF t) (a b : Nat × Nat) :
    TreeWF (t.linkNew a b) := by
  constructor
  · intro n hn; exact hw.idsLt n hn
  · exact hw.idsNodup

/-! ## Machinery: characterization of `_connect_passes` -/

namespace Gen

/-- Slot renaming done by the pass loop. -/
def slotNameOf (sock : Socket) : String :=
  if sock.name = "Image" then "Beauty" else sock.name

/-- Append slots `ss` to the inputs of the node with id `foId`. -/
def updIn (foId : Nat) (ss : List Socket) (n : Node) : Node :=
  if n.id = foId then { n with inputs := n.inputs ++ ss } else n

theorem updIn_nil (foId : Nat) (n : Node) : updIn foId [] n = n := by
  unfold updIn
  split <;> simp

theorem updIn_comp (foId : Nat) (a b : List Socket) (n : Node) :
    updIn foId b (updIn foId a n) = updIn foId (a ++ b) n := by
  unfold updIn
  by_cases h : n.id = foId <;> simp [h, List.append_assoc]

theorem updIn_fresh (foId : Nat) (ss : List Socket) (n : Node)
    (h : n.id ≠ foId) : updIn foId ss n = n := by
  unfold updIn
  simp [h]

theorem updIn_id_eq (foId : Nat) (ss : List Socket) (n : Node) :
    (updIn foId ss n).id = n.id := by
  unfold updIn
  split <;> rfl

theorem map_updIn_nil (foId : Nat) (l : List Node) :
    l.map (updIn foId []) = l := by
  have h : updIn foId [] = id := by
    funext n
    exact updIn_nil foId n
  rw [h, List.map_id]

theorem map_updIn_comp (foId : Nat) (a b : List Socket) (l : List Node) :
    (l.map (updIn foId a)).map (updIn foId b) = l.map (updIn foId (a ++ b)) := by
  rw [List.map_map]
  refine List.map_congr_left ?_
  intro n _
  simp [Function.comp, updIn_comp]

/-- The link that `node.outputs[nm]` of the Render Layers node (with
output sockets `rlOuts`) contributes, if the name resolves. -/
def rlNameLink (rlId : Nat) (rlOuts : List Socket) (nm : String)
    (dst : Nat × Nat) : List Link :=
  match rlOuts.findIdx? (fun s => s.name = nm) with
  | none => []
  | some j => [⟨rlId, j, dst.1, dst.2⟩]

theorem nameLinkFrom_eq_rlNameLink (t : Tree) (src : Nat) (nm : String)
    (dst : Nat × Nat) (n : Node) (h : t.getNode src = some n) :
    Tree.nameLinkFrom t src nm dst = rlNameLink src n.outputs nm dst := by
  unfold Tree.nameLinkFrom rlNameLink
  rw [h]

/-- Pure recursion computing what the `_connect_passes` loop appends:
new helper nodes, new links, and the slots added to the File Output
node, starting from fresh id `nid` and current slot list `slots`. -/
def passPlan (cs : PassConsts) (rlId foId : Nat)
    (use_denoise make_y_up has_dd : Bool) (rl_x rl_y : Int)
    (rlOuts : List Socket) :
    List (Nat × Socket) → Int → Nat → List Socket →
      List Node × List Link × List Socket
  | [], _, _, _ => ([], [], [])
  | (j, sock) :: rest, yoff, nid, slots =>
    if ¬ sock.enabled ∨ cs.skipPasses.contains sock.name then
      passPlan cs rlId foId use_denoise make_y_up has_dd rl_x rl_y rlOuts
        rest yoff nid slots
    else
      let slot_name := slotNameOf sock
      let slots' := slots ++ [⟨slot_name, true⟩]
      let k := (slots'.findIdx? (fun s => s.name = slot_name)).getD 0
      if use_denoise && has_dd && cs.denoisePasses.contains sock.name then
        let d := tools.mkDenoise ("Denoise_" ++ sock.name)
          (rl_x + 450, rl_y + yoff) nid
        let P := passPlan cs rlId foId use_denoise make_y_up has_dd rl_x rl_y
          rlOuts rest (yoff - 30) (nid + 1) slots'
        (d :: P.1,
         [⟨rlId, j, nid, 0⟩] ++
           rlNameLink rlId rlOuts "Denoising Normal" (nid, 1) ++
           rlNameLink rlId rlOuts "Denoising Albedo" (nid, 2) ++
           [⟨nid, 0, foId, k⟩] ++ P.2.1,
         ⟨slot_name, true⟩ :: P.2.2)
      else if make_y_up && cs.invertYPasses.contains sock.name then
        let g := tools.mkInvertGroup (rl_x + 450, rl_y + yoff)
          ("Invert_" ++ sock.name) nid
        let P := passPlan cs rlId foId use_denoise make_y_up has_dd rl_x rl_y
          rlOuts rest (yoff - 30) (nid + 1) slots'
        (g :: P.1,
         [⟨rlId, j, nid, 0⟩, ⟨nid, 0, foId, k⟩] ++ P.2.1,
         ⟨slot_name, true⟩ :: P.2.2)
      else
        let P := passPlan cs rlId foId use_denoise make_y_up has_dd rl_x rl_y
          rlOuts rest yoff nid slots'
        (P.1, ⟨rlId, j, foId, k⟩ :: P.2.1, ⟨slot_name, true⟩ :: P.2.2)

theorem getNode_some {t : Tree} {j : Nat} {n : Node}
    (h : t.getNode j = some n) : n ∈ t.nodes ∧ n.id = j := by
  unfold Tree.getNode at h
  refine ⟨List.mem_of_find?_eq_some h, ?_⟩
  have := List.find?_some h
  simpa using this

theorem treeWF_congr {t t' : Tree} (hw : TreeWF t) (hn : t'.nodes = t.nodes)
    (hi : t'.nextId = t.nextId) : TreeWF t' := by
  refine ⟨?_, ?_⟩
  · intro n h
    rw [hn] at h
    rw [hi]
    exact hw.idsLt n h
  · rw [hn]
    exact hw.idsNodup

theorem getNode_addNode_lt (t : Tree) (mk : Nat → Node) (j : Nat)
    (hid : (mk t.nextId).id = t.nextId) (hw : TreeWF t) (hj : j < t.nextId) :
    (t.addNode mk).1.getNode j = t.getNode j := by
  rw [Tree.getNode_addNode t mk j hid hw, if_neg (by omega)]

theorem getNode_linkNewByNameFrom (t : Tree) (src : Nat) (nm : String)
    (dst : Nat × Nat) (j : Nat) :
    (t.linkNewByNameFrom src nm dst).getNode j = t.getNode j := by
  rw [Tree.linkNewByNameFrom_eq]
  rfl

theorem nodes_linkNewByNameFrom (t : Tree) (src : Nat) (nm : String)
    (dst : Nat × Nat) :
    (t.linkNewByNameFrom src nm dst).nodes = t.nodes := by
  rw [Tree.linkNewByNameFrom_eq]

theorem nextId_linkNewByNameFrom (t : Tree) (src : Nat) (nm : String)
    (dst : Nat × Nat) :
    (t.linkNewByNameFrom src nm dst).nextId = t.nextId := by
  rw [Tree.linkNewByNameFrom_eq]

theorem links_linkNewByNameFrom (t : Tree) (src : Nat) (nm : String)
    (dst : Nat × Nat) :
    (t.linkNewByNameFrom src nm dst).links =
      t.links ++ Tree.nameLinkFrom t src nm dst := by
  rw [Tree.linkNewByNameFrom_eq]

theorem getNode_linkByNames (t : Tree) (src : Nat) (nmF : String) (dst : Nat)
    (nmT : String) (j : Nat) :
    (t.linkByNames src nmF dst nmT).getNode j = t.getNode j := by
  rw [Tree.linkByNames_eq]
  rfl

theorem nodes_linkByNames (t : Tree) (src : Nat) (nmF : String) (dst : Nat)
    (nmT : String) :
    (t.linkByNames src nmF dst nmT).nodes = t.nodes := by
  rw [Tree.linkByNames_eq]

theorem nextId_linkByNames (t : Tree) (src : Nat) (nmF : String) (dst : Nat)
    (nmT : String) :
    (t.linkByNames src nmF dst nmT).nextId = t.nextId := by
  rw [Tree.linkByNames_eq]

theorem links_linkByNames (t : Tree) (src : Nat) (nmF : String) (dst : Nat)
    (nmT : String) :
    (t.linkByNames src nmF dst nmT).links =
      t.links ++ Tree.namesLink t src nmF dst nmT := by
  rw [Tree.linkByNames_eq]

theorem nodes_fileSlotsNew (t : Tree) (foId : Nat) (s : String) :
    (t.fileSlotsNew foId s).nodes = t.nodes.map (updIn foId [⟨s, true⟩]) := rfl

theorem links_fileSlotsNew (t : Tree) (foId : Nat) (s : String) :
    (t.fileSlotsNew foId s).links = t.links := rfl

theorem nextId_fileSlotsNew (t : Tree) (foId : Nat) (s : String) :
    (t.fileSlotsNew foId s).nextId = t.nextId := rfl

theorem getNode_fileSlotsNew (t : Tree) (foId : Nat) (s : String) (j : Nat) :
    (t.fileSlotsNew foId s).getNode j =
      (t.getNode j).map (updIn foId [⟨s, true⟩]) := by
  unfold Tree.fileSlotsNew
  rw [Tree.getNode_updateNode t foId j
    (fun n => { n with inputs := n.inputs ++ [⟨s, true⟩] }) (fun _ => rfl)]
  rfl

theorem treeWF_fileSlotsNew {t : Tree} (hw : TreeWF t) (foId : Nat)
    (s : String) : TreeWF (t.fileSlotsNew foId s) :=
  treeWF_updateNode hw foId _ (fun _ => rfl)

theorem treeWF_linkNewByNameFrom {t : Tree} (hw : TreeWF t) (src : Nat)
    (nm : String) (dst : Nat × Nat) : TreeWF (t.linkNewByNameFrom src nm dst) :=
  treeWF_congr hw (nodes_linkNewByNameFrom ..) (nextId_linkNewByNameFrom ..)

theorem treeWF_linkByNames {t : Tree} (hw : TreeWF t) (src : Nat)
    (nmF : String) (dst : Nat) (nmT : String) :
    TreeWF (t.linkByNames src nmF dst nmT) :=
  treeWF_congr hw (nodes_linkByNames ..) (nextId_linkByNames ..)

theorem tree_eq_of_fields {t1 t2 : Tree} (h1 : t1.nodes = t2.nodes)
    (h2 : t1.links = t2.links) (h3 : t1.nextId = t2.nextId) : t1 = t2 := by
  cases t1
  cases t2
  simp_all

theorem linkNewByNameFrom_rl (t : Tree) (src : Nat) (nm : String)
    (dst : Nat × Nat) (rl0 : Node) (h : t.getNode src = some rl0) :
    t.linkNewByNameFrom src nm dst =
      { t with links := t.links ++ rlNameLink src rl0.outputs nm dst } := by
  rw [Tree.linkNewByNameFrom_eq, nameLinkFrom_eq_rlNameLink t src nm dst rl0 h]

theorem connect_pass_with_denoise_spec (t : Tree) (rl0 : Node)
    (outRef target : Nat × Nat) (outName : String) (rlId : Nat)
    (loc : Int × Int) (hw : TreeWF t) (hrl : t.getNode rlId = some rl0) :
    render_nodes._connect_pass_with_denoise t outRef outName target rlId loc =
      { nodes := t.nodes ++ [tools.mkDenoise ("Denoise_" ++ outName) loc t.nextId],
        links := t.links ++
          ([⟨outRef.1, outRef.2, t.nextId, 0⟩] ++
            rlNameLink rlId rl0.outputs "Denoising Normal" (t.nextId, 1) ++
            rlNameLink rlId rl0.outputs "Denoising Albedo" (t.nextId, 2) ++
            [⟨t.nextId, 0, target.1, target.2⟩]),
        nextId := t.nextId + 1 } := by
  have hrlLt : rlId < t.nextId :=
    (getNode_some hrl).2 ▸ hw.idsLt rl0 (getNode_some hrl).1
  have hfind : t.nodes.find? (fun n => n.id = rlId) = some rl0 := hrl
  have hB : (Tree.mk (t.nodes ++ [tools.mkDenoise ("Denoise_" ++ outName) loc t.nextId])
      (t.links ++ [⟨outRef.1, outRef.2, t.nextId, 0⟩]) (t.nextId + 1)).getNode rlId
      = some rl0 := by
    unfold Tree.getNode
    rw [List.find?_append, hfind]
    rfl
  have hC : (Tree.mk (t.nodes ++ [tools.mkDenoise ("Denoise_" ++ outName) loc t.nextId])
      ((t.links ++ [⟨outRef.1, outRef.2, t.nextId, 0⟩]) ++
        rlNameLink rlId rl0.outputs "Denoising Normal" (t.nextId, 1)) (t.nextId + 1)).getNode rlId
      = some rl0 := by
    unfold Tree.getNode
    rw [List.find?_append, hfind]
    rfl
  unfold render_nodes._connect_pass_with_denoise tools.create_denoise_node
  show ((((Tree.mk (t.nodes ++ [tools.mkDenoise ("Denoise_" ++ outName) loc t.nextId])
      t.links (t.nextId + 1)).linkNew outRef (t.nextId, 0)).linkNewByNameFrom
        rlId "Denoising Normal" (t.nextId, 1)).linkNewByNameFrom
        rlId "Denoising Albedo" (t.nextId, 2)).linkNew (t.nextId, 0) target = _
  rw [show (Tree.mk (t.nodes ++ [tools.mkDenoise ("Denoise_" ++ outName) loc t.nextId])
      t.links (t.nextId + 1)).linkNew outRef (t.nextId, 0) =
      Tree.mk (t.nodes ++ [tools.mkDenoise ("Denoise_" ++ outName) loc t.nextId])
        (t.links ++ [⟨outRef.1, outRef.2, t.nextId, 0⟩]) (t.nextId + 1) from rfl]
  rw [linkNewByNameFrom_rl _ _ _ _ rl0 hB]
  rw [linkNewByNameFrom_rl _ _ _ _ rl0 hC]
  refine tree_eq_of_fields ?_ ?_ ?_
  · rfl
  · show _ = t.links ++ _
    simp [Tree.linkNew, List.append_assoc]
  · rfl

theorem connect_pass_with_invert_spec (t : Tree) (outRef target : Nat × Nat)
    (outName : String) (loc : Int × Int) :
    render_nodes._connect_pass_with_invert t outRef outName target loc =
      { nodes := t.nodes ++ [tools.mkInvertGroup loc ("Invert_" ++ outName) t.nextId],
        links := t.links ++
          [⟨outRef.1, outRef.2, t.nextId, 0⟩, ⟨t.nextId, 0, target.1, target.2⟩],
        nextId := t.nextId + 1 } := by
  unfold render_nodes._connect_pass_with_invert tools.create_vector_invert_group
  refine tree_eq_of_fields ?_ ?_ ?_
  · rfl
  · show _ = t.links ++ _
    simp [Tree.linkNew, Tree.addNode, List.append_assoc]
  · rfl

/-- Full characterization of the `_connect_passes` loop: running it over
a socket list appends exactly the `passPlan` nodes, links and slots. -/
theorem connectPassesGo_spec (cs : PassConsts) (rlId foId : Nat)
    (ud myu hdd : Bool) (rl_x rl_y : Int) :
    ∀ (socks : List (Nat × Socket)) (yoff : Int) (t : Tree) (rl0 fo : Node),
      TreeWF t → t.getNode rlId = some rl0 → t.getNode foId = some fo →
      rlId ≠ foId →
      render_nodes.connectPassesGo cs rlId foId ud myu hdd rl_x rl_y socks yoff t =
        Tree.mk
          (t.nodes.map (updIn foId
              (passPlan cs rlId foId ud myu hdd rl_x rl_y rl0.outputs socks yoff
                t.nextId fo.inputs).2.2) ++
            (passPlan cs rlId foId ud myu hdd rl_x rl_y rl0.outputs socks yoff
              t.nextId fo.inputs).1)
          (t.links ++
            (passPlan cs rlId foId ud myu hdd rl_x rl_y rl0.outputs socks yoff
              t.nextId fo.inputs).2.1)
          (t.nextId +
            (passPlan cs rlId foId ud myu hdd rl_x rl_y rl0.outputs socks yoff
              t.nextId fo.inputs).1.length) := by
  intro socks
  induction socks with
  | nil =>
    intro yoff t rl0 fo hw hrl hfo hne
    simp only [render_nodes.connectPassesGo, passPlan, map_updIn_nil,
      List.append_nil, List.length_nil, Nat.add_zero]
  | cons p rest ih =>
    obtain ⟨j, sock⟩ := p
    intro yoff t rl0 fo hw hrl hfo hne
    have hrlmem := getNode_some hrl
    have hfomem := getNode_some hfo
    have hrlLt : rlId < t.nextId := hrlmem.2 ▸ hw.idsLt rl0 hrlmem.1
    have hfoLt : foId < t.nextId := hfomem.2 ▸ hw.idsLt fo hfomem.1
    have hfo_id : fo.id = foId := hfomem.2
    have hrl_id : rl0.id = rlId := hrlmem.2
    have hrl0_ne : rl0.id ≠ foId := by rw [hrl_id]; exact hne
    simp only [render_nodes.connectPassesGo]
    conv_rhs => rw [passPlan]
    simp only [slotNameOf]
    split
    next hskip =>
      exact ih yoff t rl0 fo hw hrl hfo hne
    next hskip =>
      have h_t1_fo : (t.fileSlotsNew foId
            (if sock.name = "Image" then "Beauty" else sock.name)).getNode foId =
          some { fo with inputs := fo.inputs ++
            [(⟨if sock.name = "Image" then "Beauty" else sock.name, true⟩ : Socket)] } := by
        rw [getNode_fileSlotsNew, hfo]
        simp only [Option.map_some']
        unfold updIn
        rw [if_pos hfo_id]
      have h_t1_rl : (t.fileSlotsNew foId
            (if sock.name = "Image" then "Beauty" else sock.name)).getNode rlId =
          some rl0 := by
        rw [getNode_fileSlotsNew, hrl]
        simp only [Option.map_some']
        rw [updIn_fresh foId _ rl0 hrl0_ne]
      have hw1 : TreeWF (t.fileSlotsNew foId
          (if sock.name = "Image" then "Beauty" else sock.name)) :=
        treeWF_fileSlotsNew hw foId _
      have hfind : (fo.inputs ++
            [(⟨if sock.name = "Image" then "Beauty" else sock.name, true⟩ : Socket)]).findIdx?
            (fun s => s.name = (if sock.name = "Image" then "Beauty" else sock.name)) =
          some ((fo.inputs ++
            [(⟨if sock.name = "Image" then "Beauty" else sock.name, true⟩ : Socket)]).findIdx?
            (fun s => s.name = (if sock.name = "Image" then "Beauty" else sock.name)) |>.getD 0) := by
        cases h : (fo.inputs ++
            [(⟨if sock.name = "Image" then "Beauty" else sock.name, true⟩ : Socket)]).findIdx?
            (fun s => s.name = (if sock.name = "Image" then "Beauty" else sock.name)) with
        | none =>
          exfalso
          have hmem : (⟨if sock.name = "Image" then "Beauty" else sock.name, true⟩ : Socket) ∈
              fo.inputs ++
                [(⟨if sock.name = "Image" then "Beauty" else sock.name, true⟩ : Socket)] :=
            List.mem_append_right _ (by simp)
          have := List.findIdx?_eq_none_iff.mp h _ hmem
          simp at this
        | some k => rfl
      have hscrut : ((t.fileSlotsNew foId
            (if sock.name = "Image" then "Beauty" else sock.name)).getNode foId >>=
          fun fo' => render_nodes._find_target_input fo'
            (if sock.name = "Image" then "Beauty" else sock.name)) =
          some ((fo.inputs ++
            [(⟨if sock.name = "Image" then "Beauty" else sock.name, true⟩ : Socket)]).findIdx?
            (fun s => s.name = (if sock.name = "Image" then "Beauty" else sock.name)) |>.getD 0) := by
        rw [h_t1_fo]
        show render_nodes._find_target_input _ _ = _
        unfold render_nodes._find_target_input
        exact hfind
      split
      next heq =>
        rw [hscrut] at heq
        exact absurd heq (by simp)
      next k heq =>
        rw [hscrut] at heq
        have hk : k = ((fo.inputs ++
            [(⟨if sock.name = "Image" then "Beauty" else sock.name, true⟩ : Socket)]).findIdx?
            (fun s => s.name = (if sock.name = "Image" then "Beauty" else sock.name)) |>.getD 0) :=
          (Option.some.inj heq).symm
        subst hk
        split
        next hd =>
          rw [connect_pass_with_denoise_spec _ rl0 _ _ _ _ _ hw1 h_t1_rl]
          simp only [nodes_fileSlotsNew, links_fileSlotsNew, nextId_fileSlotsNew]
          have hf1 : List.find? (fun n => n.id = rlId)
              (t.nodes.map (updIn foId
                [(⟨if sock.name = "Image" then "Beauty" else sock.name, true⟩ : Socket)])) =
              some rl0 := h_t1_rl
          have hf2 : List.find? (fun n => n.id = foId)
              (t.nodes.map (updIn foId
                [(⟨if sock.name = "Image" then "Beauty" else sock.name, true⟩ : Socket)])) =
              some { fo with inputs := fo.inputs ++
                [(⟨if sock.name = "Image" then "Beauty" else sock.name, true⟩ : Socket)] } :=
            h_t1_fo
          have wf_te : TreeWF (Tree.mk
              (t.nodes.map (updIn foId
                  [(⟨if sock.name = "Image" then "Beauty" else sock.name, true⟩ : Socket)]) ++
                [tools.mkDenoise ("Denoise_" ++ sock.name) (rl_x + 450, rl_y + yoff) t.nextId])
              (t.links ++
                ([⟨rlId, j, t.nextId, 0⟩] ++
                  rlNameLink rlId rl0.outputs "Denoising Normal" (t.nextId, 1) ++
                  rlNameLink rlId rl0.outputs "Denoising Albedo" (t.nextId, 2) ++
                  [⟨t.nextId, 0, foId,
                    ((fo.inputs ++
                      [(⟨if sock.name = "Image" then "Beauty" else sock.name, true⟩ : Socket)]).findIdx?
                      (fun s => s.name = (if sock.name = "Image" then "Beauty" else sock.name)) |>.getD 0)⟩]))
              (t.nextId + 1)) :=
            treeWF_congr (treeWF_addNode hw1
              (tools.mkDenoise ("Denoise_" ++ sock.name) (rl_x + 450, rl_y + yoff)) rfl) rfl rfl
          have h_te_rl : (Tree.mk
              (t.nodes.map (updIn foId
                  [(⟨if sock.name = "Image" then "Beauty" else sock.name, true⟩ : Socket)]) ++
                [tools.mkDenoise ("Denoise_" ++ sock.name) (rl_x + 450, rl_y + yoff) t.nextId])
              (t.links ++
                ([⟨rlId, j, t.nextId, 0⟩] ++
                  rlNameLink rlId rl0.outputs "Denoising Normal" (t.nextId, 1) ++
                  rlNameLink rlId rl0.outputs "Denoising Albedo" (t.nextId, 2) ++
                  [⟨t.nextId, 0, foId,
                    ((fo.inputs ++
                      [(⟨if sock.name = "Image" then "Beauty" else sock.name, true⟩ : Socket)]).findIdx?
                      (fun s => s.name = (if sock.name = "Image" then "Beauty" else sock.name)) |>.getD 0)⟩]))
              (t.nextId + 1)).getNode rlId = some rl0 := by
            unfold Tree.getNode
            rw [List.find?_append, hf1]
            rfl
          have h_te_fo : (Tree.mk
              (t.nodes.map (updIn foId
                  [(⟨if sock.name = "Image" then "Beauty" else sock.name, true⟩ : Socket)]) ++
                [tools.mkDenoise ("Denoise_" ++ sock.name) (rl_x + 450, rl_y + yoff) t.nextId])
              (t.links ++
                ([⟨rlId, j, t.nextId, 0⟩] ++
                  rlNameLink rlId rl0.outputs "Denoising Normal" (t.nextId, 1) ++
                  rlNameLink rlId rl0.outputs "Denoising Albedo" (t.nextId, 2) ++
                  [⟨t.nextId, 0, foId,
                    ((fo.inputs ++
                      [(⟨if sock.name = "Image" then "Beauty" else sock.name, true⟩ : Socket)]).findIdx?
                      (fun s => s.name = (if sock.name = "Image" then "Beauty" else sock.name)) |>.getD 0)⟩]))
              (t.nextId + 1)).getNode foId =
              some { fo with inputs := fo.inputs ++
                [(⟨if sock.name = "Image" then "Beauty" else sock.name, true⟩ : Socket)] } := by
            unfold Tree.getNode
            rw [List.find?_append, hf2]
            rfl
          rw [ih (yoff - 30) _ rl0 _ wf_te h_te_rl h_te_fo hne]
          have hdneq : (tools.mkDenoise ("Denoise_" ++ sock.name)
              (rl_x + 450, rl_y + yoff) t.nextId).id ≠ foId := by
            show t.nextId ≠ foId
            omega
          refine tree_eq_of_fields ?_ ?_ ?_
          · show (_ ++ [_]).map _ ++ _ = _
            rw [List.map_append, map_updIn_comp]
            simp only [List.map_cons, List.map_nil]
            rw [updIn_fresh foId _ _ hdneq]
            rw [List.append_assoc]
            rfl
          · show (t.links ++ _) ++ _ = t.links ++ _
            rw [List.append_assoc]
          · show t.nextId + 1 + _ = t.nextId + _
            simp only [List.length_cons]
            omega
        next hd =>
          split
          next hi =>
            rw [connect_pass_with_invert_spec]
            simp only [nodes_fileSlotsNew, links_fileSlotsNew, nextId_fileSlotsNew]
            have hf1 : List.find? (fun n => n.id = rlId)
                (t.nodes.map (updIn foId
                  [(⟨if sock.name = "Image" then "Beauty" else sock.name, true⟩ : Socket)])) =
                some rl0 := h_t1_rl
            have hf2 : List.find? (fun n => n.id = foId)
                (t.nodes.map (updIn foId
                  [(⟨if sock.name = "Image" then "Beauty" else sock.name, true⟩ : Socket)])) =
                some { fo with inputs := fo.inputs ++
                  [(⟨if sock.name = "Image" then "Beauty" else sock.name, true⟩ : Socket)] } :=
              h_t1_fo
            have wf_te : TreeWF (Tree.mk
                (t.nodes.map (updIn foId
                    [(⟨if sock.name = "Image" then "Beauty" else sock.name, true⟩ : Socket)]) ++
                  [tools.mkInvertGroup (rl_x + 450, rl_y + yoff) ("Invert_" ++ sock.name) t.nextId])
                (t.links ++
                  [⟨rlId, j, t.nextId, 0⟩,
                   ⟨t.nextId, 0, foId,
                    ((fo.inputs ++
                      [(⟨if sock.name = "Image" then "Beauty" else sock.name, true⟩ : Socket)]).findIdx?
                      (fun s => s.name = (if sock.name = "Image" then "Beauty" else sock.name)) |>.getD 0)⟩])
                (t.nextId + 1)) :=
              treeWF_congr (treeWF_addNode hw1
                (tools.mkInvertGroup (rl_x + 450, rl_y + yoff) ("Invert_" ++ sock.name)) rfl) rfl rfl
            have h_te_rl : (Tree.mk
                (t.nodes.map (updIn foId
                    [(⟨if sock.name = "Image" then "Beauty" else sock.name, true⟩ : Socket)]) ++
                  [tools.mkInvertGroup (rl_x + 450, rl_y + yoff) ("Invert_" ++ sock.name) t.nextId])
                (t.links ++
                  [⟨rlId, j, t.nextId, 0⟩,
                   ⟨t.nextId, 0, foId,
                    ((fo.inputs ++
                      [(⟨if sock.name = "Image" then "Beauty" else sock.name, true⟩ : Socket)]).findIdx?
                      (fun s => s.name = (if sock.name = "Image" then "Beauty" else sock.name)) |>.getD 0)⟩])
                (t.nextId + 1)).getNode rlId = some rl0 := by
              unfold Tree.getNode
              rw [List.find?_append, hf1]
              rfl
            have h_te_fo : (Tree.mk
                (t.nodes.map (updIn foId
                    [(⟨if sock.name = "Image" then "Beauty" else sock.name, true⟩ : Socket)]) ++
                  [tools.mkInvertGroup (rl_x + 450, rl_y + yoff) ("Invert_" ++ sock.name) t.nextId])
                (t.links ++
                  [⟨rlId, j, t.nextId, 0⟩,
                   ⟨t.nextId, 0, foId,
                    ((fo.inputs ++
                      [(⟨if sock.name = "Image" then "Beauty" else sock.name, true⟩ : Socket)]).findIdx?
                      (fun s => s.name = (if sock.name = "Image" then "Beauty" else sock.name)) |>.getD 0)⟩])
                (t.nextId + 1)).getNode foId =
                some { fo with inputs := fo.inputs ++
                  [(⟨if sock.name = "Image" then "Beauty" else sock.name, true⟩ : Socket)] } := by
              unfold Tree.getNode
              rw [List.find?_append, hf2]
              rfl
            rw [ih (yoff - 30) _ rl0 _ wf_te h_te_rl h_te_fo hne]
            have hgneq : (tools.mkInvertGroup (rl_x + 450, rl_y + yoff)
                ("Invert_" ++ sock.name) t.nextId).id ≠ foId := by
              show t.nextId ≠ foId
              omega
            refine tree_eq_of_fields ?_ ?_ ?_
            · show (_ ++ [_]).map _ ++ _ = _
              rw [List.map_append, map_updIn_comp]
              simp only [List.map_cons, List.map_nil]
              rw [updIn_fresh foId _ _ hgneq]
              rw [List.append_assoc]
              rfl
            · show (t.links ++ _) ++ _ = t.links ++ _
              rw [List.append_assoc]
            · show t.nextId + 1 + _ = t.nextId + _
              simp only [List.length_cons]
              omega
          next hi =>
            simp only [Tree.linkNew, nodes_fileSlotsNew, links_fileSlotsNew,
              nextId_fileSlotsNew]
            have hf1 : List.find? (fun n => n.id = rlId)
                (t.nodes.map (updIn foId
                  [(⟨if sock.name = "Image" then "Beauty" else sock.name, true⟩ : Socket)])) =
                some rl0 := h_t1_rl
            have hf2 : List.find? (fun n => n.id = foId)
                (t.nodes.map (updIn foId
                  [(⟨if sock.name = "Image" then "Beauty" else sock.name, true⟩ : Socket)])) =
                some { fo with inputs := fo.inputs ++
                  [(⟨if sock.name = "Image" then "Beauty" else sock.name, true⟩ : Socket)] } :=
              h_t1_fo
            have wf_te : TreeWF (Tree.mk
                (t.nodes.map (updIn foId
                  [(⟨if sock.name = "Image" then "Beauty" else sock.name, true⟩ : Socket)]))
                (t.links ++
                  [⟨rlId, j, foId,
                    ((fo.inputs ++
                      [(⟨if sock.name = "Image" then "Beauty" else sock.name, true⟩ : Socket)]).findIdx?
                      (fun s => s.name = (if sock.name = "Image" then "Beauty" else sock.name)) |>.getD 0)⟩])
                t.nextId) :=
              treeWF_congr hw1 rfl rfl
            have h_te_rl : (Tree.mk
                (t.nodes.map (updIn foId
                  [(⟨if sock.name = "Image" then "Beauty" else sock.name, true⟩ : Socket)]))
                (t.links ++
                  [⟨rlId, j, foId,
                    ((fo.inputs ++
                      [(⟨if sock.name = "Image" then "Beauty" else sock.name, true⟩ : Socket)]).findIdx?
                      (fun s => s.name = (if sock.name = "Image" then "Beauty" else sock.name)) |>.getD 0)⟩])
                t.nextId).getNode rlId = some rl0 := hf1
            have h_te_fo : (Tree.mk
                (t.nodes.map (updIn foId
                  [(⟨if sock.name = "Image" then "Beauty" else sock.name, true⟩ : Socket)]))
                (t.links ++
                  [⟨rlId, j, foId,
                    ((fo.inputs ++
                      [(⟨if sock.name = "Image" then "Beauty" else sock.name, true⟩ : Socket)]).findIdx?
                      (fun s => s.name = (if sock.name = "Image" then "Beauty" else sock.name)) |>.getD 0)⟩])
                t.nextId).getNode foId =
                some { fo with inputs := fo.inputs ++
                  [(⟨if sock.name = "Image" then "Beauty" else sock.name, true⟩ : Socket)] } := hf2
            rw [ih yoff _ rl0 _ wf_te h_te_rl h_te_fo hne]
            refine tree_eq_of_fields ?_ ?_ ?_
            · show (t.nodes.map _).map _ ++ _ = _
              rw [map_updIn_comp]
              rfl
            · show (t.links ++ _) ++ _ = t.links ++ _
              rw [List.append_assoc]
              rfl
            · rfl

/-- The helper nodes `passPlan` creates carry consecutive fresh ids. -/
theorem passPlan_ids (cs : PassConsts) (rlId foId : Nat)
    (ud myu hdd : Bool) (rl_x rl_y : Int) (rlOuts : List Socket) :
    ∀ (socks : List (Nat × Socket)) (yoff : Int) (nid : Nat)
      (slots : List Socket),
      (passPlan cs rlId foId ud myu hdd rl_x rl_y rlOuts socks yoff nid
          slots).1.map Node.id =
        List.range' nid
          (passPlan cs rlId foId ud myu hdd rl_x rl_y rlOuts socks yoff nid
            slots).1.length := by
  intro socks
  induction socks with
  | nil => intro yoff nid slots; simp [passPlan]
  | cons p rest ih =>
    obtain ⟨j, sock⟩ := p
    intro yoff nid slots
    rw [passPlan]
    split
    next => exact ih yoff nid slots
    next =>
      split
      next =>
        simp only [List.map_cons, List.length_cons, ih]
        rw [List.range'_succ]
        rfl
      next =>
        split
        next =>
          simp only [List.map_cons, List.length_cons, ih]
          rw [List.range'_succ]
          rfl
        next =>
          exact ih yoff nid _

theorem find?_id_eq_none_of_wf {t : Tree} (hw : TreeWF t) (k : Nat)
    (hk : t.nextId ≤ k) : t.nodes.find? (fun n => n.id = k) = none := by
  rw [List.find?_eq_none]
  intro n hn
  have := hw.idsLt n hn
  simp only [decide_eq_true_eq]
  omega

/-- `_connect_passes` in terms of `passPlan`. -/
theorem connect_passes_spec (cs : PassConsts) (t : Tree) (rlId foId : Nat)
    (ud myu : Bool) (rl0 fo : Node) (hw : TreeWF t)
    (hrl : t.getNode rlId = some rl0) (hfo : t.getNode foId = some fo)
    (hne : rlId ≠ foId) :
    render_nodes._connect_passes cs t rlId foId ud myu =
      Tree.mk
        (t.nodes.map (updIn foId
            (passPlan cs rlId foId ud myu
              (if ud then render_nodes._has_denoising_data rl0 else false)
              rl0.location.1 rl0.location.2 rl0.outputs rl0.outputs.enum 0
              t.nextId fo.inputs).2.2) ++
          (passPlan cs rlId foId ud myu
            (if ud then render_nodes._has_denoising_data rl0 else false)
            rl0.location.1 rl0.location.2 rl0.outputs rl0.outputs.enum 0
            t.nextId fo.inputs).1)
        (t.links ++
          (passPlan cs rlId foId ud myu
            (if ud then render_nodes._has_denoising_data rl0 else false)
            rl0.location.1 rl0.location.2 rl0.outputs rl0.outputs.enum 0
            t.nextId fo.inputs).2.1)
        (t.nextId +
          (passPlan cs rlId foId ud myu
            (if ud then render_nodes._has_denoising_data rl0 else false)
            rl0.location.1 rl0.location.2 rl0.outputs rl0.outputs.enum 0
            t.nextId fo.inputs).1.length) := by
  unfold render_nodes._connect_passes
  rw [hrl]
  exact connectPassesGo_spec cs rlId foId ud myu
    (if ud then render_nodes._has_denoising_data rl0 else false)
    rl0.location.1 rl0.location.2 rl0.outputs.enum 0 t rl0 fo hw hrl hfo hne

/-- Nodes whose id is not `foId` are untouched by `updIn`. -/
theorem map_updIn_of_ne (foId : Nat) (ss : List Socket) (l : List Node)
    (h : ∀ n ∈ l, n.id ≠ foId) : l.map (updIn foId ss) = l := by
  conv_rhs => rw [← List.map_id l]
  refine List.map_congr_left ?_
  intro n hn
  rw [updIn_fresh foId ss n (h n hn)]
  rfl

/-- What the per-layer pass loop appends, for the Render Layers and File
Output nodes the layer step creates (fresh ids `n` and `n + 1`). -/
def layerPlan (cs : PassConsts) (s : Scene) (vl : ViewLayer) (n : Nat)
    (off : Int) : List Node × List Link × List Socket :=
  passPlan cs n (n + 1)
    (if s.renderEngine = "CYCLES" then vl.denoisingStorePasses else false)
    s.makeYUp
    (if (if s.renderEngine = "CYCLES" then vl.denoisingStorePasses else false)
      then render_nodes._has_denoising_data (tools.mkRenderLayers vl (0, off) n)
      else false)
    0 off vl.passes vl.passes.enum 0 (n + 2) []

/-- The File Output node a layer step creates (before slots are added). -/
def layerFO (fp : String) (vl : ViewLayer) (n : Nat) (off : Int) : Node :=
  tools.mkFileOutput vl.name (800, off)
    (relative_path.build_base_path
      (if fp ≠ "" then pathStem fp else "untitled") vl.name)
    (n + 1)

/-- All nodes a layer step appends, in creation order (the File Output
node carries its final slot list). -/
def layerNodes (cs : PassConsts) (s : Scene) (fp : String) (vl : ViewLayer)
    (n : Nat) (off : Int) : List Node :=
  [tools.mkRenderLayers vl (0, off) n,
   updIn (n + 1) (layerPlan cs s vl n off).2.2 (layerFO fp vl n off)] ++
    (layerPlan cs s vl n off).1

/-- Appending freshly-numbered nodes preserves well-formedness. -/
theorem treeWF_extend (t : Tree) (hw : TreeWF t) (ns : List Node)
    (L : List Link) (k : Nat)
    (hids : ns.map Node.id = List.range' t.nextId ns.length)
    (hk : k = t.nextId + ns.length) :
    TreeWF (Tree.mk (t.nodes ++ ns) L k) := by
  refine ⟨?_, ?_⟩
  · intro n hn
    show n.id < k
    rcases List.mem_append.1 hn with h | h
    · have := hw.idsLt n h
      omega
    · have : n.id ∈ ns.map Node.id := List.mem_map_of_mem Node.id h
      rw [hids] at this
      have := List.mem_range'.1 this
      omega
  · show (List.map Node.id (t.nodes ++ ns)).Nodup
    rw [List.map_append, hids]
    refine List.Nodup.append hw.idsNodup (List.nodup_range' ..) ?_
    intro x hx hy
    rcases List.mem_map.1 hx with ⟨n, hn, rfl⟩
    have h1 := hw.idsLt n hn
    have h2 := List.mem_range'.1 hy
    omega

/-- One per-layer iteration of `execute`, in terms of `layerNodes` and
`layerPlan` (the produced y-offset is opaque). -/
theorem genLayerStep_spec (cs : PassConsts) (s : Scene) (fp : String)
    (vl : ViewLayer) (t : Tree) (off : Int) (acc : List (Nat × Nat))
    (hw : TreeWF t) :
    ∃ off' : Int,
      render_nodes.genLayerStep cs s fp (t, off, acc) vl =
        (Tree.mk (t.nodes ++ layerNodes cs s fp vl t.nextId off)
          (t.links ++ (layerPlan cs s vl t.nextId off).2.1)
          (t.nextId + 2 + (layerPlan cs s vl t.nextId off).1.length),
         off',
         acc ++ [(t.nextId, t.nextId + 1)]) := by
  have h0 : render_nodes.genLayerStep cs s fp (t, off, acc) vl =
      (render_nodes._connect_passes cs
        (Tree.mk ((t.nodes ++ [tools.mkRenderLayers vl (0, off) t.nextId]) ++
            [layerFO fp vl t.nextId off]) t.links (t.nextId + 1 + 1))
        t.nextId (t.nextId + 1)
        (if s.renderEngine = "CYCLES" then vl.denoisingStorePasses else false)
        s.makeYUp,
       tools.estimate_lowest_node_position
        (render_nodes._connect_passes cs
          (Tree.mk ((t.nodes ++ [tools.mkRenderLayers vl (0, off) t.nextId]) ++
              [layerFO fp vl t.nextId off]) t.links (t.nextId + 1 + 1))
          t.nextId (t.nextId + 1)
          (if s.renderEngine = "CYCLES" then vl.denoisingStorePasses else false)
          s.makeYUp) - 50,
       acc ++ [(t.nextId, t.nextId + 1)]) := rfl
  have hw1 : TreeWF (Tree.mk (t.nodes ++ [tools.mkRenderLayers vl (0, off) t.nextId])
      t.links (t.nextId + 1)) :=
    treeWF_extend t hw [tools.mkRenderLayers vl (0, off) t.nextId] t.links
      (t.nextId + 1) rfl rfl
  have hw2 : TreeWF (Tree.mk ((t.nodes ++ [tools.mkRenderLayers vl (0, off) t.nextId]) ++
      [layerFO fp vl t.nextId off]) t.links (t.nextId + 1 + 1)) :=
    treeWF_extend _ hw1 [layerFO fp vl t.nextId off] t.links (t.nextId + 1 + 1)
      rfl rfl
  have hrl2 : (Tree.mk ((t.nodes ++ [tools.mkRenderLayers vl (0, off) t.nextId]) ++
      [layerFO fp vl t.nextId off]) t.links (t.nextId + 1 + 1)).getNode t.nextId =
      some (tools.mkRenderLayers vl (0, off) t.nextId) := by
    unfold Tree.getNode
    show ((t.nodes ++ [tools.mkRenderLayers vl (0, off) t.nextId]) ++
      [layerFO fp vl t.nextId off]).find? (fun n => n.id = t.nextId) = _
    rw [List.find?_append, List.find?_append,
      find?_id_eq_none_of_wf hw t.nextId le_rfl,
      List.find?_cons_of_pos _ (by simp [tools.mkRenderLayers])]
    rfl
  have hfo2 : (Tree.mk ((t.nodes ++ [tools.mkRenderLayers vl (0, off) t.nextId]) ++
      [layerFO fp vl t.nextId off]) t.links (t.nextId + 1 + 1)).getNode (t.nextId + 1) =
      some (layerFO fp vl t.nextId off) := by
    unfold Tree.getNode
    show ((t.nodes ++ [tools.mkRenderLayers vl (0, off) t.nextId]) ++
      [layerFO fp vl t.nextId off]).find? (fun n => n.id = t.nextId + 1) = _
    rw [List.find?_append, List.find?_append,
      find?_id_eq_none_of_wf hw (t.nextId + 1) (by omega),
      List.find?_cons_of_neg _ (by simp [tools.mkRenderLayers]),
      List.find?_cons_of_pos _ (by simp [layerFO, tools.mkFileOutput])]
    rfl
  have hTree : render_nodes._connect_passes cs
      (Tree.mk ((t.nodes ++ [tools.mkRenderLayers vl (0, off) t.nextId]) ++
          [layerFO fp vl t.nextId off]) t.links (t.nextId + 1 + 1))
      t.nextId (t.nextId + 1)
      (if s.renderEngine = "CYCLES" then vl.denoisingStorePasses else false)
      s.makeYUp =
      Tree.mk (t.nodes ++ layerNodes cs s fp vl t.nextId off)
        (t.links ++ (layerPlan cs s vl t.nextId off).2.1)
        (t.nextId + 2 + (layerPlan cs s vl t.nextId off).1.length) := by
    rw [connect_passes_spec cs _ t.nextId (t.nextId + 1) _ s.makeYUp
      (tools.mkRenderLayers vl (0, off) t.nextId) (layerFO fp vl t.nextId off)
      hw2 hrl2 hfo2 (by omega)]
    refine tree_eq_of_fields ?_ ?_ ?_
    · show ((t.nodes ++ [tools.mkRenderLayers vl (0, off) t.nextId]) ++
        [layerFO fp vl t.nextId off]).map _ ++ _ = _
      rw [List.map_append, List.map_append]
      rw [map_updIn_of_ne _ _ t.nodes (fun n hn => by have := hw.idsLt n hn; omega)]
      simp only [List.map_cons, List.map_nil]
      rw [updIn_fresh (t.nextId + 1) _ (tools.mkRenderLayers vl (0, off) t.nextId)
        (by simp [tools.mkRenderLayers])]
      rw [List.append_assoc, List.append_assoc]
      rfl
    · rfl
    · rfl
  refine ⟨tools.estimate_lowest_node_position
    (Tree.mk (t.nodes ++ layerNodes cs s fp vl t.nextId off)
      (t.links ++ (layerPlan cs s vl t.nextId off).2.1)
      (t.nextId + 2 + (layerPlan cs s vl t.nextId off).1.length)) - 50, ?_⟩
  rw [h0, hTree]

theorem layerNodes_length (cs : PassConsts) (s : Scene) (fp : String)
    (vl : ViewLayer) (n : Nat) (off : Int) :
    (layerNodes cs s fp vl n off).length =
      2 + (layerPlan cs s vl n off).1.length := by
  simp [layerNodes]
  omega

theorem layerNodes_ids (cs : PassConsts) (s : Scene) (fp : String)
    (vl : ViewLayer) (n : Nat) (off : Int) :
    (layerNodes cs s fp vl n off).map Node.id =
      List.range' n (layerNodes cs s fp vl n off).length := by
  rw [layerNodes_length]
  show ([_, _] ++ (layerPlan cs s vl n off).1).map Node.id = _
  rw [List.map_append]
  have h1 : ([tools.mkRenderLayers vl (0, off) n,
      updIn (n + 1) (layerPlan cs s vl n off).2.2 (layerFO fp vl n off)]).map
        Node.id = List.range' n 2 := by
    show [_, _] = _
    rw [updIn_id_eq]
    rfl
  have h2 : (layerPlan cs s vl n off).1.map Node.id =
      List.range' (n + 2) (layerPlan cs s vl n off).1.length :=
    passPlan_ids cs n (n + 1)
      (if s.renderEngine = "CYCLES" then vl.denoisingStorePasses else false)
      s.makeYUp
      (if (if s.renderEngine = "CYCLES" then vl.denoisingStorePasses else false)
        then render_nodes._has_denoising_data (tools.mkRenderLayers vl (0, off) n)
        else false)
      0 off vl.passes vl.passes.enum 0 (n + 2) []
  rw [h1, h2]
  have := List.range'_append n 2 (layerPlan cs s vl n off).1.length 1
  simp only [one_mul] at this
  rw [this, Nat.add_comm]

/-- What the whole per-layer loop of `execute` appends, for a list of
view layers paired with their y-offsets and a starting fresh id:
`(new nodes, new links, (render-layers id, file-output id) pairs,
final fresh id)`. -/
def genPlan (cs : PassConsts) (s : Scene) (fp : String) :
    List (ViewLayer × Int) → Nat →
      List Node × List Link × List (Nat × Nat) × Nat
  | [], n => ([], [], [], n)
  | (vl, off) :: rest, n =>
    let R := genPlan cs s fp rest (n + 2 + (layerPlan cs s vl n off).1.length)
    (layerNodes cs s fp vl n off ++ R.1,
     (layerPlan cs s vl n off).2.1 ++ R.2.1,
     (n, n + 1) :: R.2.2.1,
     R.2.2.2)

theorem genPlan_ids (cs : PassConsts) (s : Scene) (fp : String) :
    ∀ (l : List (ViewLayer × Int)) (n : Nat),
      (genPlan cs s fp l n).1.map Node.id =
          List.range' n (genPlan cs s fp l n).1.length ∧
        (genPlan cs s fp l n).2.2.2 = n + (genPlan cs s fp l n).1.length := by
  intro l
  induction l with
  | nil => intro n; simp [genPlan]
  | cons p rest ih =>
    obtain ⟨vl, off⟩ := p
    intro n
    rw [genPlan]
    obtain ⟨ih1, ih2⟩ := ih (n + 2 + (layerPlan cs s vl n off).1.length)
    refine ⟨?_, ?_⟩
    · show (layerNodes cs s fp vl n off ++ _).map Node.id = _
      rw [List.map_append, layerNodes_ids, ih1, List.length_append,
        layerNodes_length]
      have := List.range'_append n (2 + (layerPlan cs s vl n off).1.length)
        (genPlan cs s fp rest (n + 2 + (layerPlan cs s vl n off).1.length)).1.length 1
      simp only [one_mul] at this
      rw [show n + (2 + (layerPlan cs s vl n off).1.length) =
        n + 2 + (layerPlan cs s vl n off).1.length by omega] at this
      rw [this]
      congr 1
      omega
    · show (genPlan cs s fp rest _).2.2.2 = _
      rw [ih2]
      show _ = n + (layerNodes cs s fp vl n off ++ _).length
      rw [List.length_append, layerNodes_length]
      omega

/-- The whole per-layer loop, in terms of `genPlan`; the y-offsets fed to
each layer are existentially quantified (no claim depends on node
positions). -/
theorem genFold_spec (cs : PassConsts) (s : Scene) (fp : String) :
    ∀ (layers : List ViewLayer) (t : Tree) (off : Int)
      (acc : List (Nat × Nat)), TreeWF t →
      ∃ (offs : List Int) (off' : Int),
        offs.length = layers.length ∧
        layers.foldl (render_nodes.genLayerStep cs s fp) (t, off, acc) =
          (Tree.mk (t.nodes ++ (genPlan cs s fp (layers.zip offs) t.nextId).1)
            (t.links ++ (genPlan cs s fp (layers.zip offs) t.nextId).2.1)
            (genPlan cs s fp (layers.zip offs) t.nextId).2.2.2,
           off',
           acc ++ (genPlan cs s fp (layers.zip offs) t.nextId).2.2.1) := by
  intro layers
  induction layers with
  | nil =>
    intro t off acc hw
    exact ⟨[], off, rfl, by simp [genPlan]⟩
  | cons vl rest ih =>
    intro t off acc hw
    obtain ⟨off1, hstep⟩ := genLayerStep_spec cs s fp vl t off acc hw
    have hwstep : TreeWF (Tree.mk (t.nodes ++ layerNodes cs s fp vl t.nextId off)
        (t.links ++ (layerPlan cs s vl t.nextId off).2.1)
        (t.nextId + 2 + (layerPlan cs s vl t.nextId off).1.length)) :=
      treeWF_extend t hw _ _ _ (layerNodes_ids ..)
        (by rw [layerNodes_length]; omega)
    obtain ⟨offs, off', hlen, hfold⟩ := ih
      (Tree.mk (t.nodes ++ layerNodes cs s fp vl t.nextId off)
        (t.links ++ (layerPlan cs s vl t.nextId off).2.1)
        (t.nextId + 2 + (layerPlan cs s vl t.nextId off).1.length))
      off1 (acc ++ [(t.nextId, t.nextId + 1)]) hwstep
    refine ⟨off :: offs, off', by simp [hlen], ?_⟩
    rw [List.foldl_cons, hstep, hfold]
    rw [List.zip_cons_cons, genPlan]
    simp only [Prod.mk.injEq]
    refine ⟨tree_eq_of_fields ?_ ?_ ?_, trivial, ?_⟩
    · show (t.nodes ++ _) ++ _ = t.nodes ++ (_ ++ _)
      rw [List.append_assoc]
    · show (t.links ++ _) ++ _ = t.links ++ (_ ++ _)
      rw [List.append_assoc]
    · rfl
    · show (acc ++ [(t.nextId, t.nextId + 1)]) ++ _ = acc ++ ((t.nextId, t.nextId + 1) :: _)
      rw [List.append_assoc]
      rfl

/-- The remove-while-iterating loop only ever keeps elements of the
original collection. -/
theorem pyRemoveEachGo_sublist :
    ∀ (fuel i : Nat) (ns : List Node),
      (tools.pyRemoveEachGo fuel i ns).Sublist ns := by
  intro fuel
  induction fuel with
  | zero => intro i ns; exact List.Sublist.refl ns
  | succ f ih =>
    intro i ns
    rw [tools.pyRemoveEachGo]
    split
    · exact (ih (i + 1) (ns.eraseIdx i)).trans (List.eraseIdx_sublist ns i)
    · exact List.Sublist.refl ns

theorem pyRemoveEach_sublist (i : Nat) (ns : List Node) :
    (tools.pyRemoveEach i ns).Sublist ns :=
  pyRemoveEachGo_sublist ns.length i ns

theorem treeWF_clear {t : Tree} (hw : TreeWF t) : TreeWF (tools.clear_nodes t) := by
  have hsub := pyRemoveEach_sublist 0 t.nodes
  refine ⟨?_, ?_⟩
  · intro n hn
    exact hw.idsLt n (hsub.subset hn)
  · exact (hsub.map Node.id).nodup hw.idsNodup

/-- Nodes the alpha-over loop creates, in order. -/
def alphaNodesList (start : Int × Int) (x_offset : Int) (n0 count : Nat) :
    List Node :=
  (List.range count).map (fun (i : Nat) =>
    tools.mkAlphaOver (start.1 + (i : Int) * x_offset, start.2)
      ("Alpha_Over_" ++ toString (i + 1)) (n0 + i))

/-- The chain links of `_create_alpha_chain` (output 0 of each node into
input 1 of the next). -/
def alphaChainLinks (n0 count : Nat) : List Link :=
  (List.range (count - 1)).map (fun i => ⟨n0 + i, 0, n0 + i + 1, 1⟩)

theorem alphaNodesList_succ (start : Int × Int) (x_offset : Int) (n0 c : Nat) :
    alphaNodesList start x_offset n0 (c + 1) =
      alphaNodesList start x_offset n0 c ++
        [tools.mkAlphaOver (start.1 + (c : Int) * x_offset, start.2)
          ("Alpha_Over_" ++ toString (c + 1)) (n0 + c)] := by
  unfold alphaNodesList
  rw [List.range_succ, List.map_append]
  rfl

theorem alphaChainLinks_succ (n0 c : Nat) :
    alphaChainLinks n0 (c + 1 + 1) =
      alphaChainLinks n0 (c + 1) ++ [⟨n0 + c, 0, n0 + c + 1, 1⟩] := by
  unfold alphaChainLinks
  rw [show (c + 1 + 1 - 1 : Nat) = Nat.succ c from rfl, List.range_succ,
    List.map_append]
  rfl

theorem range'_getLast? (n0 c : Nat) (hc : 0 < c) :
    (List.range' n0 c).getLast? = some (n0 + (c - 1)) := by
  obtain ⟨k, rfl⟩ : ∃ k, c = k + 1 := ⟨c - 1, by omega⟩
  rw [List.range'_1_concat, List.getLast?_concat]
  simp

theorem create_alpha_chain_spec (start : Int × Int) (x_offset : Int) :
    ∀ (count : Nat) (t : Tree),
      render_nodes._create_alpha_chain t count start x_offset =
        (Tree.mk (t.nodes ++ alphaNodesList start x_offset t.nextId count)
          (t.links ++ alphaChainLinks t.nextId count)
          (t.nextId + count),
         List.range' t.nextId count) := by
  intro count
  induction count with
  | zero =>
    intro t
    simp [render_nodes._create_alpha_chain, alphaNodesList, alphaChainLinks]
  | succ c ih =>
    intro t
    unfold render_nodes._create_alpha_chain at ih ⊢
    rw [List.range_succ, List.foldl_append, ih]
    simp only [List.foldl_cons, List.foldl_nil]
    unfold render_nodes.alphaChainStep tools.create_alpha_over_node
    cases c with
    | zero =>
      simp only [Nat.lt_irrefl, if_false]
      refine Prod.ext (tree_eq_of_fields ?_ ?_ ?_) ?_
      · show (t.nodes ++ _) ++ _ = t.nodes ++ _
        rw [List.append_assoc]
        rfl
      · rfl
      · rfl
      · rfl
    | succ k =>
      simp only [Nat.zero_lt_succ, if_true]
      rw [range'_getLast? t.nextId (k + 1) (by omega)]
      refine Prod.ext (tree_eq_of_fields ?_ ?_ ?_) ?_
      · show ((t.nodes ++ _) ++ [_]) = t.nodes ++ _
        rw [List.append_assoc]
        refine congrArg _ ?_
        conv_rhs => rw [alphaNodesList_succ]
      · show (t.links ++ _) ++ [_] = t.links ++ _
        rw [List.append_assoc]
        refine congrArg _ ?_
        conv_rhs => rw [alphaChainLinks_succ]
        rfl
      · show t.nextId + (k + 1) + 1 = t.nextId + (k + 1 + 1)
        omega
      · show List.range' t.nextId (k + 1) ++ [t.nextId + (k + 1)] =
          List.range' t.nextId (k + 1 + 1)
        conv_rhs => rw [List.range'_1_concat]

theorem nameLinkFrom_congr {t1 t2 : Tree} (h : t1.nodes = t2.nodes)
    (src : Nat) (nm : String) (dst : Nat × Nat) :
    Tree.nameLinkFrom t1 src nm dst = Tree.nameLinkFrom t2 src nm dst := by
  unfold Tree.nameLinkFrom Tree.getNode
  rw [h]

/-- A left fold that only adds by-name links appends the links resolved
against the starting tree. -/
theorem foldl_byname_spec (nm : String) (dstf : Nat × Nat → Nat × Nat) :
    ∀ (l : List (Nat × Nat)) (f : Tree → Nat × Nat → Tree) (t : Tree),
      (∀ (t' : Tree) (p : Nat × Nat), p ∈ l →
        f t' p = t'.linkNewByNameFrom p.2 nm (dstf p)) →
      l.foldl f t =
        { t with links := t.links ++
            (l.map (fun p => Tree.nameLinkFrom t p.2 nm (dstf p))).flatten } := by
  intro l
  induction l with
  | nil =>
    intro f t _
    simp
  | cons p ps ih =>
    intro f t hf
    rw [List.foldl_cons, hf t p (by simp)]
    rw [Tree.linkNewByNameFrom_eq]
    rw [ih f _ (fun t' q hq => hf t' q (by simp [hq]))]
    refine tree_eq_of_fields rfl ?_ rfl
    show (t.links ++ _) ++ _ = t.links ++ _
    rw [List.append_assoc]
    refine congrArg _ ?_
    show Tree.nameLinkFrom t p.2 nm (dstf p) ++ _ = _
    rw [List.map_cons, List.flatten_cons]
    refine congrArg _ ?_
    refine congrArg _ (List.map_congr_left ?_)
    intro q _
    exact nameLinkFrom_congr rfl q.2 nm (dstf q)

/-- The links `_connect_alpha_inputs` adds, resolved against the tree it
runs on (whose nodes it never changes). -/
def alphaInputLinks (t : Tree) (alphaIds cIds : List Nat)
    (img : Option Nat) : List Link :=
  match img with
  | some imgId =>
    Tree.nameLinkFrom t imgId "Image" (alphaIds.getD 0 0, 1) ++
      (cIds.enum.map (fun p =>
        Tree.nameLinkFrom t p.2 "Image" (alphaIds.getD p.1 0, 2))).flatten
  | none =>
    match cIds with
    | [] => []
    | c0 :: restC =>
      Tree.nameLinkFrom t c0 "Image" (alphaIds.getD 0 0, 1) ++
        (restC.enum.map (fun p =>
          Tree.nameLinkFrom t p.2 "Image" (alphaIds.getD p.1 0, 2))).flatten

theorem connect_alpha_inputs_spec (t : Tree) (alphaIds cIds : List Nat)
    (img : Option Nat) :
    render_nodes._connect_alpha_inputs t alphaIds cIds img =
      { t with links := t.links ++ alphaInputLinks t alphaIds cIds img } := by
  cases img with
  | some imgId =>
    unfold render_nodes._connect_alpha_inputs alphaInputLinks
    dsimp only
    rw [Tree.linkNewByNameFrom_eq]
    rw [foldl_byname_spec "Image" (fun p => (alphaIds.getD p.1 0, 2)) cIds.enum _ _ ?_]
    · refine tree_eq_of_fields rfl ?_ rfl
      show (t.links ++ _) ++ _ = t.links ++ (_ ++ _)
      rw [List.append_assoc]
      refine congrArg _ (congrArg _ (congrArg _ (List.map_congr_left ?_)))
      intro q _
      exact nameLinkFrom_congr rfl q.2 "Image" _
    · intro t' p _
      dsimp only
      by_cases h0 : p.1 = 0
      · rw [if_pos h0, h0]
      · rw [if_neg h0]
  | none =>
    cases cIds with
    | nil =>
      unfold render_nodes._connect_alpha_inputs alphaInputLinks
      refine tree_eq_of_fields rfl (by simp) rfl
    | cons c0 restC =>
      unfold render_nodes._connect_alpha_inputs alphaInputLinks
      dsimp only
      rw [Tree.linkNewByNameFrom_eq]
      rw [foldl_byname_spec "Image" (fun p => (alphaIds.getD p.1 0, 2)) restC.enum _ _ ?_]
      · refine tree_eq_of_fields rfl ?_ rfl
        show (t.links ++ _) ++ _ = t.links ++ (_ ++ _)
        rw [List.append_assoc]
        refine congrArg _ (congrArg _ (congrArg _ (List.map_congr_left ?_)))
        intro q _
        exact nameLinkFrom_congr rfl q.2 "Image" _
      · intro t' p _
        dsimp only
        by_cases h0 : p.1 + 1 = 1
        · rw [if_pos h0]
          have h1 : p.1 = 0 := by omega
          rw [h1]
        · rw [if_neg h0]
          rfl

theorem flatten_map_singleton {α β : Type} (l : List α) (g : α → β) :
    (l.map (fun a => [g a])).flatten = l.map g := by
  induction l <;> simp [*]

theorem getD_range' (s n i : Nat) (h : i < n) :
    (List.range' s n).getD i 0 = s + i := by
  simp [List.getD_eq_getElem?_getD, List.getElem?_range', h]

theorem getNode_append_old (t : Tree) (ns : List Node) (L : List Link)
    (k c : Nat) (nd : Node) (h : t.getNode c = some nd) :
    (Tree.mk (t.nodes ++ ns) L k).getNode c = some nd := by
  unfold Tree.getNode at h ⊢
  rw [List.find?_append, h]
  rfl

theorem nameLinkFrom_resolve {T : Tree} {src : Nat} {nm : String} {nd : Node}
    {jv : Nat} (dst : Nat × Nat) (h : T.getNode src = some nd)
    (hj : nd.outputs.findIdx? (fun s => s.name = nm) = some jv) :
    Tree.nameLinkFrom T src nm dst = [⟨src, jv, dst.1, dst.2⟩] := by
  unfold Tree.nameLinkFrom
  rw [h]
  dsimp only
  rw [hj]

theorem namesLink_resolve {T : Tree} {src dst : Nat} {nmF nmT : String}
    {a b : Node} {j k : Nat} (ha : T.getNode src = some a)
    (hb : T.getNode dst = some b)
    (hja : a.outputs.findIdx? (fun s => s.name = nmF) = some j)
    (hjb : b.inputs.findIdx? (fun s => s.name = nmT) = some k) :
    Tree.namesLink T src nmF dst nmT = [⟨src, j, dst, k⟩] := by
  unfold Tree.namesLink
  rw [ha, hb]
  dsimp only
  rw [hja, hjb]

theorem nameLinkFrom_toNode {T : Tree} {src : Nat} {nm : String}
    {dst : Nat × Nat} : ∀ l ∈ Tree.nameLinkFrom T src nm dst,
      l.toNode = dst.1 := by
  intro l hl
  unfold Tree.nameLinkFrom at hl
  rcases h1 : T.getNode src with _ | nd
  · rw [h1] at hl; simp at hl
  · rw [h1] at hl
    dsimp only at hl
    rcases h2 : nd.outputs.findIdx? (fun s => s.name = nm) with _ | j
    · rw [h2] at hl; simp at hl
    · rw [h2] at hl
      simp only [List.mem_singleton] at hl
      subst hl
      rfl

theorem namesLink_toNode {T : Tree} {src dst : Nat} {nmF nmT : String} :
    ∀ l ∈ Tree.namesLink T src nmF dst nmT, l.toNode = dst := by
  intro l hl
  unfold Tree.namesLink at hl
  rcases h1 : T.getNode src with _ | a <;> rw [h1] at hl
  · simp at hl
  rcases h2 : T.getNode dst with _ | b <;> rw [h2] at hl
  · simp at hl
  dsimp only at hl
  rcases h3 : a.outputs.findIdx? (fun s => s.name = nmF) with _ | j <;>
    rw [h3] at hl
  · simp at hl
  rcases h4 : b.inputs.findIdx? (fun s => s.name = nmT) with _ | k <;>
    rw [h4] at hl
  · simp at hl
  simp only [List.mem_singleton] at hl
  subst hl
  rfl

theorem alphaChainLinks_toNode (n0 c : Nat) :
    ∀ l ∈ alphaChainLinks n0 c, n0 ≤ l.toNode := by
  intro l hl
  unfold alphaChainLinks at hl
  rcases List.mem_map.1 hl with ⟨i, _, rfl⟩
  show n0 ≤ n0 + i + 1
  omega

theorem alphaInputLinks_toNode (T : Tree) (a0 ac : Nat) (cIds : List Nat)
    (img : Option Nat) (hac : 0 < ac)
    (hsome : img.isSome = true → cIds.length ≤ ac)
    (hnone : img = none → cIds.length ≤ ac + 1) :
    ∀ l ∈ alphaInputLinks T (List.range' a0 ac) cIds img, a0 ≤ l.toNode := by
  intro l hl
  unfold alphaInputLinks at hl
  cases img with
  | some imgId =>
    rcases List.mem_append.1 hl with h | h
    · have := nameLinkFrom_toNode l h
      rw [this, getD_range' _ _ _ hac]
      omega
    · rcases List.mem_flatten.1 h with ⟨L1, hL1, hlL1⟩
      rcases List.mem_map.1 hL1 with ⟨p, hp, rfl⟩
      have hpl := (List.mem_enum hp).1
      have hple : p.1 < ac := by
        have := hsome rfl
        omega
      have := nameLinkFrom_toNode l hlL1
      rw [this, getD_range' _ _ _ hple]
      omega
  | none =>
    cases cIds with
    | nil => simp at hl
    | cons c0 restC =>
      rcases List.mem_append.1 hl with h | h
      · have := nameLinkFrom_toNode l h
        rw [this, getD_range' _ _ _ hac]
        omega
      · rcases List.mem_flatten.1 h with ⟨L1, hL1, hlL1⟩
        rcases List.mem_map.1 hL1 with ⟨p, hp, rfl⟩
        have hpl := (List.mem_enum hp).1
        have hple : p.1 < ac := by
          have := hnone rfl
          simp only [List.length_cons] at this
          omega
        have := nameLinkFrom_toNode l hlL1
        rw [this, getD_range' _ _ _ hple]
        omega

/-! ### List helpers for slot and node lookup -/

theorem mem_of_getElem? {α : Type} {l : List α} {n : Nat} {a : α}
    (h : l[n]? = some a) : a ∈ l := by
  obtain ⟨hn, rfl⟩ := List.getElem?_eq_some.1 h
  exact List.getElem_mem ..

theorem findIdx?_go_get {α : Type} (p : α → Bool) :
    ∀ (l : List α) (i k : Nat), List.findIdx? p l i = some k →
      i ≤ k ∧ ∃ a, l[k - i]? = some a ∧ p a = true := by
  intro l
  induction l with
  | nil => intro i k h; rw [List.findIdx?_nil] at h; cases h
  | cons x xs ih =>
    intro i k h
    rw [List.findIdx?_cons] at h
    by_cases hp : p x
    · rw [if_pos hp] at h
      obtain rfl : i = k := by cases h; rfl
      exact ⟨le_refl i, x, by simp, hp⟩
    · rw [if_neg hp] at h
      obtain ⟨hik, a, ha, hpa⟩ := ih (i + 1) k h
      refine ⟨by omega, a, ?_, hpa⟩
      rw [show k - i = (k - (i + 1)) + 1 by omega, List.getElem?_cons_succ]
      exact ha

theorem findIdx?_go_isSome {α : Type} (p : α → Bool) :
    ∀ (l : List α) (i : Nat), (∃ a ∈ l, p a = true) →
      ∃ k, List.findIdx? p l i = some k := by
  intro l
  induction l with
  | nil => intro i h; obtain ⟨a, ha, _⟩ := h; cases ha
  | cons x xs ih =>
    intro i h
    rw [List.findIdx?_cons]
    by_cases hp : p x
    · exact ⟨i, by rw [if_pos hp]⟩
    · obtain ⟨a, ha, hpa⟩ := h
      rcases List.mem_cons.1 ha with rfl | ha2
      · exact absurd hpa hp
      · obtain ⟨k, hk⟩ := ih (i + 1) ⟨a, ha2, hpa⟩
        exact ⟨k, by rw [if_neg hp]; exact hk⟩

theorem find?_range' (p : Nat → Bool) :
    ∀ (c s k : Nat), k < c → p (s + k) = true →
      (∀ m, m < k → p (s + m) = false) →
      (List.range' s c).find? p = some (s + k) := by
  intro c
  induction c with
  | zero => intro s k hk; omega
  | succ c ih =>
    intro s k hk hpk hlow
    rw [List.range'_succ]
    cases k with
    | zero =>
      have hpk0 : p s = true := by simpa using hpk
      rw [List.find?_cons_of_pos _ hpk0]
      simp
    | succ m =>
      have h0 : p s = false := by simpa using hlow 0 (by omega)
      rw [List.find?_cons_of_neg _ (by simp [h0])]
      have := ih (s + 1) m (by omega) (by rw [show s + 1 + m = s + (m + 1) by omega]; exact hpk)
        (fun m2 hm2 => by
          rw [show s + 1 + m2 = s + (m2 + 1) by omega]
          exact hlow (m2 + 1) (by omega))
      rw [this]
      refine congrArg _ ?_
      omega

/-- Whether a node is a Render Layers node. -/
def nodeIsRLayers (n : Node) : Bool :=
  match n.kind with
  | .rlayers _ => true
  | _ => false

/-- The denoise-branch condition of `_connect_passes`. -/
def shouldDenoise (cs : PassConsts) (ud hdd : Bool) (sock : Socket) : Bool :=
  ud && hdd && cs.denoisePasses.contains sock.name

/-- The invert-branch condition of `_connect_passes`. -/
def shouldInvert (cs : PassConsts) (myu : Bool) (sock : Socket) : Bool :=
  myu && cs.invertYPasses.contains sock.name

/-- The slots the pass loop appends: exactly one per enabled,
non-skipped socket, in order, named by `slotNameOf`. -/
theorem passPlan_slots (cs : PassConsts) (rlId foId : Nat)
    (ud myu hdd : Bool) (rl_x rl_y : Int) (rlOuts : List Socket) :
    ∀ (pending : List (Nat × Socket)) (yoff : Int) (nid : Nat)
      (slots : List Socket),
      (passPlan cs rlId foId ud myu hdd rl_x rl_y rlOuts pending yoff nid
          slots).2.2 =
        (pending.filter (fun p =>
            p.2.enabled && !(cs.skipPasses.contains p.2.name))).map
          (fun p => ⟨slotNameOf p.2, true⟩) := by
  intro pending
  induction pending with
  | nil => intro yoff nid slots; simp [passPlan]
  | cons p rest ih =>
    obtain ⟨j, sock⟩ := p
    intro yoff nid slots
    rw [passPlan]
    by_cases hg : ¬ sock.enabled ∨ cs.skipPasses.contains sock.name
    · rw [if_pos hg, List.filter_cons]
      have hfalse : (sock.enabled && !(cs.skipPasses.contains sock.name)) = false := by
        rcases hg with h | h
        · rw [Bool.not_eq_true] at h
          simp [h]
        · rw [h]
          simp
      rw [hfalse]
      simp only [Bool.false_eq_true, if_false]
      exact ih yoff nid slots
    · rw [if_neg hg, List.filter_cons]
      have hen : sock.enabled = true := by
        by_cases hc : sock.enabled = true
        · exact hc
        · exact absurd (Or.inl hc) hg
      have hskip : cs.skipPasses.contains sock.name = false := by
        rw [Bool.eq_false_iff]
        intro hc
        exact hg (Or.inr hc)
      dsimp only
      rw [hen, hskip]
      simp only [Bool.not_false, Bool.and_self, if_true]
      split
      · rw [ih]; rfl
      · split
        · rw [ih]; rfl
        · rw [ih]; rfl

/-- Every helper node the pass loop creates is a denoise node or a
vector-invert group node. -/
theorem passPlan_kinds (cs : PassConsts) (rlId foId : Nat)
    (ud myu hdd : Bool) (rl_x rl_y : Int) (rlOuts : List Socket) :
    ∀ (pending : List (Nat × Socket)) (yoff : Int) (nid : Nat)
      (slots : List Socket),
      ∀ nd ∈ (passPlan cs rlId foId ud myu hdd rl_x rl_y rlOuts pending yoff
          nid slots).1,
        nd.kind = .denoise ∨ nd.kind = .invertGroup := by
  intro pending
  induction pending with
  | nil => intro yoff nid slots nd h; simp [passPlan] at h
  | cons p rest ih =>
    obtain ⟨j, sock⟩ := p
    intro yoff nid slots nd h
    rw [passPlan] at h
    split at h
    · exact ih yoff nid slots nd h
    · split at h
      · rcases List.mem_cons.1 h with rfl | h2
        · exact Or.inl rfl
        · exact ih _ _ _ nd h2
      · split at h
        · rcases List.mem_cons.1 h with rfl | h2
          · exact Or.inr rfl
          · exact ih _ _ _ nd h2
        · exact ih _ _ _ nd h

/-- For every enabled, non-skipped socket the pass loop adds one slot
(at index `k` of the File Output node's final slot list) and routes the
socket to it: through a denoise node when the denoise condition holds,
through a vector-invert group when only the invert condition holds, and
directly otherwise. -/
theorem passPlan_routing (cs : PassConsts) (rlId foId : Nat)
    (ud myu hdd : Bool) (rl_x rl_y : Int) (rlOuts : List Socket) :
    ∀ (pending : List (Nat × Socket)) (yoff : Int) (nid : Nat)
      (slots : List Socket),
      (∀ sk ∈ slots, sk.enabled = true) →
      ∀ j sock, (j, sock) ∈ pending → sock.enabled = true →
        cs.skipPasses.contains sock.name = false →
        ∃ k,
          (slots ++ (passPlan cs rlId foId ud myu hdd rl_x rl_y rlOuts
              pending yoff nid slots).2.2)[k]? =
            some ⟨slotNameOf sock, true⟩ ∧
          (shouldDenoise cs ud hdd sock = true →
            ∃ h,
              (∃ nd ∈ (passPlan cs rlId foId ud myu hdd rl_x rl_y rlOuts
                  pending yoff nid slots).1, nd.id = h ∧ nd.kind = .denoise) ∧
              (⟨rlId, j, h, 0⟩ : Link) ∈ (passPlan cs rlId foId ud myu hdd
                rl_x rl_y rlOuts pending yoff nid slots).2.1 ∧
              (∀ jN, rlOuts.findIdx? (fun sk => sk.name = "Denoising Normal") =
                  some jN →
                (⟨rlId, jN, h, 1⟩ : Link) ∈ (passPlan cs rlId foId ud myu hdd
                  rl_x rl_y rlOuts pending yoff nid slots).2.1) ∧
              (∀ jA, rlOuts.findIdx? (fun sk => sk.name = "Denoising Albedo") =
                  some jA →
                (⟨rlId, jA, h, 2⟩ : Link) ∈ (passPlan cs rlId foId ud myu hdd
                  rl_x rl_y rlOuts pending yoff nid slots).2.1) ∧
              (⟨h, 0, foId, k⟩ : Link) ∈ (passPlan cs rlId foId ud myu hdd
                rl_x rl_y rlOuts pending yoff nid slots).2.1) ∧
          (shouldDenoise cs ud hdd sock = false →
            shouldInvert cs myu sock = true →
            ∃ h,
              (∃ nd ∈ (passPlan cs rlId foId ud myu hdd rl_x rl_y rlOuts
                  pending yoff nid slots).1,
                nd.id = h ∧ nd.kind = .invertGroup) ∧
              (⟨rlId, j, h, 0⟩ : Link) ∈ (passPlan cs rlId foId ud myu hdd
                rl_x rl_y rlOuts pending yoff nid slots).2.1 ∧
              (⟨h, 0, foId, k⟩ : Link) ∈ (passPlan cs rlId foId ud myu hdd
                rl_x rl_y rlOuts pending yoff nid slots).2.1) ∧
          (shouldDenoise cs ud hdd sock = false →
            shouldInvert cs myu sock = false →
            (⟨rlId, j, foId, k⟩ : Link) ∈ (passPlan cs rlId foId ud myu hdd
              rl_x rl_y rlOuts pending yoff nid slots).2.1) := by
  intro pending
  induction pending with
  | nil =>
    intro yoff nid slots hall j sock hmem
    cases hmem
  | cons p rest ih =>
    obtain ⟨j1, sock1⟩ := p
    intro yoff nid slots hall j sock hmem hen hskip
    rw [passPlan]
    by_cases hg : ¬ sock1.enabled ∨ cs.skipPasses.contains sock1.name
    · rw [if_pos hg]
      rcases List.mem_cons.1 hmem with heq | hrest
      · obtain ⟨rfl, rfl⟩ := Prod.mk.injEq .. ▸ heq
        exfalso
        rcases hg with h | h
        · exact h hen
        · rw [hskip] at h
          cases h
      · exact ih yoff nid slots hall j sock hrest hen hskip
    · rw [if_neg hg]
      dsimp only
      rcases List.mem_cons.1 hmem with heq | hrest
      -- the socket under scrutiny is the head of the loop
      · obtain ⟨rfl, rfl⟩ := Prod.mk.injEq .. ▸ heq
        obtain ⟨kv, hkv⟩ := findIdx?_go_isSome
          (fun s => decide (s.name = slotNameOf sock))
          (slots ++ [⟨slotNameOf sock, true⟩]) 0
          ⟨⟨slotNameOf sock, true⟩, by simp, by simp⟩
        obtain ⟨-, a, ha, hpa⟩ := findIdx?_go_get _ _ _ _ hkv
        rw [Nat.sub_zero] at ha
        have hkvlt : kv < (slots ++ [(⟨slotNameOf sock, true⟩ : Socket)]).length :=
          (List.getElem?_eq_some.1 ha).1
        have haval : a = ⟨slotNameOf sock, true⟩ := by
          obtain ⟨nm, en⟩ := a
          have h1 : nm = slotNameOf sock := by
            simpa using hpa
          have h2 : en = true := by
            rcases List.mem_append.1 (mem_of_getElem? ha) with h | h
            · exact hall _ h
            · simp at h
              exact h.2
          rw [h1, h2]
        rw [haval] at ha
        refine ⟨kv, ?_, ?_, ?_, ?_⟩
        · by_cases hd1 : (ud && hdd && cs.denoisePasses.contains sock.name) = true
          · rw [if_pos hd1]
            show (slots ++ (⟨slotNameOf sock, true⟩ :: _))[kv]? = _
            rw [show slots ++ (⟨slotNameOf sock, true⟩ :: (passPlan cs rlId
                foId ud myu hdd rl_x rl_y rlOuts rest (yoff - 30) (nid + 1)
                (slots ++ [⟨slotNameOf sock, true⟩])).2.2) =
              (slots ++ [⟨slotNameOf sock, true⟩]) ++ (passPlan cs rlId foId
                ud myu hdd rl_x rl_y rlOuts rest (yoff - 30) (nid + 1)
                (slots ++ [⟨slotNameOf sock, true⟩])).2.2 by simp]
            rw [List.getElem?_append_left hkvlt]
            exact ha
          · rw [if_neg hd1]
            by_cases hv1 : (myu && cs.invertYPasses.contains sock.name) = true
            · rw [if_pos hv1]
              show (slots ++ (⟨slotNameOf sock, true⟩ :: _))[kv]? = _
              rw [show slots ++ (⟨slotNameOf sock, true⟩ :: (passPlan cs rlId
                  foId ud myu hdd rl_x rl_y rlOuts rest (yoff - 30) (nid + 1)
                  (slots ++ [⟨slotNameOf sock, true⟩])).2.2) =
                (slots ++ [⟨slotNameOf sock, true⟩]) ++ (passPlan cs rlId foId
                  ud myu hdd rl_x rl_y rlOuts rest (yoff - 30) (nid + 1)
                  (slots ++ [⟨slotNameOf sock, true⟩])).2.2 by simp]
              rw [List.getElem?_append_left hkvlt]
              exact ha
            · rw [if_neg hv1]
              show (slots ++ (⟨slotNameOf sock, true⟩ :: _))[kv]? = _
              rw [show slots ++ (⟨slotNameOf sock, true⟩ :: (passPlan cs rlId
                  foId ud myu hdd rl_x rl_y rlOuts rest yoff nid
                  (slots ++ [⟨slotNameOf sock, true⟩])).2.2) =
                (slots ++ [⟨slotNameOf sock, true⟩]) ++ (passPlan cs rlId foId
                  ud myu hdd rl_x rl_y rlOuts rest yoff nid
                  (slots ++ [⟨slotNameOf sock, true⟩])).2.2 by simp]
              rw [List.getElem?_append_left hkvlt]
              exact ha
        · intro hd
          have hd1 : (ud && hdd && cs.denoisePasses.contains sock.name) = true := hd
          rw [if_pos hd1]
          refine ⟨nid, ⟨tools.mkDenoise ("Denoise_" ++ sock.name)
            (rl_x + 450, rl_y + yoff) nid, by simp, rfl, rfl⟩, ?_, ?_, ?_, ?_⟩
          · simp [hkv]
          · intro jN hjN
            have : rlNameLink rlId rlOuts "Denoising Normal" (nid, 1) =
                [⟨rlId, jN, nid, 1⟩] := by
              rw [rlNameLink, hjN]
            simp [this, hkv]
          · intro jA hjA
            have : rlNameLink rlId rlOuts "Denoising Albedo" (nid, 2) =
                [⟨rlId, jA, nid, 2⟩] := by
              rw [rlNameLink, hjA]
            simp [this, hkv]
          · simp [hkv]
        · intro hd hv
          have hd1 : ¬ (ud && hdd && cs.denoisePasses.contains sock.name) = true := by
            rw [show (ud && hdd && cs.denoisePasses.contains sock.name) =
              shouldDenoise cs ud hdd sock from rfl, hd]
            simp
          rw [if_neg hd1]
          have hv1 : (myu && cs.invertYPasses.contains sock.name) = true := hv
          rw [if_pos hv1]
          refine ⟨nid, ⟨tools.mkInvertGroup (rl_x + 450, rl_y + yoff)
            ("Invert_" ++ sock.name) nid, by simp, rfl, rfl⟩, ?_, ?_⟩
          · simp [hkv]
          · simp [hkv]
        · intro hd hv
          have hd1 : ¬ (ud && hdd && cs.denoisePasses.contains sock.name) = true := by
            rw [show (ud && hdd && cs.denoisePasses.contains sock.name) =
              shouldDenoise cs ud hdd sock from rfl, hd]
            simp
          have hv1 : ¬ (myu && cs.invertYPasses.contains sock.name) = true := by
            rw [show (myu && cs.invertYPasses.contains sock.name) =
              shouldInvert cs myu sock from rfl, hv]
            simp
          rw [if_neg hd1, if_neg hv1]
          simp [hkv]
      -- the socket under scrutiny sits in the tail of the loop
      · have hall2 : ∀ sk ∈ slots ++ [⟨slotNameOf sock1, true⟩],
            sk.enabled = true := by
          intro sk hsk
          rcases List.mem_append.1 hsk with h | h
          · exact hall sk h
          · simp at h
            rw [h]
        by_cases hd1 : (ud && hdd && cs.denoisePasses.contains sock1.name) = true
        · rw [if_pos hd1]
          obtain ⟨kv, hslot, hdI, hvI, hdirI⟩ := ih (yoff - 30) (nid + 1)
            (slots ++ [⟨slotNameOf sock1, true⟩]) hall2 j sock hrest hen hskip
          refine ⟨kv, ?_, ?_, ?_, ?_⟩
          · show (slots ++ (⟨slotNameOf sock1, true⟩ :: _))[kv]? = _
            rw [show slots ++ (⟨slotNameOf sock1, true⟩ :: (passPlan cs rlId
                foId ud myu hdd rl_x rl_y rlOuts rest (yoff - 30) (nid + 1)
                (slots ++ [⟨slotNameOf sock1, true⟩])).2.2) =
              (slots ++ [⟨slotNameOf sock1, true⟩]) ++ (passPlan cs rlId foId
                ud myu hdd rl_x rl_y rlOuts rest (yoff - 30) (nid + 1)
                (slots ++ [⟨slotNameOf sock1, true⟩])).2.2 by simp]
            exact hslot
          · intro hd
            obtain ⟨h, ⟨nd, hnd, hid, hkind⟩, hL0, hL1, hL2, hL3⟩ := hdI hd
            refine ⟨h, ⟨nd, by simp [hnd], hid, hkind⟩, by simp [hL0],
              fun jN hjN => by simp [hL1 jN hjN],
              fun jA hjA => by simp [hL2 jA hjA], by simp [hL3]⟩
          · intro hd hv
            obtain ⟨h, ⟨nd, hnd, hid, hkind⟩, hL0, hL1⟩ := hvI hd hv
            exact ⟨h, ⟨nd, by simp [hnd], hid, hkind⟩, by simp [hL0],
              by simp [hL1]⟩
          · intro hd hv
            simp [hdirI hd hv]
        · rw [if_neg hd1]
          by_cases hv1 : (myu && cs.invertYPasses.contains sock1.name) = true
          · rw [if_pos hv1]
            obtain ⟨kv, hslot, hdI, hvI, hdirI⟩ := ih (yoff - 30) (nid + 1)
              (slots ++ [⟨slotNameOf sock1, true⟩]) hall2 j sock hrest hen hskip
            refine ⟨kv, ?_, ?_, ?_, ?_⟩
            · show (slots ++ (⟨slotNameOf sock1, true⟩ :: _))[kv]? = _
              rw [show slots ++ (⟨slotNameOf sock1, true⟩ :: (passPlan cs rlId
                  foId ud myu hdd rl_x rl_y rlOuts rest (yoff - 30) (nid + 1)
                  (slots ++ [⟨slotNameOf sock1, true⟩])).2.2) =
                (slots ++ [⟨slotNameOf sock1, true⟩]) ++ (passPlan cs rlId foId
                  ud myu hdd rl_x rl_y rlOuts rest (yoff - 30) (nid + 1)
                  (slots ++ [⟨slotNameOf sock1, true⟩])).2.2 by simp]
              exact hslot
            · intro hd
              obtain ⟨h, ⟨nd, hnd, hid, hkind⟩, hL0, hL1, hL2, hL3⟩ := hdI hd
              refine ⟨h, ⟨nd, by simp [hnd], hid, hkind⟩, by simp [hL0],
                fun jN hjN => by simp [hL1 jN hjN],
                fun jA hjA => by simp [hL2 jA hjA], by simp [hL3]⟩
            · intro hd hv
              obtain ⟨h, ⟨nd, hnd, hid, hkind⟩, hL0, hL1⟩ := hvI hd hv
              exact ⟨h, ⟨nd, by simp [hnd], hid, hkind⟩, by simp [hL0],
                by simp [hL1]⟩
            · intro hd hv
              simp [hdirI hd hv]
          · rw [if_neg hv1]
            obtain ⟨kv, hslot, hdI, hvI, hdirI⟩ := ih yoff nid
              (slots ++ [⟨slotNameOf sock1, true⟩]) hall2 j sock hrest hen hskip
            refine ⟨kv, ?_, ?_, ?_, ?_⟩
            · show (slots ++ (⟨slotNameOf sock1, true⟩ :: _))[kv]? = _
              rw [show slots ++ (⟨slotNameOf sock1, true⟩ :: (passPlan cs rlId
                  foId ud myu hdd rl_x rl_y rlOuts rest yoff nid
                  (slots ++ [⟨slotNameOf sock1, true⟩])).2.2) =
                (slots ++ [⟨slotNameOf sock1, true⟩]) ++ (passPlan cs rlId foId
                  ud myu hdd rl_x rl_y rlOuts rest yoff nid
                  (slots ++ [⟨slotNameOf sock1, true⟩])).2.2 by simp]
              exact hslot
            · intro hd
              obtain ⟨h, ⟨nd, hnd, hid, hkind⟩, hL0, hL1, hL2, hL3⟩ := hdI hd
              refine ⟨h, ⟨nd, hnd, hid, hkind⟩, by simp [hL0],
                fun jN hjN => by simp [hL1 jN hjN],
                fun jA hjA => by simp [hL2 jA hjA], by simp [hL3]⟩
            · intro hd hv
              obtain ⟨h, ⟨nd, hnd, hid, hkind⟩, hL0, hL1⟩ := hvI hd hv
              exact ⟨h, ⟨nd, hnd, hid, hkind⟩, by simp [hL0], by simp [hL1]⟩
            · intro hd hv
              simp [hdirI hd hv]

theorem rlNameLink_mem (rlId : Nat) (outs : List Socket) (nm : String)
    (dst : Nat × Nat) :
    ∀ L ∈ rlNameLink rlId outs nm dst,
      L.fromNode = rlId ∧ L.toNode = dst.1 ∧ L.toPort = dst.2 := by
  intro L hL
  unfold rlNameLink at hL
  split at hL
  · cases hL
  · rcases List.mem_singleton.1 hL with rfl
    exact ⟨rfl, rfl, rfl⟩

/-- Inventory of the pass-loop links that leave the Render Layers node
and either enter the File Output node or enter some node's first input:
each such link stems from the iteration of an enabled, non-skipped
socket, and its target matches that iteration's branch (denoise node,
invert group, or the File Output node directly). -/
theorem passPlan_link_inv (cs : PassConsts) (rlId foId : Nat)
    (ud myu hdd : Bool) (rl_x rl_y : Int) (rlOuts : List Socket) :
    ∀ (pending : List (Nat × Socket)) (yoff : Int) (nid : Nat)
      (slots : List Socket),
      rlId < nid → foId < nid →
      ∀ L ∈ (passPlan cs rlId foId ud myu hdd rl_x rl_y rlOuts pending yoff
          nid slots).2.1,
        L.fromNode = rlId → (L.toNode = foId ∨ L.toPort = 0) →
        ∃ p ∈ pending, L.fromPort = p.1 ∧ p.2.enabled = true ∧
          cs.skipPasses.contains p.2.name = false ∧
          ((shouldDenoise cs ud hdd p.2 = true ∧ L.toPort = 0 ∧
             ∃ nd ∈ (passPlan cs rlId foId ud myu hdd rl_x rl_y rlOuts
                 pending yoff nid slots).1,
               nd.id = L.toNode ∧ nd.kind = .denoise) ∨
           (shouldDenoise cs ud hdd p.2 = false ∧
             shouldInvert cs myu p.2 = true ∧ L.toPort = 0 ∧
             ∃ nd ∈ (passPlan cs rlId foId ud myu hdd rl_x rl_y rlOuts
                 pending yoff nid slots).1,
               nd.id = L.toNode ∧ nd.kind = .invertGroup) ∨
           (shouldDenoise cs ud hdd p.2 = false ∧
             shouldInvert cs myu p.2 = false ∧ L.toNode = foId)) := by
  intro pending
  induction pending with
  | nil =>
    intro yoff nid slots hrl hfo L hL
    simp [passPlan] at hL
  | cons p rest ih =>
    obtain ⟨j1, sock1⟩ := p
    intro yoff nid slots hrl hfo L hL hfrom htgt
    rw [passPlan] at hL ⊢
    by_cases hg : ¬ sock1.enabled ∨ cs.skipPasses.contains sock1.name
    · rw [if_pos hg] at hL ⊢
      obtain ⟨p, hp, h1, h2, h3, h4⟩ := ih yoff nid slots hrl hfo L hL hfrom htgt
      exact ⟨p, List.mem_cons_of_mem _ hp, h1, h2, h3, h4⟩
    · rw [if_neg hg] at hL ⊢
      have hen1 : sock1.enabled = true := by
        by_cases hc : sock1.enabled = true
        · exact hc
        · exact absurd (Or.inl hc) hg
      have hskip1 : cs.skipPasses.contains sock1.name = false := by
        rw [Bool.eq_false_iff]
        intro hc
        exact hg (Or.inr hc)
      dsimp only at hL ⊢
      by_cases hd1 : (ud && hdd && cs.denoisePasses.contains sock1.name) = true
      · rw [if_pos hd1] at hL ⊢
        rcases List.mem_append.1 hL with hL1 | hL5
        rotate_left
        · obtain ⟨p, hp, h1, h2, h3, h4⟩ := ih (yoff - 30) (nid + 1) _
            (by omega) (by omega) L hL5 hfrom htgt
          refine ⟨p, List.mem_cons_of_mem _ hp, h1, h2, h3, ?_⟩
          rcases h4 with ⟨ha, hb, nd, hnd, hc⟩ | ⟨ha, hb, hc, nd, hnd, he⟩ | h4
          · exact Or.inl ⟨ha, hb, nd, List.mem_cons_of_mem _ hnd, hc⟩
          · exact Or.inr (Or.inl ⟨ha, hb, hc, nd, List.mem_cons_of_mem _ hnd, he⟩)
          · exact Or.inr (Or.inr h4)
        rcases List.mem_append.1 hL1 with hL2 | hL4
        rotate_left
        · rcases List.mem_singleton.1 hL4 with rfl
          exact absurd hfrom (by simp; omega)
        rcases List.mem_append.1 hL2 with hL3 | hLA
        rotate_left
        · obtain ⟨-, ht, hp⟩ := rlNameLink_mem rlId rlOuts "Denoising Albedo"
            (nid, 2) L hLA
          rcases htgt with h | h
          · rw [ht] at h; omega
          · rw [hp] at h; cases h
        rcases List.mem_append.1 hL3 with hL0 | hLN
        rotate_left
        · obtain ⟨-, ht, hp⟩ := rlNameLink_mem rlId rlOuts "Denoising Normal"
            (nid, 1) L hLN
          rcases htgt with h | h
          · rw [ht] at h; omega
          · rw [hp] at h; cases h
        · rcases List.mem_singleton.1 hL0 with rfl
          refine ⟨(j1, sock1), List.mem_cons_self .., rfl, hen1, hskip1,
            Or.inl ⟨hd1, rfl, ?_⟩⟩
          exact ⟨tools.mkDenoise ("Denoise_" ++ sock1.name)
            (rl_x + 450, rl_y + yoff) nid, List.mem_cons_self .., rfl, rfl⟩
      · rw [if_neg hd1] at hL ⊢
        by_cases hv1 : (myu && cs.invertYPasses.contains sock1.name) = true
        · rw [if_pos hv1] at hL ⊢
          rcases List.mem_append.1 hL with hL1 | hL5
          rotate_left
          · obtain ⟨p, hp, h1, h2, h3, h4⟩ := ih (yoff - 30) (nid + 1) _
              (by omega) (by omega) L hL5 hfrom htgt
            refine ⟨p, List.mem_cons_of_mem _ hp, h1, h2, h3, ?_⟩
            rcases h4 with ⟨ha, hb, nd, hnd, hc⟩ | ⟨ha, hb, hc, nd, hnd, he⟩ | h4
            · exact Or.inl ⟨ha, hb, nd, List.mem_cons_of_mem _ hnd, hc⟩
            · exact Or.inr (Or.inl ⟨ha, hb, hc, nd,
                List.mem_cons_of_mem _ hnd, he⟩)
            · exact Or.inr (Or.inr h4)
          rcases List.mem_cons.1 hL1 with rfl | hL2
          · refine ⟨(j1, sock1), List.mem_cons_self .., rfl, hen1, hskip1,
              Or.inr (Or.inl ⟨Bool.eq_false_iff.2 hd1, hv1, rfl, ?_⟩)⟩
            exact ⟨tools.mkInvertGroup (rl_x + 450, rl_y + yoff)
              ("Invert_" ++ sock1.name) nid, List.mem_cons_self .., rfl, rfl⟩
          · rcases List.mem_singleton.1 hL2 with rfl
            exact absurd hfrom (by simp; omega)
        · rw [if_neg hv1] at hL ⊢
          rcases List.mem_cons.1 hL with rfl | hL2
          · exact ⟨(j1, sock1), List.mem_cons_self .., rfl, hen1, hskip1,
              Or.inr (Or.inr ⟨Bool.eq_false_iff.2 hd1,
                Bool.eq_false_iff.2 hv1, rfl⟩)⟩
          · obtain ⟨p, hp, h1, h2, h3, h4⟩ := ih yoff nid _ hrl hfo L hL2
              hfrom htgt
            exact ⟨p, List.mem_cons_of_mem _ hp, h1, h2, h3, h4⟩

theorem updIn_kind (foId : Nat) (ss : List Socket) (n : Node) :
    (updIn foId ss n).kind = n.kind := by
  unfold updIn
  split <;> rfl

theorem genPlan_pairs_length (cs : PassConsts) (s : Scene) (fp : String) :
    ∀ (l : List (ViewLayer × Int)) (n : Nat),
      (genPlan cs s fp l n).2.2.1.length = l.length := by
  intro l
  induction l with
  | nil => intro n; simp [genPlan]
  | cons p rest ih =>
    obtain ⟨vl, off⟩ := p
    intro n
    rw [genPlan]
    show ((n, n + 1) :: _).length = _
    rw [List.length_cons, ih]
    rfl

/-- Each processed layer contributes its Render Layers / File Output id
pair, its nodes and its links to the whole plan. -/
theorem genPlan_get (cs : PassConsts) (s : Scene) (fp : String) :
    ∀ (l : List (ViewLayer × Int)) (n : Nat) (i : Nat) (hi : i < l.length),
      ∃ m, (genPlan cs s fp l n).2.2.1[i]? = some (m, m + 1) ∧
        (∀ nd ∈ layerNodes cs s fp (l.get ⟨i, hi⟩).1 m (l.get ⟨i, hi⟩).2,
          nd ∈ (genPlan cs s fp l n).1) ∧
        (∀ L ∈ (layerPlan cs s (l.get ⟨i, hi⟩).1 m (l.get ⟨i, hi⟩).2).2.1,
          L ∈ (genPlan cs s fp l n).2.1) := by
  intro l
  induction l with
  | nil => intro n i hi; cases hi
  | cons p rest ih =>
    obtain ⟨vl, off⟩ := p
    intro n i hi
    rw [genPlan]
    cases i with
    | zero =>
      refine ⟨n, by simp, ?_, ?_⟩
      · intro nd hnd
        show nd ∈ layerNodes cs s fp vl n off ++ _
        exact List.mem_append.2 (Or.inl hnd)
      · intro L hL
        show L ∈ (layerPlan cs s vl n off).2.1 ++ _
        exact List.mem_append.2 (Or.inl hL)
    | succ i2 =>
      obtain ⟨m, hpair, hnodes, hlinks⟩ := ih
        (n + 2 + (layerPlan cs s vl n off).1.length) i2
        (by simpa using Nat.lt_of_succ_lt_succ hi)
      refine ⟨m, ?_, ?_, ?_⟩
      · show ((n, n + 1) :: _)[i2 + 1]? = _
        rw [List.getElem?_cons_succ]
        exact hpair
      · intro nd hnd
        show nd ∈ layerNodes cs s fp vl n off ++ _
        exact List.mem_append.2 (Or.inr (hnodes nd hnd))
      · intro L hL
        show L ∈ (layerPlan cs s vl n off).2.1 ++ _
        exact List.mem_append.2 (Or.inr (hlinks L hL))

theorem layerNodes_filter_rl (cs : PassConsts) (s : Scene) (fp : String)
    (vl : ViewLayer) (n : Nat) (off : Int) :
    ((layerNodes cs s fp vl n off).filter (fun nd => nodeIsRLayers nd)).length
      = 1 := by
  show (List.filter _ ([_, _] ++ (layerPlan cs s vl n off).1)).length = 1
  rw [List.filter_append, List.length_append]
  have h1 : (List.filter (fun nd => nodeIsRLayers nd)
      [tools.mkRenderLayers vl (0, off) n,
       updIn (n + 1) (layerPlan cs s vl n off).2.2
         (layerFO fp vl n off)]).length = 1 := by
    have hfo : nodeIsRLayers (updIn (n + 1) (layerPlan cs s vl n off).2.2
        (layerFO fp vl n off)) = false := by
      unfold nodeIsRLayers
      rw [updIn_kind]
      rfl
    have hrl : nodeIsRLayers (tools.mkRenderLayers vl (0, off) n) = true := rfl
    simp [List.filter, hrl, hfo]
  have h2 : (List.filter (fun nd => nodeIsRLayers nd)
      (layerPlan cs s vl n off).1).length = 0 := by
    rw [List.length_eq_zero, List.filter_eq_nil_iff]
    intro nd hnd
    rcases passPlan_kinds cs n (n + 1) _ _ _ 0 off vl.passes vl.passes.enum
      0 (n + 2) [] nd hnd with h | h <;>
      simp [nodeIsRLayers, h]
  omega

theorem layerNodes_filter_fo (cs : PassConsts) (s : Scene) (fp : String)
    (vl : ViewLayer) (n : Nat) (off : Int) :
    ((layerNodes cs s fp vl n off).filter Node.isOutputFile).length = 1 := by
  show (List.filter _ ([_, _] ++ (layerPlan cs s vl n off).1)).length = 1
  rw [List.filter_append, List.length_append]
  have h1 : (List.filter Node.isOutputFile
      [tools.mkRenderLayers vl (0, off) n,
       updIn (n + 1) (layerPlan cs s vl n off).2.2
         (layerFO fp vl n off)]).length = 1 := by
    have hfo : Node.isOutputFile (updIn (n + 1) (layerPlan cs s vl n off).2.2
        (layerFO fp vl n off)) = true := by
      unfold Node.isOutputFile
      rw [updIn_kind]
      rfl
    have hrl : Node.isOutputFile (tools.mkRenderLayers vl (0, off) n) = false := rfl
    simp [List.filter, hrl, hfo]
  have h2 : (List.filter Node.isOutputFile (layerPlan cs s vl n off).1).length
      = 0 := by
    rw [List.length_eq_zero, List.filter_eq_nil_iff]
    intro nd hnd
    rcases passPlan_kinds cs n (n + 1) _ _ _ 0 off vl.passes vl.passes.enum
      0 (n + 2) [] nd hnd with h | h <;>
      simp [Node.isOutputFile, h]
  omega

/-- The per-layer loop creates exactly one Render Layers node per
layer. -/
theorem genPlan_rl_count (cs : PassConsts) (s : Scene) (fp : String) :
    ∀ (l : List (ViewLayer × Int)) (n : Nat),
      ((genPlan cs s fp l n).1.filter (fun nd => nodeIsRLayers nd)).length =
        l.length := by
  intro l
  induction l with
  | nil => intro n; simp [genPlan]
  | cons p rest ih =>
    obtain ⟨vl, off⟩ := p
    intro n
    rw [genPlan]
    show (List.filter _ (layerNodes cs s fp vl n off ++ _)).length = _
    rw [List.filter_append, List.length_append, layerNodes_filter_rl, ih,
      List.length_cons]
    omega

/-- The per-layer loop creates exactly one File Output node per layer. -/
theorem genPlan_fo_count (cs : PassConsts) (s : Scene) (fp : String) :
    ∀ (l : List (ViewLayer × Int)) (n : Nat),
      ((genPlan cs s fp l n).1.filter Node.isOutputFile).length = l.length := by
  intro l
  induction l with
  | nil => intro n; simp [genPlan]
  | cons p rest ih =>
    obtain ⟨vl, off⟩ := p
    intro n
    rw [genPlan]
    show (List.filter _ (layerNodes cs s fp vl n off ++ _)).length = _
    rw [List.filter_append, List.length_append, layerNodes_filter_fo, ih,
      List.length_cons]
    omega

/-- Every File Output node the per-layer loop creates is the configured
File Output node of one of the layers, carrying its final slot list. -/
theorem genPlan_FO (cs : PassConsts) (s : Scene) (fp : String) :
    ∀ (l : List (ViewLayer × Int)) (n : Nat),
      ∀ nd ∈ (genPlan cs s fp l n).1, nd.isOutputFile = true →
        ∃ (i : Nat) (hi : i < l.length) (m : Nat),
          nd = updIn (m + 1)
            (layerPlan cs s (l.get ⟨i, hi⟩).1 m (l.get ⟨i, hi⟩).2).2.2
            (layerFO fp (l.get ⟨i, hi⟩).1 m (l.get ⟨i, hi⟩).2) := by
  intro l
  induction l with
  | nil => intro n nd hnd; simp [genPlan] at hnd
  | cons p rest ih =>
    obtain ⟨vl, off⟩ := p
    intro n nd hnd hfo
    rw [genPlan] at hnd
    rcases List.mem_append.1 hnd with h | h
    · rw [layerNodes] at h
      rcases List.mem_append.1 h with h2 | h2
      · rcases List.mem_cons.1 h2 with rfl | h3
        · exfalso
          rw [show Node.isOutputFile (tools.mkRenderLayers vl (0, off) n) =
            false from rfl] at hfo
          cases hfo
        · rcases List.mem_singleton.1 h3 with rfl
          exact ⟨0, by simp, n, rfl⟩
      · exfalso
        rcases passPlan_kinds cs n (n + 1) _ _ _ 0 off vl.passes
          vl.passes.enum 0 (n + 2) [] nd h2 with h4 | h4 <;>
          (unfold Node.isOutputFile at hfo; rw [h4] at hfo; cases hfo)
    · obtain ⟨i, hi, m, heq⟩ := ih (n + 2 + (layerPlan cs s vl n off).1.length)
        nd h hfo
      exact ⟨i + 1, by simpa using Nat.succ_lt_succ hi, m, heq⟩

theorem namesLink_congr {t1 t2 : Tree} (h : t1.nodes = t2.nodes)
    (src : Nat) (nmF : String) (dst : Nat) (nmT : String) :
    Tree.namesLink t1 src nmF dst nmT = Tree.namesLink t2 src nmF dst nmT := by
  unfold Tree.namesLink Tree.getNode
  rw [h]

/-- `_build_composite_chain` with no background image and a single
composite node: composite and viewer created, the single source linked
to both by name, no Alpha Over node. -/
theorem chain_nobg_single (t : Tree) (s : Scene) (c0 : Nat) (loc : Int × Int)
    (hbg : render_nodes._get_camera_background_image s = none) :
    ∃ cloc vloc,
      render_nodes._build_composite_chain t s [c0] loc =
        (Tree.mk
          (t.nodes ++ [tools.mkComposite cloc t.nextId,
            tools.mkViewer vloc (t.nextId + 1)])
          (t.links ++
            Tree.namesLink
              (Tree.mk (t.nodes ++ [tools.mkComposite cloc t.nextId,
                tools.mkViewer vloc (t.nextId + 1)]) [] 0)
              c0 "Image" t.nextId "Image" ++
            Tree.namesLink
              (Tree.mk (t.nodes ++ [tools.mkComposite cloc t.nextId,
                tools.mkViewer vloc (t.nextId + 1)]) [] 0)
              c0 "Image" (t.nextId + 1) "Image")
          (t.nextId + 2),
         some t.nextId) := by
  unfold render_nodes._build_composite_chain
  rw [hbg]
  simp only [List.isEmpty_cons, Bool.false_eq_true, if_false]
  dsimp only [tools.create_composite_node, tools.create_viewer_node,
    Tree.addNode, Option.isSome, List.getD, List.get?, Option.getD]
  simp only [Bool.false_eq_true, if_false, List.length_cons, List.length_nil]
  split
  next htot =>
    rw [Tree.linkByNames_eq, Tree.linkByNames_eq]
    refine ⟨(loc.1 + 800 + ((0 + 1 + 0 - 1 : Nat) : Int) * 200 +
        (if (0 + 1 + 0 - 1 : Nat) ≠ 0 then 200 else 0), loc.2),
      (loc.1 + 800 + ((0 + 1 + 0 - 1 : Nat) : Int) * 200 +
        (if (0 + 1 + 0 - 1 : Nat) ≠ 0 then 200 else 0), loc.2 + -150),
      Prod.ext (tree_eq_of_fields (by simp) ?_ rfl) rfl⟩
    show (t.links ++ _) ++ _ = t.links ++ _ ++ _
    refine congrArg₂ _ (congrArg _ ?_) ?_
    · exact namesLink_congr (by simp) ..
    · exact namesLink_congr (by simp) ..
  next htot => exact absurd (by simp) htot

theorem alphaInputLinks_congr {t1 t2 : Tree} (h : t1.nodes = t2.nodes)
    (alphaIds cIds : List Nat) (img : Option Nat) :
    alphaInputLinks t1 alphaIds cIds img =
      alphaInputLinks t2 alphaIds cIds img := by
  unfold alphaInputLinks
  cases img with
  | some i =>
    dsimp only
    rw [nameLinkFrom_congr h]
    refine congrArg _ (congrArg _ (List.map_congr_left ?_))
    intro p _
    exact nameLinkFrom_congr h ..
  | none =>
    cases cIds with
    | nil => rfl
    | cons c0 restC =>
      dsimp only
      rw [nameLinkFrom_congr h]
      refine congrArg _ (congrArg _ (List.map_congr_left ?_))
      intro p _
      exact nameLinkFrom_congr h ..

/-- `_build_composite_chain` with no background image and at least two
composite nodes: composite, viewer and a linear chain of Alpha Over
nodes are created, the sources are wired into the chain and the last
Alpha Over node feeds both the composite and the viewer. -/
theorem chain_nobg_multi (t : Tree) (s : Scene) (c0 c1 : Nat)
    (rest2 : List Nat) (loc : Int × Int)
    (hbg : render_nodes._get_camera_background_image s = none) :
    ∃ cloc vloc astart,
      render_nodes._build_composite_chain t s (c0 :: c1 :: rest2) loc =
        (Tree.mk
          (t.nodes ++ [tools.mkComposite cloc t.nextId,
              tools.mkViewer vloc (t.nextId + 1)] ++
            alphaNodesList astart 200 (t.nextId + 2) (rest2.length + 1))
          (t.links ++ alphaChainLinks (t.nextId + 2) (rest2.length + 1) ++
            alphaInputLinks
              (Tree.mk (t.nodes ++ [tools.mkComposite cloc t.nextId,
                  tools.mkViewer vloc (t.nextId + 1)] ++
                alphaNodesList astart 200 (t.nextId + 2) (rest2.length + 1))
                [] 0)
              (List.range' (t.nextId + 2) (rest2.length + 1))
              (c0 :: c1 :: rest2) none ++
            Tree.namesLink
              (Tree.mk (t.nodes ++ [tools.mkComposite cloc t.nextId,
                  tools.mkViewer vloc (t.nextId + 1)] ++
                alphaNodesList astart 200 (t.nextId + 2) (rest2.length + 1))
                [] 0)
              (t.nextId + 2 + rest2.length) "Image" t.nextId "Image" ++
            Tree.namesLink
              (Tree.mk (t.nodes ++ [tools.mkComposite cloc t.nextId,
                  tools.mkViewer vloc (t.nextId + 1)] ++
                alphaNodesList astart 200 (t.nextId + 2) (rest2.length + 1))
                [] 0)
              (t.nextId + 2 + rest2.length) "Image" (t.nextId + 1) "Image")
          (t.nextId + 2 + (rest2.length + 1)),
         some t.nextId) := by
  unfold render_nodes._build_composite_chain
  rw [hbg]
  simp only [List.isEmpty_cons, Bool.false_eq_true, if_false]
  dsimp only [tools.create_composite_node, tools.create_viewer_node,
    Tree.addNode, Option.isSome]
  simp only [Bool.false_eq_true, if_false, List.length_cons, List.length_nil,
    Nat.add_zero, Nat.add_sub_cancel]
  split
  next htot => exact absurd htot (by omega)
  next htot =>
    rw [create_alpha_chain_spec]
    dsimp only
    rw [connect_alpha_inputs_spec]
    rw [range'_getLast? _ _ (by omega)]
    dsimp only [Option.getD]
    rw [Tree.linkByNames_eq, Tree.linkByNames_eq]
    refine ⟨(loc.1 + 800 + ((rest2.length : Int) + 1) * 200 + 200, loc.2),
      (loc.1 + 800 + ((rest2.length : Int) + 1) * 200 + 200, loc.2 + -150),
      (loc.1 + 800, loc.2),
      Prod.ext (tree_eq_of_fields (by simp) ?_ rfl) rfl⟩
    show (((t.links ++ _) ++ _) ++ _) ++ _ = (((t.links ++ _) ++ _) ++ _) ++ _
    refine congrArg₂ _ (congrArg₂ _ (congrArg₂ _ rfl ?_) ?_) ?_
    · exact alphaInputLinks_congr (by simp) ..
    · exact namesLink_congr (by simp) ..
    · exact namesLink_congr (by simp) ..

/-- `_build_composite_chain` with a camera background image: the image
node is created first and wired into the head of the Alpha Over chain
ahead of every composite render layer node. -/
theorem chain_bg (t : Tree) (s : Scene) (b : BgImage) (c0 : Nat)
    (restC : List Nat) (loc : Int × Int)
    (hbg : render_nodes._get_camera_background_image s = some b) :
    ∃ iloc cloc vloc astart,
      render_nodes._build_composite_chain t s (c0 :: restC) loc =
        (Tree.mk
          (t.nodes ++ [tools.mkImage b iloc t.nextId,
              tools.mkComposite cloc (t.nextId + 1),
              tools.mkViewer vloc (t.nextId + 2)] ++
            alphaNodesList astart 200 (t.nextId + 3) (restC.length + 1))
          (t.links ++ alphaChainLinks (t.nextId + 3) (restC.length + 1) ++
            alphaInputLinks
              (Tree.mk (t.nodes ++ [tools.mkImage b iloc t.nextId,
                  tools.mkComposite cloc (t.nextId + 1),
                  tools.mkViewer vloc (t.nextId + 2)] ++
                alphaNodesList astart 200 (t.nextId + 3) (restC.length + 1))
                [] 0)
              (List.range' (t.nextId + 3) (restC.length + 1))
              (c0 :: restC) (some t.nextId) ++
            Tree.namesLink
              (Tree.mk (t.nodes ++ [tools.mkImage b iloc t.nextId,
                  tools.mkComposite cloc (t.nextId + 1),
                  tools.mkViewer vloc (t.nextId + 2)] ++
                alphaNodesList astart 200 (t.nextId + 3) (restC.length + 1))
                [] 0)
              (t.nextId + 3 + restC.length) "Image" (t.nextId + 1) "Image" ++
            Tree.namesLink
              (Tree.mk (t.nodes ++ [tools.mkImage b iloc t.nextId,
                  tools.mkComposite cloc (t.nextId + 1),
                  tools.mkViewer vloc (t.nextId + 2)] ++
                alphaNodesList astart 200 (t.nextId + 3) (restC.length + 1))
                [] 0)
              (t.nextId + 3 + restC.length) "Image" (t.nextId + 2) "Image")
          (t.nextId + 3 + (restC.length + 1)),
         some (t.nextId + 1)) := by
  unfold render_nodes._build_composite_chain
  rw [hbg]
  simp only [List.isEmpty_cons, Bool.false_eq_true, if_false]
  dsimp only [tools.create_image_node, tools.create_composite_node,
    tools.create_viewer_node, Tree.addNode, Option.isSome]
  simp only [eq_self_iff_true, if_true, List.length_cons, Nat.add_sub_cancel]
  split
  next htot => exact absurd htot (by omega)
  next htot =>
    rw [create_alpha_chain_spec]
    dsimp only
    rw [connect_alpha_inputs_spec]
    rw [range'_getLast? _ _ (by omega)]
    dsimp only [Option.getD]
    rw [Tree.linkByNames_eq, Tree.linkByNames_eq]
    refine ⟨(loc.1, loc.2),
      (loc.1 + 800 + ((restC.length : Int) + 1) * 200 + 200, loc.2),
      (loc.1 + 800 + ((restC.length : Int) + 1) * 200 + 200, loc.2 + -150),
      (loc.1 + 800, loc.2),
      Prod.ext (tree_eq_of_fields (by simp) ?_ rfl) rfl⟩
    show (((t.links ++ _) ++ _) ++ _) ++ _ = (((t.links ++ _) ++ _) ++ _) ++ _
    refine congrArg₂ _ (congrArg₂ _ (congrArg₂ _ rfl ?_) ?_) ?_
    · exact alphaInputLinks_congr (by simp) ..
    · exact namesLink_congr (by simp) ..
    · exact namesLink_congr (by simp) ..

theorem alphaNodesList_length (start : Int × Int) (x_offset : Int)
    (n0 c : Nat) : (alphaNodesList start x_offset n0 c).length = c := by
  unfold alphaNodesList
  simp

theorem alphaNodesList_kinds (start : Int × Int) (x_offset : Int)
    (n0 c : Nat) :
    ∀ nd ∈ alphaNodesList start x_offset n0 c, nd.kind = .alphaOver := by
  intro nd hnd
  unfold alphaNodesList at hnd
  rcases List.mem_map.1 hnd with ⟨i, -, rfl⟩
  rfl

/-- Whatever the composite-chain builder does, it only appends nodes
(never a Render Layers or File Output node) and links into the freshly
created part of the tree. -/
theorem build_composite_chain_shape (t : Tree) (s : Scene) (cIds : List Nat)
    (loc : Int × Int) :
    ∃ ns L r,
      render_nodes._build_composite_chain t s cIds loc =
        (Tree.mk (t.nodes ++ ns) (t.links ++ L) (t.nextId + ns.length), r) ∧
      (∀ nd ∈ ns, nodeIsRLayers nd = false ∧ nd.isOutputFile = false) ∧
      (∀ lk ∈ L, t.nextId ≤ lk.toNode) := by
  cases cIds with
  | nil =>
    refine ⟨[], [], none, ?_, by simp, by simp⟩
    show (t, none) = _
    refine Prod.ext (tree_eq_of_fields ?_ ?_ ?_) rfl <;> simp
  | cons c0 restC =>
    cases hbg : render_nodes._get_camera_background_image s with
    | some b =>
      obtain ⟨iloc, cloc, vloc, astart, heq⟩ := chain_bg t s b c0 restC loc hbg
      refine ⟨[tools.mkImage b iloc t.nextId,
          tools.mkComposite cloc (t.nextId + 1),
          tools.mkViewer vloc (t.nextId + 2)] ++
            alphaNodesList astart 200 (t.nextId + 3) (restC.length + 1),
        ((alphaChainLinks (t.nextId + 3) (restC.length + 1) ++
          alphaInputLinks
            (Tree.mk (t.nodes ++ [tools.mkImage b iloc t.nextId,
                tools.mkComposite cloc (t.nextId + 1),
                tools.mkViewer vloc (t.nextId + 2)] ++
              alphaNodesList astart 200 (t.nextId + 3) (restC.length + 1))
              [] 0)
            (List.range' (t.nextId + 3) (restC.length + 1))
            (c0 :: restC) (some t.nextId)) ++
          Tree.namesLink
            (Tree.mk (t.nodes ++ [tools.mkImage b iloc t.nextId,
                tools.mkComposite cloc (t.nextId + 1),
                tools.mkViewer vloc (t.nextId + 2)] ++
              alphaNodesList astart 200 (t.nextId + 3) (restC.length + 1))
              [] 0)
            (t.nextId + 3 + restC.length) "Image" (t.nextId + 1) "Image") ++
          Tree.namesLink
            (Tree.mk (t.nodes ++ [tools.mkImage b iloc t.nextId,
                tools.mkComposite cloc (t.nextId + 1),
                tools.mkViewer vloc (t.nextId + 2)] ++
              alphaNodesList astart 200 (t.nextId + 3) (restC.length + 1))
              [] 0)
            (t.nextId + 3 + restC.length) "Image" (t.nextId + 2) "Image",
        some (t.nextId + 1), ?_, ?_, ?_⟩
      · rw [heq]
        refine Prod.ext (tree_eq_of_fields (by simp) (by simp) ?_) rfl
        show t.nextId + 3 + (restC.length + 1) = t.nextId + _
        rw [List.length_append, alphaNodesList_length]
        show _ = t.nextId + (3 + (restC.length + 1))
        omega
      · intro nd hnd
        rcases List.mem_append.1 hnd with h | h
        · rcases List.mem_cons.1 h with rfl | h
          · exact ⟨rfl, rfl⟩
          rcases List.mem_cons.1 h with rfl | h
          · exact ⟨rfl, rfl⟩
          rcases List.mem_singleton.1 h with rfl
          exact ⟨rfl, rfl⟩
        · have hk := alphaNodesList_kinds astart 200 (t.nextId + 3)
            (restC.length + 1) nd h
          unfold nodeIsRLayers Node.isOutputFile
          rw [hk]
          exact ⟨rfl, rfl⟩
      · intro lk hlk
        rcases List.mem_append.1 hlk with h | h
        rotate_left
        · have := namesLink_toNode lk h
          omega
        rcases List.mem_append.1 h with h | h
        rotate_left
        · have := namesLink_toNode lk h
          omega
        rcases List.mem_append.1 h with h | h
        · have := alphaChainLinks_toNode (t.nextId + 3) (restC.length + 1) lk h
          omega
        · have := alphaInputLinks_toNode _ (t.nextId + 3) (restC.length + 1)
            (c0 :: restC) (some t.nextId) (by omega)
            (fun _ => by simp) (fun hc => by cases hc) lk h
          omega
    | none =>
      cases restC with
      | nil =>
        obtain ⟨cloc, vloc, heq⟩ := chain_nobg_single t s c0 loc hbg
        refine ⟨[tools.mkComposite cloc t.nextId,
            tools.mkViewer vloc (t.nextId + 1)],
          Tree.namesLink
              (Tree.mk (t.nodes ++ [tools.mkComposite cloc t.nextId,
                tools.mkViewer vloc (t.nextId + 1)]) [] 0)
              c0 "Image" t.nextId "Image" ++
            Tree.namesLink
              (Tree.mk (t.nodes ++ [tools.mkComposite cloc t.nextId,
                tools.mkViewer vloc (t.nextId + 1)]) [] 0)
              c0 "Image" (t.nextId + 1) "Image",
          some t.nextId, ?_, ?_, ?_⟩
        · rw [heq]
          exact Prod.ext (tree_eq_of_fields rfl (by simp) rfl) rfl
        · intro nd hnd
          rcases List.mem_cons.1 hnd with rfl | h
          · exact ⟨rfl, rfl⟩
          rcases List.mem_singleton.1 h with rfl
          exact ⟨rfl, rfl⟩
        · intro lk hlk
          rcases List.mem_append.1 hlk with h | h <;>
            (have h2 := namesLink_toNode lk h; omega)
      | cons c1 rest2 =>
        obtain ⟨cloc, vloc, astart, heq⟩ :=
          chain_nobg_multi t s c0 c1 rest2 loc hbg
        refine ⟨[tools.mkComposite cloc t.nextId,
            tools.mkViewer vloc (t.nextId + 1)] ++
              alphaNodesList astart 200 (t.nextId + 2) (rest2.length + 1),
          ((alphaChainLinks (t.nextId + 2) (rest2.length + 1) ++
            alphaInputLinks
              (Tree.mk (t.nodes ++ [tools.mkComposite cloc t.nextId,
                  tools.mkViewer vloc (t.nextId + 1)] ++
                alphaNodesList astart 200 (t.nextId + 2) (rest2.length + 1))
                [] 0)
              (List.range' (t.nextId + 2) (rest2.length + 1))
              (c0 :: c1 :: rest2) none) ++
            Tree.namesLink
              (Tree.mk (t.nodes ++ [tools.mkComposite cloc t.nextId,
                  tools.mkViewer vloc (t.nextId + 1)] ++
                alphaNodesList astart 200 (t.nextId + 2) (rest2.length + 1))
                [] 0)
              (t.nextId + 2 + rest2.length) "Image" t.nextId "Image") ++
            Tree.namesLink
              (Tree.mk (t.nodes ++ [tools.mkComposite cloc t.nextId,
                  tools.mkViewer vloc (t.nextId + 1)] ++
                alphaNodesList astart 200 (t.nextId + 2) (rest2.length + 1))
                [] 0)
              (t.nextId + 2 + rest2.length) "Image" (t.nextId + 1) "Image",
          some t.nextId, ?_, ?_, ?_⟩
        · rw [heq]
          refine Prod.ext (tree_eq_of_fields (by simp) (by simp) ?_) rfl
          show t.nextId + 2 + (rest2.length + 1) = t.nextId + _
          rw [List.length_append, alphaNodesList_length]
          show _ = t.nextId + (2 + (rest2.length + 1))
          omega
        · intro nd hnd
          rcases List.mem_append.1 hnd with h | h
          · rcases List.mem_cons.1 h with rfl | h
            · exact ⟨rfl, rfl⟩
            rcases List.mem_singleton.1 h with rfl
            exact ⟨rfl, rfl⟩
          · have hk := alphaNodesList_kinds astart 200 (t.nextId + 2)
              (rest2.length + 1) nd h
            unfold nodeIsRLayers Node.isOutputFile
            rw [hk]
            exact ⟨rfl, rfl⟩
        · intro lk hlk
          rcases List.mem_append.1 hlk with h | h
          rotate_left
          · have := namesLink_toNode lk h
            omega
          rcases List.mem_append.1 h with h | h
          rotate_left
          · have := namesLink_toNode lk h
            omega
          rcases List.mem_append.1 h with h | h
          · have := alphaChainLinks_toNode (t.nextId + 2) (rest2.length + 1)
              lk h
            omega
          · have := alphaInputLinks_toNode _ (t.nextId + 2) (rest2.length + 1)
              (c0 :: c1 :: rest2) none (by omega)
              (fun hc => by cases hc) (fun _ => by simp) lk h
            omega

/-- `generate_nodes_execute` on a scene with at least one renderable
view layer finishes, appends the per-layer plan to the (possibly
cleared) starting tree, then appends the composite chain's nodes and
links; the chain adds no Render Layers or File Output node and its
links only enter chain-created nodes. -/
theorem generate_execute_spec (cs : PassConsts) (s : Scene) (fp : String)
    (t0 base : Tree) (hw : TreeWF t0)
    (hbase : base = (if s.clearNodesFlag then tools.clear_nodes t0 else t0))
    (hne : ¬ (tools.get_renderable_view_layers s).isEmpty = true) :
    ∃ offs chainNs chainL,
      offs.length = (tools.get_renderable_view_layers s).length ∧
      render_nodes.generate_nodes_execute cs s fp t0 =
        ⟨Tree.mk
          ((base.nodes ++
            (genPlan cs s fp ((tools.get_renderable_view_layers s).zip offs)
              base.nextId).1) ++ chainNs)
          ((base.links ++
            (genPlan cs s fp ((tools.get_renderable_view_layers s).zip offs)
              base.nextId).2.1) ++ chainL)
          ((genPlan cs s fp ((tools.get_renderable_view_layers s).zip offs)
              base.nextId).2.2.2 + chainNs.length),
         .finished,
         (genPlan cs s fp ((tools.get_renderable_view_layers s).zip offs)
           base.nextId).2.2.1⟩ ∧
      (∀ nd ∈ chainNs, nodeIsRLayers nd = false ∧ nd.isOutputFile = false) ∧
      (∀ lk ∈ chainL,
        (genPlan cs s fp ((tools.get_renderable_view_layers s).zip offs)
          base.nextId).2.2.2 ≤ lk.toNode) := by
  have hwbase : TreeWF base := by
    rw [hbase]
    split
    · exact treeWF_clear hw
    · exact hw
  obtain ⟨offs, off', hlen, hfold⟩ := genFold_spec cs s fp
    (tools.get_renderable_view_layers s) base
    (tools.get_lowest_node_position base - 50 - 400) [] hwbase
  unfold render_nodes.generate_nodes_execute
  rw [if_neg hne, ← hbase]
  dsimp only
  rw [hfold]
  dsimp only
  by_cases hc : (render_nodes._get_composite_render_layers
      (Tree.mk
        (base.nodes ++ (genPlan cs s fp
          ((tools.get_renderable_view_layers s).zip offs) base.nextId).1)
        (base.links ++ (genPlan cs s fp
          ((tools.get_renderable_view_layers s).zip offs) base.nextId).2.1)
        (genPlan cs s fp ((tools.get_renderable_view_layers s).zip offs)
          base.nextId).2.2.2)
      (([] ++ (genPlan cs s fp ((tools.get_renderable_view_layers s).zip offs)
        base.nextId).2.2.1).map Prod.fst) s).isEmpty = true
  · rw [if_neg (not_not.2 hc)]
    exact ⟨offs, [], [], hlen, by simp, by simp, by simp⟩
  · rw [if_pos hc]
    obtain ⟨ns, L, r, hchain, hkinds, htoN⟩ := build_composite_chain_shape
      (Tree.mk
        (base.nodes ++ (genPlan cs s fp
          ((tools.get_renderable_view_layers s).zip offs) base.nextId).1)
        (base.links ++ (genPlan cs s fp
          ((tools.get_renderable_view_layers s).zip offs) base.nextId).2.1)
        (genPlan cs s fp ((tools.get_renderable_view_layers s).zip offs)
          base.nextId).2.2.2)
      s
      (render_nodes._get_composite_render_layers
        (Tree.mk
          (base.nodes ++ (genPlan cs s fp
            ((tools.get_renderable_view_layers s).zip offs) base.nextId).1)
          (base.links ++ (genPlan cs s fp
            ((tools.get_renderable_view_layers s).zip offs) base.nextId).2.1)
          (genPlan cs s fp ((tools.get_renderable_view_layers s).zip offs)
            base.nextId).2.2.2)
        (([] ++ (genPlan cs s fp
          ((tools.get_renderable_view_layers s).zip offs)
          base.nextId).2.2.1).map Prod.fst) s)
      (0, tools.get_lowest_node_position base - 50)
    rw [hchain]
    exact ⟨offs, ns, L, hlen, by rw [List.nil_append], hkinds, htoN⟩

theorem getNode_mk_append (t : Tree) (hw : TreeWF t) (ns : List Node)
    (L : List Link) (k j : Nat) (ND : Node) (hj : t.nextId ≤ j)
    (hfind : ns.find? (fun nd => nd.id = j) = some ND) :
    (Tree.mk (t.nodes ++ ns) L k).getNode j = some ND := by
  unfold Tree.getNode
  show (t.nodes ++ ns).find? _ = _
  rw [List.find?_append, find?_id_eq_none_of_wf hw j hj]
  simpa using hfind

theorem mkAlphaOver_id (loc : Int × Int) (nm : String) (i : Nat) :
    (tools.mkAlphaOver loc nm i).id = i := rfl

theorem mkComposite_id (loc : Int × Int) (i : Nat) :
    (tools.mkComposite loc i).id = i := rfl

theorem mkViewer_id (loc : Int × Int) (i : Nat) :
    (tools.mkViewer loc i).id = i := rfl

theorem mkImage_id (b : BgImage) (loc : Int × Int) (i : Nat) :
    (tools.mkImage b loc i).id = i := rfl

theorem mkComposite_findIdx (loc : Int × Int) (i : Nat) :
    (tools.mkComposite loc i).inputs.findIdx?
      (fun sk => sk.name = "Image") = some 0 := rfl

theorem mkViewer_findIdx (loc : Int × Int) (i : Nat) :
    (tools.mkViewer loc i).inputs.findIdx?
      (fun sk => sk.name = "Image") = some 0 := rfl

theorem mkAlphaOver_findIdx (loc : Int × Int) (nm : String) (i : Nat) :
    (tools.mkAlphaOver loc nm i).outputs.findIdx?
      (fun sk => sk.name = "Image") = some 0 := rfl

theorem mkImage_findIdx (b : BgImage) (loc : Int × Int) (i : Nat) :
    (tools.mkImage b loc i).outputs.findIdx?
      (fun sk => sk.name = "Image") = some 0 := rfl

theorem find?_alphaNodes (astart : Int × Int) (xo : Int) (a0 c k : Nat)
    (hk : k < c) :
    (alphaNodesList astart xo a0 c).find? (fun nd => nd.id = a0 + k) =
      some (tools.mkAlphaOver (astart.1 + (k : Int) * xo, astart.2)
        ("Alpha_Over_" ++ toString (k + 1)) (a0 + k)) := by
  unfold alphaNodesList
  rw [List.find?_map, List.range_eq_range']
  have h := find?_range'
    ((fun nd => decide (nd.id = a0 + k)) ∘ (fun (i : Nat) =>
      tools.mkAlphaOver (astart.1 + (i : Int) * xo, astart.2)
        ("Alpha_Over_" ++ toString (i + 1)) (a0 + i)))
    c 0 k hk (by simp [Function.comp, mkAlphaOver_id])
    (fun m hm => by simp [Function.comp, mkAlphaOver_id]; omega)
  rw [Nat.zero_add] at h
  rw [h]
  rfl

theorem alphaInputLinks_resolved_nobg (T : Tree) (jx : Nat → Nat) (c0 : Nat)
    (restC : List Nat) (a0 ac : Nat) (hac : 0 < ac)
    (hlen : restC.length ≤ ac)
    (hres : ∀ c ∈ c0 :: restC, ∃ nd, T.getNode c = some nd ∧
      nd.outputs.findIdx? (fun sk => sk.name = "Image") = some (jx c)) :
    alphaInputLinks T (List.range' a0 ac) (c0 :: restC) none =
      (⟨c0, jx c0, a0, 1⟩ : Link) ::
        restC.enum.map (fun p => (⟨p.2, jx p.2, a0 + p.1, 2⟩ : Link)) := by
  unfold alphaInputLinks
  dsimp only
  obtain ⟨nd0, h0, hj0⟩ := hres c0 (by simp)
  rw [getD_range' _ _ _ hac]
  simp only [Nat.add_zero]
  rw [nameLinkFrom_resolve _ h0 hj0]
  have hmap : restC.enum.map (fun p =>
      Tree.nameLinkFrom T p.2 "Image" ((List.range' a0 ac).getD p.1 0, 2)) =
      restC.enum.map (fun p => [(⟨p.2, jx p.2, a0 + p.1, 2⟩ : Link)]) := by
    refine List.map_congr_left ?_
    intro p hp
    obtain ⟨pi, pc⟩ := p
    obtain ⟨hlt, hval⟩ := List.mem_enum hp
    have hmem : pc ∈ restC := by
      rw [hval]
      exact List.getElem_mem ..
    obtain ⟨nd, hnd, hjnd⟩ := hres pc (List.mem_cons_of_mem _ hmem)
    rw [getD_range' _ _ _ (lt_of_lt_of_le hlt hlen)]
    exact nameLinkFrom_resolve _ hnd hjnd
  rw [hmap, flatten_map_singleton]
  rfl

theorem alphaInputLinks_resolved_bg (T : Tree) (jx : Nat → Nat)
    (cIds : List Nat) (a0 ac imgId jImg : Nat) (hac : 0 < ac)
    (hlen : cIds.length ≤ ac)
    (hImg : ∃ nd, T.getNode imgId = some nd ∧
      nd.outputs.findIdx? (fun sk => sk.name = "Image") = some jImg)
    (hres : ∀ c ∈ cIds, ∃ nd, T.getNode c = some nd ∧
      nd.outputs.findIdx? (fun sk => sk.name = "Image") = some (jx c)) :
    alphaInputLinks T (List.range' a0 ac) cIds (some imgId) =
      (⟨imgId, jImg, a0, 1⟩ : Link) ::
        cIds.enum.map (fun p => (⟨p.2, jx p.2, a0 + p.1, 2⟩ : Link)) := by
  unfold alphaInputLinks
  dsimp only
  obtain ⟨nd0, h0, hj0⟩ := hImg
  rw [getD_range' _ _ _ hac]
  simp only [Nat.add_zero]
  rw [nameLinkFrom_resolve _ h0 hj0]
  have hmap : cIds.enum.map (fun p =>
      Tree.nameLinkFrom T p.2 "Image" ((List.range' a0 ac).getD p.1 0, 2)) =
      cIds.enum.map (fun p => [(⟨p.2, jx p.2, a0 + p.1, 2⟩ : Link)]) := by
    refine List.map_congr_left ?_
    intro p hp
    obtain ⟨pi, pc⟩ := p
    obtain ⟨hlt, hval⟩ := List.mem_enum hp
    have hmem : pc ∈ cIds := by
      rw [hval]
      exact List.getElem_mem ..
    obtain ⟨nd, hnd, hjnd⟩ := hres pc hmem
    rw [getD_range' _ _ _ (lt_of_lt_of_le hlt hlen)]
    exact nameLinkFrom_resolve _ hnd hjnd
  rw [hmap, flatten_map_singleton]
  rfl

theorem updIn_inputs_self (foId : Nat) (ss : List Socket) (n : Node)
    (h : n.id = foId) : (updIn foId ss n).inputs = n.inputs ++ ss := by
  unfold updIn
  rw [if_pos h]

/-- Classification of a pass routed into input 0 of a fresh helper node:
the helper is a denoise node exactly in the denoise branch and an invert
group exactly in the invert branch. -/
theorem connect_passes_route_classify (cs : PassConsts) (t : Tree)
    (rlId foId : Nat) (ud myu : Bool) (rl0 fo : Node) (hw : TreeWF t)
    (hrl : t.getNode rlId = some rl0) (hfo : t.getNode foId = some fo)
    (hne : rlId ≠ foId) (hlinks : ∀ L ∈ t.links, L.fromNode ≠ rlId) :
    ∀ j sock, (j, sock) ∈ rl0.outputs.enum →
    ∀ h, t.nextId ≤ h →
    ∀ nd,
      nd ∈ (render_nodes._connect_passes cs t rlId foId ud myu).nodes →
      nd.id = h → (nd.kind = .denoise ∨ nd.kind = .invertGroup) →
      (⟨rlId, j, h, 0⟩ : Link) ∈
        (render_nodes._connect_passes cs t rlId foId ud myu).links →
      sock.enabled = true ∧ cs.skipPasses.contains sock.name = false ∧
      (nd.kind = .denoise →
        shouldDenoise cs ud
          (if ud then render_nodes._has_denoising_data rl0 else false)
          sock = true) ∧
      (nd.kind = .invertGroup →
        shouldDenoise cs ud
          (if ud then render_nodes._has_denoising_data rl0 else false)
          sock = false ∧ shouldInvert cs myu sock = true) := by
  intro j sock hmem h hge nd hndR hid hkind hlink
  have hrllt : rlId < t.nextId := by
    obtain ⟨hm, he⟩ := getNode_some hrl
    have := hw.idsLt rl0 hm
    omega
  have hfolt : foId < t.nextId := by
    obtain ⟨hm, he⟩ := getNode_some hfo
    have := hw.idsLt fo hm
    omega
  have hspec := connect_passes_spec cs t rlId foId ud myu rl0 fo hw hrl hfo hne
  rw [hspec] at hndR hlink
  have hnd1 : nd ∈ (passPlan cs rlId foId ud myu
      (if ud then render_nodes._has_denoising_data rl0 else false)
      rl0.location.1 rl0.location.2 rl0.outputs rl0.outputs.enum 0
      t.nextId fo.inputs).1 := by
    rcases List.mem_append.1 hndR with hcase | hcase
    · exfalso
      rcases List.mem_map.1 hcase with ⟨n0, hn0, rfl⟩
      have := hw.idsLt n0 hn0
      rw [updIn_id_eq] at hid
      omega
    · exact hcase
  have hlink1 : (⟨rlId, j, h, 0⟩ : Link) ∈ (passPlan cs rlId foId ud myu
      (if ud then render_nodes._has_denoising_data rl0 else false)
      rl0.location.1 rl0.location.2 rl0.outputs rl0.outputs.enum 0
      t.nextId fo.inputs).2.1 := by
    rcases List.mem_append.1 hlink with hcase | hcase
    · exact absurd rfl (hlinks _ hcase)
    · exact hcase
  obtain ⟨p, hp, hfromp, henp, hskipp, hbr⟩ := passPlan_link_inv cs rlId foId
    ud myu _ rl0.location.1 rl0.location.2 rl0.outputs rl0.outputs.enum 0
    t.nextId fo.inputs hrllt hfolt _ hlink1 rfl (Or.inr rfl)
  obtain ⟨pj, psock⟩ := p
  have hpj : pj = j := by
    have : (j : Nat) = pj := hfromp
    omega
  subst hpj
  have hsock : psock = sock := by
    obtain ⟨h1, h2⟩ := List.mem_enum hp
    obtain ⟨h3, h4⟩ := List.mem_enum hmem
    rw [h2, h4]
  subst hsock
  have hids := passPlan_ids cs rlId foId ud myu
    (if ud then render_nodes._has_denoising_data rl0 else false)
    rl0.location.1 rl0.location.2 rl0.outputs rl0.outputs.enum 0
    t.nextId fo.inputs
  have hnodup : ((passPlan cs rlId foId ud myu
      (if ud then render_nodes._has_denoising_data rl0 else false)
      rl0.location.1 rl0.location.2 rl0.outputs rl0.outputs.enum 0
      t.nextId fo.inputs).1.map Node.id).Nodup := by
    rw [hids]
    exact List.nodup_range' ..
  refine ⟨henp, hskipp, ?_, ?_⟩
  · intro hd
    rcases hbr with ⟨ha, -, nd2, hnd2, hider, hk2⟩ |
        ⟨-, -, -, nd2, hnd2, hider, hk2⟩ | ⟨-, -, htn⟩
    · exact ha
    · exfalso
      have : nd = nd2 := List.inj_on_of_nodup_map hnodup hnd1 hnd2
        (by rw [hider, hid])
      rw [this, hk2] at hd
      cases hd
    · exfalso
      have hhfo : h = foId := htn
      omega
  · intro hv
    rcases hbr with ⟨-, -, nd2, hnd2, hider, hk2⟩ |
        ⟨ha, hb, -, -⟩ | ⟨-, -, htn⟩
    · exfalso
      have : nd = nd2 := List.inj_on_of_nodup_map hnodup hnd1 hnd2
        (by rw [hider, hid])
      rw [this, hk2] at hv
      cases hv
    · exact ⟨ha, hb⟩
    · exfalso
      have hhfo : h = foId := htn
      omega

/-- Existence side: every enabled, non-skipped pass gets a slot on the
File Output node and is wired to it according to its branch. -/
theorem connect_passes_route_exists (cs : PassConsts) (t : Tree)
    (rlId foId : Nat) (ud myu : Bool) (rl0 fo : Node) (hw : TreeWF t)
    (hrl : t.getNode rlId = some rl0) (hfo : t.getNode foId = some fo)
    (hne : rlId ≠ foId) (hfin : ∀ sk ∈ fo.inputs, sk.enabled = true) :
    ∀ j sock, (j, sock) ∈ rl0.outputs.enum → sock.enabled = true →
      cs.skipPasses.contains sock.name = false →
      ∃ k,
        (∃ ndF, ndF ∈ (render_nodes._connect_passes cs t rlId foId ud
            myu).nodes ∧ ndF.id = foId ∧
          ndF.inputs[k]? = some ⟨slotNameOf sock, true⟩) ∧
        (shouldDenoise cs ud
            (if ud then render_nodes._has_denoising_data rl0 else false)
            sock = true →
          ∃ h, t.nextId ≤ h ∧
            (∃ nd, nd ∈ (render_nodes._connect_passes cs t rlId foId ud
                myu).nodes ∧ nd.id = h ∧ nd.kind = .denoise) ∧
            (⟨rlId, j, h, 0⟩ : Link) ∈
              (render_nodes._connect_passes cs t rlId foId ud myu).links ∧
            (∀ jN, rl0.outputs.findIdx?
                (fun sk => sk.name = "Denoising Normal") = some jN →
              (⟨rlId, jN, h, 1⟩ : Link) ∈
                (render_nodes._connect_passes cs t rlId foId ud myu).links) ∧
            (∀ jA, rl0.outputs.findIdx?
                (fun sk => sk.name = "Denoising Albedo") = some jA →
              (⟨rlId, jA, h, 2⟩ : Link) ∈
                (render_nodes._connect_passes cs t rlId foId ud myu).links) ∧
            (⟨h, 0, foId, k⟩ : Link) ∈
              (render_nodes._connect_passes cs t rlId foId ud myu).links) ∧
        (shouldDenoise cs ud
            (if ud then render_nodes._has_denoising_data rl0 else false)
            sock = false →
          shouldInvert cs myu sock = true →
          ∃ h, t.nextId ≤ h ∧
            (∃ nd, nd ∈ (render_nodes._connect_passes cs t rlId foId ud
                myu).nodes ∧ nd.id = h ∧ nd.kind = .invertGroup) ∧
            (⟨rlId, j, h, 0⟩ : Link) ∈
              (render_nodes._connect_passes cs t rlId foId ud myu).links ∧
            (⟨h, 0, foId, k⟩ : Link) ∈
              (render_nodes._connect_passes cs t rlId foId ud myu).links) ∧
        (shouldDenoise cs ud
            (if ud then render_nodes._has_denoising_data rl0 else false)
            sock = false →
          shouldInvert cs myu sock = false →
          (⟨rlId, j, foId, k⟩ : Link) ∈
            (render_nodes._connect_passes cs t rlId foId ud myu).links) := by
  intro j sock hmem hen hskip
  have hspec := connect_passes_spec cs t rlId foId ud myu rl0 fo hw hrl hfo hne
  obtain ⟨k, hslot, hdI, hvI, hdirI⟩ := passPlan_routing cs rlId foId ud myu
    (if ud then render_nodes._has_denoising_data rl0 else false)
    rl0.location.1 rl0.location.2 rl0.outputs rl0.outputs.enum 0 t.nextId
    fo.inputs hfin j sock hmem hen hskip
  have hids := passPlan_ids cs rlId foId ud myu
    (if ud then render_nodes._has_denoising_data rl0 else false)
    rl0.location.1 rl0.location.2 rl0.outputs rl0.outputs.enum 0
    t.nextId fo.inputs
  have hbound : ∀ nd ∈ (passPlan cs rlId foId ud myu
      (if ud then render_nodes._has_denoising_data rl0 else false)
      rl0.location.1 rl0.location.2 rl0.outputs rl0.outputs.enum 0
      t.nextId fo.inputs).1, t.nextId ≤ nd.id := by
    intro nd hnd
    have : nd.id ∈ (passPlan cs rlId foId ud myu
        (if ud then render_nodes._has_denoising_data rl0 else false)
        rl0.location.1 rl0.location.2 rl0.outputs rl0.outputs.enum 0
        t.nextId fo.inputs).1.map Node.id := List.mem_map_of_mem Node.id hnd
    rw [hids] at this
    have := List.mem_range'.1 this
    omega
  refine ⟨k, ?_, ?_, ?_, ?_⟩
  · obtain ⟨hfomem, hfoid⟩ := getNode_some hfo
    refine ⟨updIn foId (passPlan cs rlId foId ud myu
        (if ud then render_nodes._has_denoising_data rl0 else false)
        rl0.location.1 rl0.location.2 rl0.outputs rl0.outputs.enum 0
        t.nextId fo.inputs).2.2 fo, ?_, ?_, ?_⟩
    · rw [hspec]
      show _ ∈ t.nodes.map _ ++ _
      exact List.mem_append.2 (Or.inl (List.mem_map_of_mem _ hfomem))
    · rw [updIn_id_eq]
      exact hfoid
    · rw [updIn_inputs_self _ _ _ hfoid]
      exact hslot
  · intro hd
    obtain ⟨h, ⟨nd, hnd, hid, hkind⟩, hL0, hLN, hLA, hL3⟩ := hdI hd
    refine ⟨h, by rw [← hid]; exact hbound nd hnd,
      ⟨nd, ?_, hid, hkind⟩, ?_, ?_, ?_, ?_⟩
    · rw [hspec]
      exact List.mem_append.2 (Or.inr hnd)
    · rw [hspec]
      exact List.mem_append.2 (Or.inr hL0)
    · intro jN hjN
      rw [hspec]
      exact List.mem_append.2 (Or.inr (hLN jN hjN))
    · intro jA hjA
      rw [hspec]
      exact List.mem_append.2 (Or.inr (hLA jA hjA))
    · rw [hspec]
      exact List.mem_append.2 (Or.inr hL3)
  · intro hd hv
    obtain ⟨h, ⟨nd, hnd, hid, hkind⟩, hL0, hL1⟩ := hvI hd hv
    refine ⟨h, by rw [← hid]; exact hbound nd hnd,
      ⟨nd, ?_, hid, hkind⟩, ?_, ?_⟩
    · rw [hspec]
      exact List.mem_append.2 (Or.inr hnd)
    · rw [hspec]
      exact List.mem_append.2 (Or.inr hL0)
    · rw [hspec]
      exact List.mem_append.2 (Or.inr hL1)
  · intro hd hv
    rw [hspec]
    exact List.mem_append.2 (Or.inr (hdirI hd hv))

/-- The slot list of one layer plan: one slot per enabled, non-skipped
pass, in pass order, named by `slotNameOf`. -/
theorem layerPlan_slots (cs : PassConsts) (s : Scene) (vl : ViewLayer)
    (n : Nat) (off : Int) :
    (layerPlan cs s vl n off).2.2 =
      (vl.passes.enum.filter (fun p =>
        p.2.enabled && !(cs.skipPasses.contains p.2.name))).map
        (fun p => (⟨slotNameOf p.2, true⟩ : Socket)) :=
  passPlan_slots cs n (n + 1) _ _ _ 0 off vl.passes vl.passes.enum 0
    (n + 2) []

/-- Every pass-loop link leaves either the Render Layers node or one of
the helper nodes the loop itself created. -/
theorem passPlan_from_bounds (cs : PassConsts) (rlId foId : Nat)
    (ud myu hdd : Bool) (rl_x rl_y : Int) (rlOuts : List Socket) :
    ∀ (pending : List (Nat × Socket)) (yoff : Int) (nid : Nat)
      (slots : List Socket),
      ∀ L ∈ (passPlan cs rlId foId ud myu hdd rl_x rl_y rlOuts pending yoff
          nid slots).2.1,
        L.fromNode = rlId ∨ (nid ≤ L.fromNode ∧ L.fromNode <
          nid + (passPlan cs rlId foId ud myu hdd rl_x rl_y rlOuts pending
            yoff nid slots).1.length) := by
  intro pending
  induction pending with
  | nil =>
    intro yoff nid slots L hL
    simp [passPlan] at hL
  | cons p rest ih =>
    obtain ⟨j1, sock1⟩ := p
    intro yoff nid slots L hL
    rw [passPlan] at hL ⊢
    by_cases hg : ¬ sock1.enabled ∨ cs.skipPasses.contains sock1.name
    · rw [if_pos hg] at hL ⊢
      exact ih yoff nid slots L hL
    · rw [if_neg hg] at hL ⊢
      dsimp only at hL ⊢
      by_cases hd1 : (ud && hdd && cs.denoisePasses.contains sock1.name) = true
      · rw [if_pos hd1] at hL ⊢
        simp only [List.length_cons]
        rcases List.mem_append.1 hL with hL1 | hL5
        rotate_left
        · rcases ih (yoff - 30) (nid + 1) _ L hL5 with h | ⟨h1, h2⟩
          · exact Or.inl h
          · exact Or.inr ⟨by omega, by omega⟩
        rcases List.mem_append.1 hL1 with hL2 | hL4
        rotate_left
        · rcases List.mem_singleton.1 hL4 with rfl
          refine Or.inr ⟨le_rfl, ?_⟩
          show nid < _
          omega
        rcases List.mem_append.1 hL2 with hL3 | hLA
        rotate_left
        · obtain ⟨hf, -, -⟩ := rlNameLink_mem rlId rlOuts "Denoising Albedo"
            (nid, 2) L hLA
          exact Or.inl hf
        rcases List.mem_append.1 hL3 with hL0 | hLN
        rotate_left
        · obtain ⟨hf, -, -⟩ := rlNameLink_mem rlId rlOuts "Denoising Normal"
            (nid, 1) L hLN
          exact Or.inl hf
        · rcases List.mem_singleton.1 hL0 with rfl
          exact Or.inl rfl
      · rw [if_neg hd1] at hL ⊢
        by_cases hv1 : (myu && cs.invertYPasses.contains sock1.name) = true
        · rw [if_pos hv1] at hL ⊢
          simp only [List.length_cons]
          rcases List.mem_append.1 hL with hL1 | hL5
          rotate_left
          · rcases ih (yoff - 30) (nid + 1) _ L hL5 with h | ⟨h1, h2⟩
            · exact Or.inl h
            · exact Or.inr ⟨by omega, by omega⟩
          rcases List.mem_cons.1 hL1 with rfl | hL2
          · exact Or.inl rfl
          · rcases List.mem_singleton.1 hL2 with rfl
            refine Or.inr ⟨le_rfl, ?_⟩
            show nid < _
            omega
        · rw [if_neg hv1] at hL ⊢
          rcases List.mem_cons.1 hL with rfl | hL2
          · exact Or.inl rfl
          · exact ih yoff nid _ L hL2

theorem layerPlan_from_bounds (cs : PassConsts) (s : Scene) (vl : ViewLayer)
    (n : Nat) (off : Int) :
    ∀ L ∈ (layerPlan cs s vl n off).2.1,
      L.fromNode = n ∨ (n + 2 ≤ L.fromNode ∧
        L.fromNode < n + 2 + (layerPlan cs s vl n off).1.length) := by
  intro L hL
  exact passPlan_from_bounds cs n (n + 1) _ _ _ 0 off vl.passes
    vl.passes.enum 0 (n + 2) [] L hL

/-- Every link the per-layer loop creates leaves a node it created
itself (id at least the starting fresh id). -/
theorem genPlan_link_ge (cs : PassConsts) (s : Scene) (fp : String) :
    ∀ (l : List (ViewLayer × Int)) (n : Nat),
      ∀ L ∈ (genPlan cs s fp l n).2.1, n ≤ L.fromNode := by
  intro l
  induction l with
  | nil =>
    intro n L hL
    simp [genPlan] at hL
  | cons p rest ih =>
    obtain ⟨vl, off⟩ := p
    intro n L hL
    rw [genPlan] at hL
    rcases List.mem_append.1 hL with h | h
    · rcases layerPlan_from_bounds cs s vl n off L h with h1 | ⟨h1, h2⟩
      · omega
      · omega
    · have := ih (n + 2 + (layerPlan cs s vl n off).1.length) L h
      omega

/-- The id pair recorded for each layer starts at or after the starting
fresh id. -/
theorem genPlan_pairs_ge (cs : PassConsts) (s : Scene) (fp : String) :
    ∀ (l : List (ViewLayer × Int)) (n : Nat) (i : Nat) (m x : Nat),
      (genPlan cs s fp l n).2.2.1[i]? = some (m, x) → n ≤ m := by
  intro l
  induction l with
  | nil =>
    intro n i m x h
    simp [genPlan] at h
  | cons p rest ih =>
    obtain ⟨vl, off⟩ := p
    intro n i m x h
    cases i with
    | zero =>
      rw [genPlan] at h
      simp at h
      omega
    | succ i2 =>
      have h2 : (genPlan cs s fp rest
          (n + 2 + (layerPlan cs s vl n off).1.length)).2.2.1[i2]? =
          some (m, x) := by
        rw [genPlan] at h
        simpa using h
      have := ih (n + 2 + (layerPlan cs s vl n off).1.length) i2 m x h2
      omega

/-- Each layer's whole id range (its Render Layers / File Output pair
and all its helper nodes) lies below the loop's final fresh id. -/
theorem genPlan_pairs_lt (cs : PassConsts) (s : Scene) (fp : String) :
    ∀ (l : List (ViewLayer × Int)) (n : Nat) (i : Nat) (hi : i < l.length)
      (m : Nat),
      (genPlan cs s fp l n).2.2.1[i]? = some (m, m + 1) →
      m + 2 + (layerPlan cs s (l.get ⟨i, hi⟩).1 m (l.get ⟨i, hi⟩).2).1.length
        ≤ (genPlan cs s fp l n).2.2.2 := by
  intro l
  induction l with
  | nil =>
    intro n i hi m h
    simp at hi
  | cons p rest ih =>
    obtain ⟨vl, off⟩ := p
    intro n i hi m h
    have hfin : (genPlan cs s fp ((vl, off) :: rest) n).2.2.2 =
        (genPlan cs s fp rest
          (n + 2 + (layerPlan cs s vl n off).1.length)).2.2.2 := by
      rw [genPlan]
    cases i with
    | zero =>
      have hm : n = m := by
        rw [genPlan] at h
        simp at h
        omega
      subst hm
      show n + 2 + (layerPlan cs s vl n off).1.length ≤ _
      rw [hfin]
      have h2 := (genPlan_ids cs s fp rest
        (n + 2 + (layerPlan cs s vl n off).1.length)).2
      omega
    | succ i2 =>
      have h2 : (genPlan cs s fp rest
          (n + 2 + (layerPlan cs s vl n off).1.length)).2.2.1[i2]? =
          some (m, m + 1) := by
        rw [genPlan] at h
        simpa using h
      have := ih (n + 2 + (layerPlan cs s vl n off).1.length) i2
        (by simpa using Nat.lt_of_succ_lt_succ hi) m h2
      show m + 2 + (layerPlan cs s (rest.get ⟨i2, _⟩).1 m
        (rest.get ⟨i2, _⟩).2).1.length ≤ _
      rw [hfin]
      exact this

/-- Per-layer routing in final form: every enabled, non-skipped pass of
the layer gets a slot, wired either directly from the Render Layers node
to the File Output node or through one fresh helper node. -/
theorem layerPlan_route (cs : PassConsts) (s : Scene) (vl : ViewLayer)
    (n : Nat) (off : Int) :
    ∀ j sock, (j, sock) ∈ vl.passes.enum → sock.enabled = true →
      cs.skipPasses.contains sock.name = false →
      ∃ k,
        (layerPlan cs s vl n off).2.2[k]? = some ⟨slotNameOf sock, true⟩ ∧
        ((⟨n, j, n + 1, k⟩ : Link) ∈ (layerPlan cs s vl n off).2.1 ∨
          ∃ h, n + 2 ≤ h ∧ h < n + 2 + (layerPlan cs s vl n off).1.length ∧
            (∃ nd, nd ∈ (layerPlan cs s vl n off).1 ∧ nd.id = h ∧
              (nd.kind = .denoise ∨ nd.kind = .invertGroup)) ∧
            (⟨n, j, h, 0⟩ : Link) ∈ (layerPlan cs s vl n off).2.1 ∧
            (⟨h, 0, n + 1, k⟩ : Link) ∈ (layerPlan cs s vl n off).2.1) := by
  intro j sock hmem hen hskip
  unfold layerPlan
  obtain ⟨k, hk, hdI, hvI, hdirI⟩ := passPlan_routing cs n (n + 1)
    (if s.renderEngine = "CYCLES" then vl.denoisingStorePasses else false)
    s.makeYUp
    (if (if s.renderEngine = "CYCLES" then vl.denoisingStorePasses
        else false) then
      render_nodes._has_denoising_data (tools.mkRenderLayers vl (0, off) n)
    else false)
    0 off vl.passes vl.passes.enum 0 (n + 2) []
    (fun sk h => absurd h (List.not_mem_nil sk)) j sock hmem hen hskip
  have hids := passPlan_ids cs n (n + 1)
    (if s.renderEngine = "CYCLES" then vl.denoisingStorePasses else false)
    s.makeYUp
    (if (if s.renderEngine = "CYCLES" then vl.denoisingStorePasses
        else false) then
      render_nodes._has_denoising_data (tools.mkRenderLayers vl (0, off) n)
    else false)
    0 off vl.passes vl.passes.enum 0 (n + 2) []
  refine ⟨k, hk, ?_⟩
  by_cases hd : shouldDenoise cs
      (if s.renderEngine = "CYCLES" then vl.denoisingStorePasses else false)
      (if (if s.renderEngine = "CYCLES" then vl.denoisingStorePasses
          else false) then
        render_nodes._has_denoising_data (tools.mkRenderLayers vl (0, off) n)
      else false) sock = true
  · obtain ⟨h, ⟨nd, hnd, hidh, hkh⟩, hL0, -, -, hL3⟩ := hdI hd
    have hmm := List.mem_map_of_mem Node.id hnd
    rw [hids] at hmm
    have hb := List.mem_range'.1 hmm
    rw [hidh] at hb
    exact Or.inr ⟨h, by omega, by omega, ⟨nd, hnd, hidh, Or.inl hkh⟩,
      hL0, hL3⟩
  · by_cases hv : shouldInvert cs s.makeYUp sock = true
    · obtain ⟨h, ⟨nd, hnd, hidh, hkh⟩, hL0, hL1⟩ :=
        hvI (Bool.eq_false_iff.2 hd) hv
      have hmm := List.mem_map_of_mem Node.id hnd
      rw [hids] at hmm
      have hb := List.mem_range'.1 hmm
      rw [hidh] at hb
      exact Or.inr ⟨h, by omega, by omega, ⟨nd, hnd, hidh, Or.inr hkh⟩,
        hL0, hL1⟩
    · exact Or.inl (hdirI (Bool.eq_false_iff.2 hd) (Bool.eq_false_iff.2 hv))

/-- No pass-routing link (into the File Output node or into some node's
first input) leaves a disabled or skipped socket. -/
theorem layerPlan_no_link (cs : PassConsts) (s : Scene) (vl : ViewLayer)
    (n : Nat) (off : Int) :
    ∀ j sock, (j, sock) ∈ vl.passes.enum →
      (sock.enabled = false ∨ cs.skipPasses.contains sock.name = true) →
      ∀ L ∈ (layerPlan cs s vl n off).2.1, L.fromNode = n → L.fromPort = j →
        (L.toNode = n + 1 ∨ L.toPort = 0) → False := by
  intro j sock hmem hun L hL hfrom hport htgt
  unfold layerPlan at hL
  obtain ⟨p, hp, hfromp, henp, hskipp, -⟩ := passPlan_link_inv cs n (n + 1)
    _ _ _ 0 off vl.passes vl.passes.enum 0 (n + 2) [] (by omega) (by omega)
    L hL hfrom htgt
  obtain ⟨pj, psock⟩ := p
  have hpj : pj = j := hfromp.symm.trans hport
  subst hpj
  have hsock : psock = sock := by
    obtain ⟨h1, h2⟩ := List.mem_enum hp
    obtain ⟨h3, h4⟩ := List.mem_enum hmem
    rw [h2, h4]
  rcases hun with h | h
  · rw [hsock, h] at henp
    exact Bool.false_ne_true henp
  · rw [hsock] at hskipp
    rw [hskipp] at h
    exact Bool.false_ne_true h

/-- A loop link that leaves the Render Layers node of layer `i` belongs
to that layer's own pass plan. -/
theorem genPlan_link_from (cs : PassConsts) (s : Scene) (fp : String) :
    ∀ (l : List (ViewLayer × Int)) (n : Nat) (i : Nat) (hi : i < l.length)
      (m : Nat),
      (genPlan cs s fp l n).2.2.1[i]? = some (m, m + 1) →
      ∀ L ∈ (genPlan cs s fp l n).2.1, L.fromNode = m →
        L ∈ (layerPlan cs s (l.get ⟨i, hi⟩).1 m (l.get ⟨i, hi⟩).2).2.1 := by
  intro l
  induction l with
  | nil =>
    intro n i hi
    simp at hi
  | cons p rest ih =>
    obtain ⟨vl, off⟩ := p
    intro n i hi m hpair L hL hfrom
    rw [genPlan] at hL
    cases i with
    | zero =>
      have hm : n = m := by
        rw [genPlan] at hpair
        simp at hpair
        omega
      subst hm
      rcases List.mem_append.1 hL with h | h
      · exact h
      · exfalso
        have := genPlan_link_ge cs s fp rest
          (n + 2 + (layerPlan cs s vl n off).1.length) L h
        omega
    | succ i2 =>
      have hpair2 : (genPlan cs s fp rest
          (n + 2 + (layerPlan cs s vl n off).1.length)).2.2.1[i2]? =
          some (m, m + 1) := by
        rw [genPlan] at hpair
        simpa using hpair
      have hge : n + 2 + (layerPlan cs s vl n off).1.length ≤ m :=
        genPlan_pairs_ge cs s fp rest _ i2 m (m + 1) hpair2
      rcases List.mem_append.1 hL with h | h
      · exfalso
        rcases layerPlan_from_bounds cs s vl n off L h with h1 | ⟨h1, h2⟩ <;>
          omega
      · exact ih (n + 2 + (layerPlan cs s vl n off).1.length) i2
          (by simpa using Nat.lt_of_succ_lt_succ hi) m hpair2 L h hfrom

end Gen

/-! ## Claim theorems -/

/-- Top-level names `core/constants.py` defines (lines 1–104: two enums,
two pass tables, the node colours and the file-output defaults). -/
def core_constants_defined : List String :=
  ["RenderEngine", "PassCategory", "CYCLES_PASSES", "EEVEE_PASSES",
   "NODE_COLORS", "FILE_OUTPUT_DEFAULTS"]

/-- Names `operators/render_nodes.py` line 18 imports from
`core.constants`. -/
def render_nodes_constants_imports : List String :=
  ["SKIP_PASSES", "DENOISE_PASSES", "INVERT_Y_PASSES"]

/-- Names `operators/tools.py` line 12 imports from `core.constants`. -/
def operators_tools_constants_imports : List String :=
  ["NODE_COLORS", "FILE_OUTPUT_DEFAULTS", "DENOISE_PASSES", "SKIP_PASSES"]

/-- C2: the operator modules import `SKIP_PASSES`, `DENOISE_PASSES` and
`INVERT_Y_PASSES` from `core.constants`, but `core/constants.py` defines
none of them, so importing either operator module raises `ImportError`
and the pass-routing code can never run.  (The claim that every imported
name is defined is false.) -/
theorem generate_claim_C2 :
    "SKIP_PASSES" ∈ render_nodes_constants_imports ∧
    "SKIP_PASSES" ∈ operators_tools_constants_imports ∧
    "SKIP_PASSES" ∉ core_constants_defined ∧
    "DENOISE_PASSES" ∉ core_constants_defined ∧
    "INVERT_Y_PASSES" ∉ core_constants_defined ∧
    ¬ (∀ nm ∈ render_nodes_constants_imports ++
        operators_tools_constants_imports, nm ∈ core_constants_defined) := by
  decide

/-- C6 (counterexample): the two `build_base_path` duplicates disagree on
every input — `path_utils` keeps an extra `<project>/` directory level —
and so do the two `build_camera_export_path` duplicates. -/
theorem generate_claim_C6_counterexample :
    path_utils.build_base_path "proj" "layer" ≠
      relative_path.build_base_path "proj" "layer" ∧
    path_utils.build_camera_export_path "proj" ≠
      relative_path.build_camera_export_path "proj" := by
  decide

/-- C6 (amended): both module pairs compute the same `<result>` (and
`<filename>`), but `path_utils` inserts an extra `<project_name>/`
directory level after `render_master/`, so the functions are not
extensionally equal: the pre-render existence check looks at different
paths than the node generator writes. -/
theorem generate_claim_C6 :
    ∀ (project_name layer_name : String),
      ∃ result filename,
        relative_path.build_base_path project_name layer_name =
          "//../render/render_master/" ++ result ++ "/" ++ result ++
            ".####.exr" ∧
        path_utils.build_base_path project_name layer_name =
          "//../render/render_master/" ++ project_name ++ "/" ++ result ++
            "/" ++ result ++ ".####.exr" ∧
        relative_path.build_camera_export_path project_name =
          "//../render/render_master/" ++ filename ∧
        path_utils.build_camera_export_path project_name =
          "//../render/render_master/" ++ project_name ++ "/" ++ filename := by
  intro pn ln
  refine ⟨(match Re.versionSearch pn with
    | some (a, len) =>
      rstripDotsStr (pySliceTo pn a) ++ ".l." ++ ln ++ "." ++
        pySlice pn a (a + len) ++ pySliceFrom pn (a + len)
    | none => pn ++ ".l." ++ ln),
   (match Re.versionSearch pn with
    | some (a, len) =>
      rstripDotsStr (pySliceTo pn a) ++ ".camera." ++
        pySlice pn a (a + len) ++ pySliceFrom pn (a + len) ++ ".abc"
    | none => pn ++ ".camera.abc"), ?_, ?_, ?_, ?_⟩ <;>
    (first
      | (show relative_path.build_base_path pn ln = _
         unfold relative_path.build_base_path
         rcases Re.versionSearch pn with _ | ⟨a, len⟩ <;> rfl)
      | (show path_utils.build_base_path pn ln = _
         unfold path_utils.build_base_path
         rcases Re.versionSearch pn with _ | ⟨a, len⟩ <;> rfl)
      | (show relative_path.build_camera_export_path pn = _
         unfold relative_path.build_camera_export_path
         rcases Re.versionSearch pn with _ | ⟨a, len⟩ <;> rfl)
      | (show path_utils.build_camera_export_path pn = _
         unfold path_utils.build_camera_export_path
         rcases Re.versionSearch pn with _ | ⟨a, len⟩ <;> rfl))

/-- A pre-existing compositor node used by the C7 demonstration. -/
def C7node (i : Nat) : Node :=
  { id := i, name := "old" ++ toString i, label := "", kind := .preexisting i,
    location := (0, 0), hide := false, inputs := [], outputs := [], dimY := 0 }

def C7tree : Tree := ⟨[C7node 0, C7node 1], [], 2⟩

def C7scene : Scene :=
  { viewLayers := [⟨"L", true, 0, false, false, []⟩], camera := none,
    renderEngine := "EEVEE", useNodes := true, clearNodesFlag := true,
    makeYUp := false, exportCameraFlag := false, updatePathsFlag := false }

def C7consts : PassConsts := ⟨[], [], []⟩

/-- C7 (code bug): with the clear-nodes flag set, `clear_nodes` iterates
`for node in tree.nodes` while removing from the same live collection,
so it skips every other node; on a two-node tree the second pre-existing
node survives the whole generate-nodes run, contradicting the claim
(and the function's docstring) that every pre-existing node is removed. -/
theorem generate_claim_C7 :
    C7scene.clearNodesFlag = true ∧
    (tools.clear_nodes C7tree).nodes = [C7node 1] ∧
    C7node 1 ∈
      (render_nodes.generate_nodes_execute C7consts C7scene "" C7tree).tree.nodes := by
  decide

def C10world : export_ops.ExportWorld :=
  { filepath := "/a/b.blend", hasCamera := true, alembicOk := true }

/-- C10 (counterexample): the camera-export operator touches the disk:
on a saved file with a camera it creates the render-master directory
tree and writes the Alembic file, so the plugin does persist data beyond
the host's scene file. -/
theorem generate_claim_C10_counterexample :
    (export_ops.export_camera_execute C10world).1 = .finished ∧
    (export_ops.export_camera_execute C10world).2 =
      [.mkdirParents "/a/../render/render_master",
       .writeFile "/a/../render/render_master/b.camera.abc"] := by
  decide

/-- C10 (amended): the only operator with disk effects is the camera
exporter: with no camera or an unsaved file it touches nothing, and
otherwise it creates the export path's parent directories
(`mkdir(parents=True, exist_ok=True)`) and, when the host's Alembic
export succeeds, writes the `.abc` file at the resolved export path. -/
theorem generate_claim_C10 :
    ∀ w : export_ops.ExportWorld,
      (w.hasCamera = false → (export_ops.export_camera_execute w).2 = []) ∧
      (w.filepath = "" → (export_ops.export_camera_execute w).2 = []) ∧
      (w.hasCamera = true → w.filepath ≠ "" →
        (export_ops.export_camera_execute w).2 =
          export_ops.FsEffect.mkdirParents
            (path_utils.parentDir (export_ops.bpy_abspath w.filepath
              (relative_path.build_camera_export_path (pathStem w.filepath)))) ::
          (if w.alembicOk then
            [export_ops.FsEffect.writeFile (export_ops.bpy_abspath w.filepath
              (relative_path.build_camera_export_path (pathStem w.filepath)))]
          else [])) := by
  intro w
  refine ⟨?_, ?_, ?_⟩
  · intro h
    unfold export_ops.export_camera_execute
    rw [if_pos (by simp [h])]
  · intro h
    unfold export_ops.export_camera_execute
    by_cases hc : w.hasCamera = true
    · rw [if_neg (by simp [hc]), if_pos h]
    · rw [if_pos (by simp [Bool.eq_false_iff.2 hc])]
  · intro hc hfp
    unfold export_ops.export_camera_execute
    rw [if_neg (by simp [hc]), if_neg hfp]
    dsimp only
    split
    · rfl
    · rfl

def C8scene : Scene :=
  { viewLayers := [⟨"L", true, 0, false, false, []⟩], camera := none,
    renderEngine := "EEVEE", useNodes := false, clearNodesFlag := false,
    makeYUp := false, exportCameraFlag := true, updatePathsFlag := false }

def C8world : render_ops.RenderWorld :=
  { filepath := "/a/b.blend", scene := C8scene, tree := some ⟨[], [], 0⟩,
    fsExists := fun _ => true }

/-- C8 (counterexample): with the compositor disabled, camera export
enabled and the camera export file already on disk, `invoke` starts the
render immediately — the claim would have it open the overwrite dialog,
since a checked output path exists.  The compositor-disabled shortcut
returns before any path is checked. -/
theorem generate_claim_C8_counterexample :
    C8world.scene.useNodes = false ∧
    C8world.scene.exportCameraFlag = true ∧
    path_utils.path_exists C8world.fsExists
      (path_utils.resolve_relative_path C8world.filepath
        (path_utils.build_camera_export_path
          (pathStem C8world.filepath))) = true ∧
    render_ops.check_and_render_invoke C8world =
      .renderImmediately := by
  decide

/-- C8 (amended): unsaved projects are cancelled; when the compositor is
disabled or there is no node tree the render starts immediately with no
path checked (camera export included); otherwise zero File Output nodes
cancel the operator, and the render starts immediately exactly when none
of the checked paths (File Output base paths, plus the camera export
path when enabled) exists, the overwrite dialog listing the existing
ones otherwise. -/
theorem generate_claim_C8 :
    ∀ w : render_ops.RenderWorld,
      (w.filepath = "" →
        render_ops.check_and_render_invoke w = .cancelledUnsaved) ∧
      (w.filepath ≠ "" →
        ((if w.scene.updatePathsFlag then
            (render_ops.update_output_paths_execute w.scene w.filepath
              w.tree).1
          else w.tree) = none →
          render_ops.check_and_render_invoke w = .renderImmediately) ∧
        (∀ tree,
          (if w.scene.updatePathsFlag then
            (render_ops.update_output_paths_execute w.scene w.filepath
              w.tree).1
          else w.tree) = some tree →
          (w.scene.useNodes = false →
            render_ops.check_and_render_invoke w = .renderImmediately) ∧
          (w.scene.useNodes = true →
            ∀ existing,
              existing =
                (if w.scene.exportCameraFlag then
                  (if path_utils.path_exists w.fsExists
                      (path_utils.resolve_relative_path w.filepath
                        (path_utils.build_camera_export_path
                          (pathStem w.filepath))) then
                    [path_utils.resolve_relative_path w.filepath
                      (path_utils.build_camera_export_path
                        (pathStem w.filepath))]
                  else [])
                else []) ++
                (tree.nodes.filter Node.isOutputFile).filterMap (fun n =>
                  if path_utils.path_exists w.fsExists
                      (path_utils.resolve_relative_path w.filepath
                        n.basePathOf) then
                    some (path_utils.resolve_relative_path w.filepath
                      n.basePathOf)
                  else none) →
              ((tree.nodes.filter Node.isOutputFile).length = 0 →
                render_ops.check_and_render_invoke w =
                  .cancelledNoFileOutput) ∧
              (0 < (tree.nodes.filter Node.isOutputFile).length →
                (existing = [] →
                  render_ops.check_and_render_invoke w =
                    .renderImmediately) ∧
                (existing ≠ [] →
                  render_ops.check_and_render_invoke w =
                    .showOverwriteDialog existing))))) := by
  intro w
  constructor
  · intro h
    unfold render_ops.check_and_render_invoke
    rw [if_pos h]
  · intro hfp
    constructor
    · intro hnone
      unfold render_ops.check_and_render_invoke
      rw [if_neg hfp]
      dsimp only
      rw [hnone]
    · intro tree htree
      constructor
      · intro hun
        unfold render_ops.check_and_render_invoke
        rw [if_neg hfp]
        dsimp only
        rw [htree, hun]
      · intro hun existing hex
        unfold render_ops.check_and_render_invoke
        rw [if_neg hfp]
        dsimp only
        rw [htree, hun]
        dsimp only
        rw [← hex]
        constructor
        · intro hcnt
          rw [if_pos hcnt]
        · intro hcnt
          rw [if_neg (by omega)]
          constructor
          · intro hemp
            rw [if_neg (by simp [hemp])]
          · intro hemp
            rw [if_pos (by simp [List.isEmpty_iff]; exact hemp)]

/-- C5: every File Output node the generate-nodes operator creates
carries the multilayer-EXR/32-bit/DWAA defaults, and its base path is
`//../render/render_master/<result>/<result>.####.exr` where `<result>`
inserts `.l.<layer>.` before the version token of the project name (the
saved file's stem, or `"untitled"`) when one is found, and is
`<project>.l.<layer>` otherwise. -/
theorem generate_claim_C5 (cs : PassConsts) (s : Scene) (fp : String)
    (t0 base : Tree) (hw : TreeWF t0)
    (hbase : base = (if s.clearNodesFlag then tools.clear_nodes t0 else t0))
    (hne : ¬ (tools.get_renderable_view_layers s).isEmpty = true) :
    ∃ ns,
      (render_nodes.generate_nodes_execute cs s fp t0).tree.nodes =
        base.nodes ++ ns ∧
      ∀ nd ∈ ns, nd.isOutputFile = true →
        ∃ (i : Nat) (hi : i < (tools.get_renderable_view_layers s).length)
          (r : String),
          nd.kind = .outputFile
            (relative_path.build_base_path
              (if fp ≠ "" then pathStem fp else "untitled")
              ((tools.get_renderable_view_layers s).get ⟨i, hi⟩).name)
            FILE_OUTPUT_DEFAULTS ∧
          relative_path.build_base_path
              (if fp ≠ "" then pathStem fp else "untitled")
              ((tools.get_renderable_view_layers s).get ⟨i, hi⟩).name =
            "//../render/render_master/" ++ r ++ "/" ++ r ++ ".####.exr" ∧
          (Re.versionSearch (if fp ≠ "" then pathStem fp else "untitled") =
              none →
            r = (if fp ≠ "" then pathStem fp else "untitled") ++ ".l." ++
              ((tools.get_renderable_view_layers s).get ⟨i, hi⟩).name) ∧
          (∀ a len,
            Re.versionSearch (if fp ≠ "" then pathStem fp else "untitled") =
              some (a, len) →
            r = rstripDotsStr (pySliceTo
                  (if fp ≠ "" then pathStem fp else "untitled") a) ++
              ".l." ++
              ((tools.get_renderable_view_layers s).get ⟨i, hi⟩).name ++
              "." ++
              pySlice (if fp ≠ "" then pathStem fp else "untitled") a
                (a + len) ++
              pySliceFrom (if fp ≠ "" then pathStem fp else "untitled")
                (a + len)) := by
  obtain ⟨offs, chainNs, chainL, hlen, hexec, hkinds, -⟩ :=
    Gen.generate_execute_spec cs s fp t0 base hw hbase hne
  refine ⟨(Gen.genPlan cs s fp
      ((tools.get_renderable_view_layers s).zip offs) base.nextId).1 ++
      chainNs, ?_, ?_⟩
  · rw [hexec]
    exact List.append_assoc ..
  · intro nd hnd hfo
    rcases List.mem_append.1 hnd with h | h
    rotate_left
    · exact absurd hfo (by rw [(hkinds nd h).2]; simp)
    obtain ⟨i, hi, m, heq⟩ := Gen.genPlan_FO cs s fp
      ((tools.get_renderable_view_layers s).zip offs) base.nextId nd h hfo
    have hlz : ((tools.get_renderable_view_layers s).zip offs).length =
        (tools.get_renderable_view_layers s).length := by
      rw [List.length_zip .., hlen]
      exact Nat.min_self _
    have hi2 : i < (tools.get_renderable_view_layers s).length := by
      rw [hlz] at hi
      exact hi
    have hzget : ((tools.get_renderable_view_layers s).zip offs).get
        ⟨i, hi⟩ =
        ((tools.get_renderable_view_layers s).get ⟨i, hi2⟩,
         offs.get ⟨i, by rw [hlen]; exact hi2⟩) := by
      rw [List.get_eq_getElem, List.get_eq_getElem, List.get_eq_getElem]
      exact List.getElem_zip ..
    rw [hzget] at heq
    refine ⟨i, hi2,
      (match Re.versionSearch (if fp ≠ "" then pathStem fp else "untitled") with
       | some (a, len) =>
         rstripDotsStr (pySliceTo
             (if fp ≠ "" then pathStem fp else "untitled") a) ++ ".l." ++
           ((tools.get_renderable_view_layers s).get ⟨i, hi2⟩).name ++ "." ++
           pySlice (if fp ≠ "" then pathStem fp else "untitled") a (a + len) ++
           pySliceFrom (if fp ≠ "" then pathStem fp else "untitled") (a + len)
       | none =>
         (if fp ≠ "" then pathStem fp else "untitled") ++ ".l." ++
           ((tools.get_renderable_view_layers s).get ⟨i, hi2⟩).name),
      ?_, ?_, ?_, ?_⟩
    · rw [heq, Gen.updIn_kind]
      rfl
    · unfold relative_path.build_base_path
      rcases hv : Re.versionSearch (if fp ≠ "" then pathStem fp else "untitled")
        with _ | ⟨a, len⟩ <;> rfl
    · intro hv
      rw [hv]
    · intro a len hv
      rw [hv]

def C5scene : Scene :=
  { viewLayers := [⟨"L", true, 0, false, false, []⟩], camera := none,
    renderEngine := "EEVEE", useNodes := true, clearNodesFlag := false,
    makeYUp := false, exportCameraFlag := false, updatePathsFlag := false }

def C5tree : Tree := ⟨[], [], 0⟩

theorem generate_claim_C5_witness :
    TreeWF C5tree ∧
    ¬ (tools.get_renderable_view_layers C5scene).isEmpty = true ∧
    (∃ ns,
      (render_nodes.generate_nodes_execute C7consts C5scene "" C5tree).tree.nodes =
        C5tree.nodes ++ ns ∧
      ∀ nd ∈ ns, nd.isOutputFile = true →
        ∃ (i : Nat) (hi : i < (tools.get_renderable_view_layers C5scene).length)
          (r : String),
          nd.kind = .outputFile
            (relative_path.build_base_path
              (if ("" : String) ≠ "" then pathStem "" else "untitled")
              ((tools.get_renderable_view_layers C5scene).get ⟨i, hi⟩).name)
            FILE_OUTPUT_DEFAULTS ∧
          relative_path.build_base_path
              (if ("" : String) ≠ "" then pathStem "" else "untitled")
              ((tools.get_renderable_view_layers C5scene).get ⟨i, hi⟩).name =
            "//../render/render_master/" ++ r ++ "/" ++ r ++ ".####.exr" ∧
          (Re.versionSearch
              (if ("" : String) ≠ "" then pathStem "" else "untitled") =
              none →
            r = (if ("" : String) ≠ "" then pathStem "" else "untitled") ++
              ".l." ++
              ((tools.get_renderable_view_layers C5scene).get ⟨i, hi⟩).name) ∧
          (∀ a len,
            Re.versionSearch
              (if ("" : String) ≠ "" then pathStem "" else "untitled") =
              some (a, len) →
            r = rstripDotsStr (pySliceTo
                  (if ("" : String) ≠ "" then pathStem "" else "untitled")
                  a) ++
              ".l." ++
              ((tools.get_renderable_view_layers C5scene).get ⟨i, hi⟩).name ++
              "." ++
              pySlice (if ("" : String) ≠ "" then pathStem "" else "untitled")
                a (a + len) ++
              pySliceFrom
                (if ("" : String) ≠ "" then pathStem "" else "untitled")
                (a + len))) :=
  ⟨⟨by decide, by decide⟩, by decide,
   generate_claim_C5 C7consts C5scene "" C5tree C5tree
     ⟨by decide, by decide⟩ rfl (by decide)⟩

/-- C4: the composite chain over its `n` total inputs (the composite
render layer ids, preceded by the camera background image node when one
exists).  For `n = 1` the single source's `Image` output feeds the
Composite and the Viewer node directly and no Alpha Over node is
created; for `n ≥ 2` exactly `n - 1` Alpha Over nodes are created
(`Gen.alphaNodesList`, one per `i < n - 1`) and chained linearly
(`Gen.alphaChainLinks`: output 0 of each into input 1 of the next),
every input feeds exactly one Alpha Over socket (the first input feeds
input 1 of the first node, input `i ≥ 1` feeds input 2 of node
`i - 1`), and the last Alpha Over node's `Image` output feeds both the
Composite and the Viewer node. -/
theorem generate_claim_C4 (t : Tree) (s : Scene) (cIds : List Nat)
    (loc : Int × Int) (jx : Nat → Nat) (hw : TreeWF t)
    (hres : ∀ c ∈ cIds, ∃ nd, t.getNode c = some nd ∧
      nd.outputs.findIdx? (fun sk => sk.name = "Image") = some (jx c)) :
    (∀ c0, cIds = [c0] →
      render_nodes._get_camera_background_image s = none →
      ∃ cloc vloc,
        render_nodes._build_composite_chain t s cIds loc =
          (Tree.mk
            (t.nodes ++ [tools.mkComposite cloc t.nextId,
              tools.mkViewer vloc (t.nextId + 1)])
            (t.links ++ [⟨c0, jx c0, t.nextId, 0⟩] ++
              [⟨c0, jx c0, t.nextId + 1, 0⟩])
            (t.nextId + 2),
           some t.nextId)) ∧
    (∀ c0 c1 rest2, cIds = c0 :: c1 :: rest2 →
      render_nodes._get_camera_background_image s = none →
      ∃ cloc vloc astart,
        render_nodes._build_composite_chain t s cIds loc =
          (Tree.mk
            (t.nodes ++ [tools.mkComposite cloc t.nextId,
                tools.mkViewer vloc (t.nextId + 1)] ++
              Gen.alphaNodesList astart 200 (t.nextId + 2) (rest2.length + 1))
            (t.links ++ Gen.alphaChainLinks (t.nextId + 2) (rest2.length + 1) ++
              ((⟨c0, jx c0, t.nextId + 2, 1⟩ : Link) ::
                (c1 :: rest2).enum.map (fun p =>
                  (⟨p.2, jx p.2, t.nextId + 2 + p.1, 2⟩ : Link))) ++
              [⟨t.nextId + 2 + rest2.length, 0, t.nextId, 0⟩] ++
              [⟨t.nextId + 2 + rest2.length, 0, t.nextId + 1, 0⟩])
            (t.nextId + 2 + (rest2.length + 1)),
           some t.nextId)) ∧
    (∀ b c0 restC, cIds = c0 :: restC →
      render_nodes._get_camera_background_image s = some b →
      ∃ iloc cloc vloc astart,
        render_nodes._build_composite_chain t s cIds loc =
          (Tree.mk
            (t.nodes ++ [tools.mkImage b iloc t.nextId,
                tools.mkComposite cloc (t.nextId + 1),
                tools.mkViewer vloc (t.nextId + 2)] ++
              Gen.alphaNodesList astart 200 (t.nextId + 3) (restC.length + 1))
            (t.links ++ Gen.alphaChainLinks (t.nextId + 3) (restC.length + 1) ++
              ((⟨t.nextId, 0, t.nextId + 3, 1⟩ : Link) ::
                (c0 :: restC).enum.map (fun p =>
                  (⟨p.2, jx p.2, t.nextId + 3 + p.1, 2⟩ : Link))) ++
              [⟨t.nextId + 3 + restC.length, 0, t.nextId + 1, 0⟩] ++
              [⟨t.nextId + 3 + restC.length, 0, t.nextId + 2, 0⟩])
            (t.nextId + 3 + (restC.length + 1)),
           some (t.nextId + 1))) := by
  refine ⟨?_, ?_, ?_⟩
  · intro c0 hC hbg
    subst hC
    obtain ⟨cloc, vloc, heq⟩ := Gen.chain_nobg_single t s c0 loc hbg
    obtain ⟨nd0, h0, hj0⟩ := hres c0 (by simp)
    have hsrc := Gen.getNode_append_old t
      [tools.mkComposite cloc t.nextId, tools.mkViewer vloc (t.nextId + 1)]
      [] 0 c0 nd0 h0
    have hcomp : (Tree.mk (t.nodes ++ [tools.mkComposite cloc t.nextId,
        tools.mkViewer vloc (t.nextId + 1)]) [] 0).getNode t.nextId =
        some (tools.mkComposite cloc t.nextId) :=
      Gen.getNode_mk_append t hw _ _ _ _ _ (le_refl _)
        (List.find?_cons_of_pos _ (by simp [Gen.mkComposite_id]))
    have hview : (Tree.mk (t.nodes ++ [tools.mkComposite cloc t.nextId,
        tools.mkViewer vloc (t.nextId + 1)]) [] 0).getNode (t.nextId + 1) =
        some (tools.mkViewer vloc (t.nextId + 1)) :=
      Gen.getNode_mk_append t hw _ _ _ _ _ (by omega)
        (by
          rw [List.find?_cons_of_neg _ (by simp [Gen.mkComposite_id])]
          exact List.find?_cons_of_pos _ (by simp [Gen.mkViewer_id]))
    refine ⟨cloc, vloc, ?_⟩
    rw [heq, Gen.namesLink_resolve hsrc hcomp hj0 (Gen.mkComposite_findIdx ..),
      Gen.namesLink_resolve hsrc hview hj0 (Gen.mkViewer_findIdx ..)]
  · intro c0 c1 rest2 hC hbg
    subst hC
    obtain ⟨cloc, vloc, astart, heq⟩ :=
      Gen.chain_nobg_multi t s c0 c1 rest2 loc hbg
    have hres2 : ∀ c ∈ c0 :: c1 :: rest2, ∃ nd,
        (Tree.mk (t.nodes ++ [tools.mkComposite cloc t.nextId,
            tools.mkViewer vloc (t.nextId + 1)] ++
          Gen.alphaNodesList astart 200 (t.nextId + 2) (rest2.length + 1))
          [] 0).getNode c = some nd ∧
        nd.outputs.findIdx? (fun sk => sk.name = "Image") = some (jx c) := by
      intro c hc
      obtain ⟨nd, hnd, hjnd⟩ := hres c hc
      refine ⟨nd, ?_, hjnd⟩
      rw [List.append_assoc]
      exact Gen.getNode_append_old t _ _ _ c nd hnd
    have hlast : (Tree.mk (t.nodes ++ [tools.mkComposite cloc t.nextId,
        tools.mkViewer vloc (t.nextId + 1)] ++
        Gen.alphaNodesList astart 200 (t.nextId + 2) (rest2.length + 1))
        [] 0).getNode (t.nextId + 2 + rest2.length) =
        some (tools.mkAlphaOver
          (astart.1 + (rest2.length : Int) * 200, astart.2)
          ("Alpha_Over_" ++ toString (rest2.length + 1))
          (t.nextId + 2 + rest2.length)) := by
      rw [List.append_assoc]
      refine Gen.getNode_mk_append t hw _ _ _ _ _ (by omega) ?_
      rw [List.find?_append,
        show List.find? (fun nd => nd.id = t.nextId + 2 + rest2.length)
          [tools.mkComposite cloc t.nextId,
           tools.mkViewer vloc (t.nextId + 1)] = none from by
            rw [List.find?_cons_of_neg _ (by simp [Gen.mkComposite_id]; omega),
              List.find?_cons_of_neg _ (by simp [Gen.mkViewer_id]; omega)]
            rfl]
      have := Gen.find?_alphaNodes astart 200 (t.nextId + 2)
        (rest2.length + 1) rest2.length (by omega)
      rw [show t.nextId + 2 + rest2.length = t.nextId + 2 + rest2.length
        from rfl]
      simpa using this
    have hcomp : (Tree.mk (t.nodes ++ [tools.mkComposite cloc t.nextId,
        tools.mkViewer vloc (t.nextId + 1)] ++
        Gen.alphaNodesList astart 200 (t.nextId + 2) (rest2.length + 1))
        [] 0).getNode t.nextId = some (tools.mkComposite cloc t.nextId) := by
      rw [List.append_assoc]
      refine Gen.getNode_mk_append t hw _ _ _ _ _ (le_refl _) ?_
      rw [List.find?_append, List.find?_cons_of_pos _ (by simp [Gen.mkComposite_id])]
      rfl
    have hview : (Tree.mk (t.nodes ++ [tools.mkComposite cloc t.nextId,
        tools.mkViewer vloc (t.nextId + 1)] ++
        Gen.alphaNodesList astart 200 (t.nextId + 2) (rest2.length + 1))
        [] 0).getNode (t.nextId + 1) =
        some (tools.mkViewer vloc (t.nextId + 1)) := by
      rw [List.append_assoc]
      refine Gen.getNode_mk_append t hw _ _ _ _ _ (by omega) ?_
      rw [List.find?_append,
        List.find?_cons_of_neg _ (by simp [Gen.mkComposite_id]),
        List.find?_cons_of_pos _ (by simp [Gen.mkViewer_id])]
      rfl
    refine ⟨cloc, vloc, astart, ?_⟩
    rw [heq,
      Gen.alphaInputLinks_resolved_nobg _ jx c0 (c1 :: rest2) _ _
        (by omega) (by simp) hres2,
      Gen.namesLink_resolve hlast hcomp (Gen.mkAlphaOver_findIdx ..)
        (Gen.mkComposite_findIdx ..),
      Gen.namesLink_resolve hlast hview (Gen.mkAlphaOver_findIdx ..)
        (Gen.mkViewer_findIdx ..)]
  · intro b c0 restC hC hbg
    subst hC
    obtain ⟨iloc, cloc, vloc, astart, heq⟩ :=
      Gen.chain_bg t s b c0 restC loc hbg
    have hres2 : ∀ c ∈ c0 :: restC, ∃ nd,
        (Tree.mk (t.nodes ++ [tools.mkImage b iloc t.nextId,
            tools.mkComposite cloc (t.nextId + 1),
            tools.mkViewer vloc (t.nextId + 2)] ++
          Gen.alphaNodesList astart 200 (t.nextId + 3) (restC.length + 1))
          [] 0).getNode c = some nd ∧
        nd.outputs.findIdx? (fun sk => sk.name = "Image") = some (jx c) := by
      intro c hc
      obtain ⟨nd, hnd, hjnd⟩ := hres c hc
      refine ⟨nd, ?_, hjnd⟩
      rw [List.append_assoc]
      exact Gen.getNode_append_old t _ _ _ c nd hnd
    have himg : (Tree.mk (t.nodes ++ [tools.mkImage b iloc t.nextId,
        tools.mkComposite cloc (t.nextId + 1),
        tools.mkViewer vloc (t.nextId + 2)] ++
        Gen.alphaNodesList astart 200 (t.nextId + 3) (restC.length + 1))
        [] 0).getNode t.nextId = some (tools.mkImage b iloc t.nextId) := by
      rw [List.append_assoc]
      refine Gen.getNode_mk_append t hw _ _ _ _ _ (le_refl _) ?_
      rw [List.find?_append, List.find?_cons_of_pos _ (by simp [Gen.mkImage_id])]
      rfl
    have hlast : (Tree.mk (t.nodes ++ [tools.mkImage b iloc t.nextId,
        tools.mkComposite cloc (t.nextId + 1),
        tools.mkViewer vloc (t.nextId + 2)] ++
        Gen.alphaNodesList astart 200 (t.nextId + 3) (restC.length + 1))
        [] 0).getNode (t.nextId + 3 + restC.length) =
        some (tools.mkAlphaOver
          (astart.1 + (restC.length : Int) * 200, astart.2)
          ("Alpha_Over_" ++ toString (restC.length + 1))
          (t.nextId + 3 + restC.length)) := by
      rw [List.append_assoc]
      refine Gen.getNode_mk_append t hw _ _ _ _ _ (by omega) ?_
      rw [List.find?_append,
        show List.find? (fun nd => nd.id = t.nextId + 3 + restC.length)
          [tools.mkImage b iloc t.nextId,
           tools.mkComposite cloc (t.nextId + 1),
           tools.mkViewer vloc (t.nextId + 2)] = none from by
            rw [List.find?_cons_of_neg _ (by simp [Gen.mkImage_id]; omega),
              List.find?_cons_of_neg _ (by simp [Gen.mkComposite_id]; omega),
              List.find?_cons_of_neg _ (by simp [Gen.mkViewer_id]; omega)]
            rfl]
      have := Gen.find?_alphaNodes astart 200 (t.nextId + 3)
        (restC.length + 1) restC.length (by omega)
      simpa using this
    have hcomp : (Tree.mk (t.nodes ++ [tools.mkImage b iloc t.nextId,
        tools.mkComposite cloc (t.nextId + 1),
        tools.mkViewer vloc (t.nextId + 2)] ++
        Gen.alphaNodesList astart 200 (t.nextId + 3) (restC.length + 1))
        [] 0).getNode (t.nextId + 1) =
        some (tools.mkComposite cloc (t.nextId + 1)) := by
      rw [List.append_assoc]
      refine Gen.getNode_mk_append t hw _ _ _ _ _ (by omega) ?_
      rw [List.find?_append,
        List.find?_cons_of_neg _ (by simp [Gen.mkImage_id]),
        List.find?_cons_of_pos _ (by simp [Gen.mkComposite_id])]
      rfl
    have hview : (Tree.mk (t.nodes ++ [tools.mkImage b iloc t.nextId,
        tools.mkComposite cloc (t.nextId + 1),
        tools.mkViewer vloc (t.nextId + 2)] ++
        Gen.alphaNodesList astart 200 (t.nextId + 3) (restC.length + 1))
        [] 0).getNode (t.nextId + 2) =
        some (tools.mkViewer vloc (t.nextId + 2)) := by
      rw [List.append_assoc]
      refine Gen.getNode_mk_append t hw _ _ _ _ _ (by omega) ?_
      rw [List.find?_append,
        List.find?_cons_of_neg _ (by simp [Gen.mkImage_id]),
        List.find?_cons_of_neg _ (by simp [Gen.mkComposite_id]),
        List.find?_cons_of_pos _ (by simp [Gen.mkViewer_id])]
      rfl
    refine ⟨iloc, cloc, vloc, astart, ?_⟩
    rw [heq,
      Gen.alphaInputLinks_resolved_bg _ jx (c0 :: restC) _ _ t.nextId 0
        (by omega) (by simp) ⟨_, himg, Gen.mkImage_findIdx ..⟩ hres2,
      Gen.namesLink_resolve hlast hcomp (Gen.mkAlphaOver_findIdx ..)
        (Gen.mkComposite_findIdx ..),
      Gen.namesLink_resolve hlast hview (Gen.mkAlphaOver_findIdx ..)
        (Gen.mkViewer_findIdx ..)]

def C4tree : Tree :=
  ⟨[{ id := 0, name := "Render Layers", label := "", kind := .rlayers "L",
      location := (0, 0), hide := false, inputs := [],
      outputs := [⟨"Image", true⟩], dimY := 0 }], [], 1⟩

theorem generate_claim_C4_witness :
    TreeWF C4tree ∧
    (∀ c ∈ ([0] : List Nat), ∃ nd, C4tree.getNode c = some nd ∧
      nd.outputs.findIdx? (fun sk => sk.name = "Image") =
        some ((fun _ => 0) c)) ∧
    ((∀ c0, ([0] : List Nat) = [c0] →
      render_nodes._get_camera_background_image C5scene = none →
      ∃ cloc vloc,
        render_nodes._build_composite_chain C4tree C5scene [0] (0, 0) =
          (Tree.mk
            (C4tree.nodes ++ [tools.mkComposite cloc C4tree.nextId,
              tools.mkViewer vloc (C4tree.nextId + 1)])
            (C4tree.links ++ [⟨c0, (fun _ => 0) c0, C4tree.nextId, 0⟩] ++
              [⟨c0, (fun _ => 0) c0, C4tree.nextId + 1, 0⟩])
            (C4tree.nextId + 2),
           some C4tree.nextId)) ∧
    (∀ c0 c1 rest2, ([0] : List Nat) = c0 :: c1 :: rest2 →
      render_nodes._get_camera_background_image C5scene = none →
      ∃ cloc vloc astart,
        render_nodes._build_composite_chain C4tree C5scene [0] (0, 0) =
          (Tree.mk
            (C4tree.nodes ++ [tools.mkComposite cloc C4tree.nextId,
                tools.mkViewer vloc (C4tree.nextId + 1)] ++
              Gen.alphaNodesList astart 200 (C4tree.nextId + 2)
                (rest2.length + 1))
            (C4tree.links ++
              Gen.alphaChainLinks (C4tree.nextId + 2) (rest2.length + 1) ++
              ((⟨c0, (fun _ => 0) c0, C4tree.nextId + 2, 1⟩ : Link) ::
                (c1 :: rest2).enum.map (fun p =>
                  (⟨p.2, (fun _ => 0) p.2, C4tree.nextId + 2 + p.1, 2⟩ :
                    Link))) ++
              [⟨C4tree.nextId + 2 + rest2.length, 0, C4tree.nextId, 0⟩] ++
              [⟨C4tree.nextId + 2 + rest2.length, 0, C4tree.nextId + 1, 0⟩])
            (C4tree.nextId + 2 + (rest2.length + 1)),
           some C4tree.nextId)) ∧
    (∀ b c0 restC, ([0] : List Nat) = c0 :: restC →
      render_nodes._get_camera_background_image C5scene = some b →
      ∃ iloc cloc vloc astart,
        render_nodes._build_composite_chain C4tree C5scene [0] (0, 0) =
          (Tree.mk
            (C4tree.nodes ++ [tools.mkImage b iloc C4tree.nextId,
                tools.mkComposite cloc (C4tree.nextId + 1),
                tools.mkViewer vloc (C4tree.nextId + 2)] ++
              Gen.alphaNodesList astart 200 (C4tree.nextId + 3)
                (restC.length + 1))
            (C4tree.links ++
              Gen.alphaChainLinks (C4tree.nextId + 3) (restC.length + 1) ++
              ((⟨C4tree.nextId, 0, C4tree.nextId + 3, 1⟩ : Link) ::
                (c0 :: restC).enum.map (fun p =>
                  (⟨p.2, (fun _ => 0) p.2, C4tree.nextId + 3 + p.1, 2⟩ :
                    Link))) ++
              [⟨C4tree.nextId + 3 + restC.length, 0, C4tree.nextId + 1, 0⟩] ++
              [⟨C4tree.nextId + 3 + restC.length, 0, C4tree.nextId + 2, 0⟩])
            (C4tree.nextId + 3 + (restC.length + 1)),
           some (C4tree.nextId + 1)))) :=
  ⟨⟨by decide, by decide⟩,
   (fun c hc => by
     simp at hc
     subst hc
     exact ⟨_, rfl, rfl⟩),
   generate_claim_C4 C4tree C5scene [0] (0, 0) (fun _ => 0)
     ⟨by decide, by decide⟩
     (fun c hc => by
       simp at hc
       subst hc
       exact ⟨_, rfl, rfl⟩)⟩

/-- C3: an enabled, non-skipped pass socket is routed through a newly
created Denoise node precisely when the engine is Cycles with
`denoising_store_passes` on (that is what `execute` passes as
`use_denoise`), the Render Layers node has both denoising outputs
present and enabled (`_has_denoising_data`), and the pass name is in
`DENOISE_PASSES`; the denoise node then receives the pass on input 0,
Denoising Normal on input 1, Denoising Albedo on input 2, and its
output 0 feeds the pass's slot `k` of the File Output node. -/
theorem generate_claim_C3 (cs : PassConsts) (s : Scene) (vl : ViewLayer)
    (t : Tree) (rlId foId : Nat) (rl0 fo : Node) (ud myu : Bool)
    (hud : ud = (if s.renderEngine = "CYCLES" then vl.denoisingStorePasses
      else false))
    (hw : TreeWF t) (hrl : t.getNode rlId = some rl0)
    (hfo : t.getNode foId = some fo) (hne2 : rlId ≠ foId)
    (hfin : ∀ sk ∈ fo.inputs, sk.enabled = true)
    (hlinks : ∀ L ∈ t.links, L.fromNode ≠ rlId) :
    ∀ j sock, (j, sock) ∈ rl0.outputs.enum → sock.enabled = true →
      cs.skipPasses.contains sock.name = false →
      ((∃ h, t.nextId ≤ h ∧
          (∃ nd, nd ∈ (render_nodes._connect_passes cs t rlId foId ud
              myu).nodes ∧ nd.id = h ∧ nd.kind = .denoise) ∧
          (⟨rlId, j, h, 0⟩ : Link) ∈
            (render_nodes._connect_passes cs t rlId foId ud myu).links) ↔
        (s.renderEngine = "CYCLES" ∧ vl.denoisingStorePasses = true ∧
          render_nodes._has_denoising_data rl0 = true ∧
          cs.denoisePasses.contains sock.name = true)) ∧
      ((s.renderEngine = "CYCLES" ∧ vl.denoisingStorePasses = true ∧
          render_nodes._has_denoising_data rl0 = true ∧
          cs.denoisePasses.contains sock.name = true) →
        ∃ h k jN jA, t.nextId ≤ h ∧
          (∃ nd, nd ∈ (render_nodes._connect_passes cs t rlId foId ud
              myu).nodes ∧ nd.id = h ∧ nd.kind = .denoise) ∧
          (⟨rlId, j, h, 0⟩ : Link) ∈
            (render_nodes._connect_passes cs t rlId foId ud myu).links ∧
          rl0.outputs.findIdx? (fun sk => sk.name = "Denoising Normal") =
            some jN ∧
          (⟨rlId, jN, h, 1⟩ : Link) ∈
            (render_nodes._connect_passes cs t rlId foId ud myu).links ∧
          rl0.outputs.findIdx? (fun sk => sk.name = "Denoising Albedo") =
            some jA ∧
          (⟨rlId, jA, h, 2⟩ : Link) ∈
            (render_nodes._connect_passes cs t rlId foId ud myu).links ∧
          (⟨h, 0, foId, k⟩ : Link) ∈
            (render_nodes._connect_passes cs t rlId foId ud myu).links ∧
          (∃ ndF, ndF ∈ (render_nodes._connect_passes cs t rlId foId ud
              myu).nodes ∧ ndF.id = foId ∧
            ndF.inputs[k]? = some ⟨Gen.slotNameOf sock, true⟩)) := by
  have hcond : ∀ sock : Socket,
      Gen.shouldDenoise cs ud
        (if ud then render_nodes._has_denoising_data rl0 else false) sock =
        true ↔
      (s.renderEngine = "CYCLES" ∧ vl.denoisingStorePasses = true ∧
        render_nodes._has_denoising_data rl0 = true ∧
        cs.denoisePasses.contains sock.name = true) := by
    intro sock
    subst hud
    unfold Gen.shouldDenoise
    by_cases he : s.renderEngine = "CYCLES" <;>
      by_cases hsp : vl.denoisingStorePasses = true <;>
      simp [he, hsp]
  intro j sock hmem hen hskip
  constructor
  · constructor
    · rintro ⟨h, hge, ⟨nd, hndR, hid, hkind⟩, hlink⟩
      have hcl := Gen.connect_passes_route_classify cs t rlId foId ud myu
        rl0 fo hw hrl hfo hne2 hlinks j sock hmem h hge nd hndR hid
        (Or.inl hkind) hlink
      exact (hcond sock).1 (hcl.2.2.1 hkind)
    · intro hc
      obtain ⟨k, -, hdI, -, -⟩ := Gen.connect_passes_route_exists cs t rlId
        foId ud myu rl0 fo hw hrl hfo hne2 hfin j sock hmem hen hskip
      obtain ⟨h, hge, hnode, hL0, -, -, -⟩ := hdI ((hcond sock).2 hc)
      exact ⟨h, hge, hnode, hL0⟩
  · intro hc
    obtain ⟨k, hslotF, hdI, -, -⟩ := Gen.connect_passes_route_exists cs t
      rlId foId ud myu rl0 fo hw hrl hfo hne2 hfin j sock hmem hen hskip
    obtain ⟨h, hge, hnode, hL0, hLN, hLA, hL3⟩ := hdI ((hcond sock).2 hc)
    obtain ⟨jN, hjN⟩ : ∃ jN, rl0.outputs.findIdx?
        (fun sk => sk.name = "Denoising Normal") = some jN := by
      have hdd := hc.2.2.1
      unfold render_nodes._has_denoising_data at hdd
      rcases hfN : rl0.outputs.find? (fun s2 => s2.name = "Denoising Normal")
        with _ | aN
      · rw [hfN] at hdd
        simp at hdd
      · have hp : decide (aN.name = "Denoising Normal") = true := by
          have h2 := List.find?_some hfN
          simpa using h2
        exact Gen.findIdx?_go_isSome _ _ 0
          ⟨aN, List.mem_of_find?_eq_some hfN, hp⟩
    obtain ⟨jA, hjA⟩ : ∃ jA, rl0.outputs.findIdx?
        (fun sk => sk.name = "Denoising Albedo") = some jA := by
      have hdd := hc.2.2.1
      unfold render_nodes._has_denoising_data at hdd
      rcases hfA : rl0.outputs.find? (fun s2 => s2.name = "Denoising Albedo")
        with _ | aA
      · rw [hfA] at hdd
        rcases rl0.outputs.find? (fun s2 => s2.name = "Denoising Normal")
          with _ | aN <;> simp at hdd
      · have hp : decide (aA.name = "Denoising Albedo") = true := by
          have h2 := List.find?_some hfA
          simpa using h2
        exact Gen.findIdx?_go_isSome _ _ 0
          ⟨aA, List.mem_of_find?_eq_some hfA, hp⟩
    exact ⟨h, k, jN, jA, hge, hnode, hL0, hjN, hLN jN hjN, hjA,
      hLA jA hjA, hL3, hslotF⟩

/-- C1: with at least one renderable view layer, the generate-nodes
operator finishes; it processes the `use`-enabled view layers in
ascending `qq_render_sort_order`, creating per layer exactly one Render
Layers node and one File Output node whose slots are exactly one slot
per enabled, non-skipped output socket (named "Beauty" for "Image", the
socket's name otherwise); each such socket is linked, directly or
through one helper node, to its slot, and a disabled or skipped socket
gets no slot and no routing link. -/
theorem generate_claim_C1 (cs : PassConsts) (s : Scene) (fp : String)
    (t0 base : Tree) (hw : TreeWF t0)
    (hbase : base = (if s.clearNodesFlag then tools.clear_nodes t0 else t0))
    (hlinks0 : ∀ L ∈ t0.links, L.fromNode < t0.nextId)
    (hne : ¬ (tools.get_renderable_view_layers s).isEmpty = true) :
    (∀ sock : Socket, Gen.slotNameOf sock =
      if sock.name = "Image" then "Beauty" else sock.name) ∧
    List.Pairwise (fun a b : ViewLayer => a.sortOrder ≤ b.sortOrder)
      (tools.get_renderable_view_layers s) ∧
    (tools.get_renderable_view_layers s).Perm
      (s.viewLayers.filter (fun vl => vl.use)) ∧
    ∃ tF pairs gEnd,
      render_nodes.generate_nodes_execute cs s fp t0 =
        ⟨tF, .finished, pairs⟩ ∧
      pairs.length = (tools.get_renderable_view_layers s).length ∧
      gEnd ≤ tF.nextId ∧
      (tF.nodes.filter (fun nd => Gen.nodeIsRLayers nd)).length =
        (base.nodes.filter (fun nd => Gen.nodeIsRLayers nd)).length +
          (tools.get_renderable_view_layers s).length ∧
      (tF.nodes.filter Node.isOutputFile).length =
        (base.nodes.filter Node.isOutputFile).length +
          (tools.get_renderable_view_layers s).length ∧
      ∀ i, ∀ hi : i < (tools.get_renderable_view_layers s).length,
        ∃ m off,
          pairs[i]? = some (m, m + 1) ∧
          tools.mkRenderLayers ((tools.get_renderable_view_layers s).get
            ⟨i, hi⟩) (0, off) m ∈ tF.nodes ∧
          (∃ ndF, ndF ∈ tF.nodes ∧ ndF.id = m + 1 ∧
            ndF.kind = .outputFile
              (relative_path.build_base_path
                (if fp ≠ "" then pathStem fp else "untitled")
                ((tools.get_renderable_view_layers s).get ⟨i, hi⟩).name)
              FILE_OUTPUT_DEFAULTS ∧
            ndF.inputs =
              ((((tools.get_renderable_view_layers s).get
                  ⟨i, hi⟩).passes.enum.filter (fun p =>
                p.2.enabled && !(cs.skipPasses.contains p.2.name))).map
                (fun p => (⟨Gen.slotNameOf p.2, true⟩ : Socket)))) ∧
          (∀ j sock,
            (j, sock) ∈ ((tools.get_renderable_view_layers s).get
              ⟨i, hi⟩).passes.enum →
            sock.enabled = true →
            cs.skipPasses.contains sock.name = false →
            ∃ k,
              (((((tools.get_renderable_view_layers s).get
                  ⟨i, hi⟩).passes.enum.filter (fun p =>
                p.2.enabled && !(cs.skipPasses.contains p.2.name))).map
                (fun p => (⟨Gen.slotNameOf p.2, true⟩ : Socket))))[k]? =
                some ⟨Gen.slotNameOf sock, true⟩ ∧
              ((⟨m, j, m + 1, k⟩ : Link) ∈ tF.links ∨
                ∃ h, m + 2 ≤ h ∧ h < gEnd ∧
                  (∃ nd, nd ∈ tF.nodes ∧ nd.id = h ∧
                    (nd.kind = .denoise ∨ nd.kind = .invertGroup)) ∧
                  (⟨m, j, h, 0⟩ : Link) ∈ tF.links ∧
                  (⟨h, 0, m + 1, k⟩ : Link) ∈ tF.links)) ∧
          (∀ j sock,
            (j, sock) ∈ ((tools.get_renderable_view_layers s).get
              ⟨i, hi⟩).passes.enum →
            (sock.enabled = false ∨ cs.skipPasses.contains sock.name = true) →
            ∀ L, L ∈ tF.links → L.fromNode = m → L.fromPort = j →
              (L.toNode = m + 1 ∨ (L.toPort = 0 ∧ L.toNode < gEnd)) →
              False) := by
  haveI : IsTotal ViewLayer (fun a b => a.sortOrder ≤ b.sortOrder) :=
    ⟨fun a b => le_total a.sortOrder b.sortOrder⟩
  haveI : IsTrans ViewLayer (fun a b => a.sortOrder ≤ b.sortOrder) :=
    ⟨fun a b c hab hbc => le_trans hab hbc⟩
  obtain ⟨offs, chainNs, chainL, hlen, hexec, hkinds, htoN⟩ :=
    Gen.generate_execute_spec cs s fp t0 base hw hbase hne
  have hlz : ((tools.get_renderable_view_layers s).zip offs).length =
      (tools.get_renderable_view_layers s).length := by
    rw [List.length_zip .., hlen]
    exact Nat.min_self _
  have hlinksB : ∀ L ∈ base.links, L.fromNode < base.nextId := by
    rw [hbase]
    split
    · intro L hL
      show L.fromNode < t0.nextId
      exact hlinks0 L (List.mem_of_mem_filter hL)
    · exact hlinks0
  refine ⟨fun sock => rfl, List.sorted_insertionSort _ _,
    List.perm_insertionSort _ _, _, _,
    (Gen.genPlan cs s fp ((tools.get_renderable_view_layers s).zip offs)
      base.nextId).2.2.2, hexec, ?_, ?_, ?_, ?_, ?_⟩
  · rw [Gen.genPlan_pairs_length]
    exact hlz
  · exact Nat.le_add_right _ _
  · show (((base.nodes ++ (Gen.genPlan cs s fp
        ((tools.get_renderable_view_layers s).zip offs) base.nextId).1) ++
        chainNs).filter (fun nd => Gen.nodeIsRLayers nd)).length = _
    rw [List.filter_append, List.filter_append, List.length_append,
      List.length_append, Gen.genPlan_rl_count]
    have h1 : (chainNs.filter (fun nd => Gen.nodeIsRLayers nd)).length = 0 := by
      rw [List.length_eq_zero, List.filter_eq_nil_iff]
      intro nd hnd
      simp [(hkinds nd hnd).1]
    rw [h1, hlz]
    omega
  · show (((base.nodes ++ (Gen.genPlan cs s fp
        ((tools.get_renderable_view_layers s).zip offs) base.nextId).1) ++
        chainNs).filter Node.isOutputFile).length = _
    rw [List.filter_append, List.filter_append, List.length_append,
      List.length_append, Gen.genPlan_fo_count]
    have h1 : (chainNs.filter Node.isOutputFile).length = 0 := by
      rw [List.length_eq_zero, List.filter_eq_nil_iff]
      intro nd hnd
      simp [(hkinds nd hnd).2]
    rw [h1, hlz]
    omega
  · intro i hi
    have hi' : i < ((tools.get_renderable_view_layers s).zip offs).length := by
      rw [hlz]
      exact hi
    have hioffs : i < offs.length := by
      rw [hlen]
      exact hi
    obtain ⟨m, hpair, hnodes, hlks⟩ := Gen.genPlan_get cs s fp
      ((tools.get_renderable_view_layers s).zip offs) base.nextId i hi'
    have hzget : ((tools.get_renderable_view_layers s).zip offs).get
        ⟨i, hi'⟩ =
        ((tools.get_renderable_view_layers s).get ⟨i, hi⟩,
         offs.get ⟨i, hioffs⟩) := by
      rw [List.get_eq_getElem, List.get_eq_getElem, List.get_eq_getElem]
      exact List.getElem_zip ..
    rw [hzget] at hnodes hlks
    dsimp only at hnodes hlks
    have hge : base.nextId ≤ m := Gen.genPlan_pairs_ge cs s fp
      ((tools.get_renderable_view_layers s).zip offs) base.nextId i m (m + 1)
      hpair
    have hend := Gen.genPlan_pairs_lt cs s fp
      ((tools.get_renderable_view_layers s).zip offs) base.nextId i hi' m
      hpair
    rw [hzget] at hend
    dsimp only at hend
    refine ⟨m, offs.get ⟨i, hioffs⟩, hpair, ?_, ?_, ?_, ?_⟩
    · exact List.mem_append.2 (Or.inl (List.mem_append.2 (Or.inr
        (hnodes _ (List.mem_append.2 (Or.inl (List.mem_cons_self _ _)))))))
    · refine ⟨Gen.updIn (m + 1)
        (Gen.layerPlan cs s ((tools.get_renderable_view_layers s).get
          ⟨i, hi⟩) m (offs.get ⟨i, hioffs⟩)).2.2
        (Gen.layerFO fp ((tools.get_renderable_view_layers s).get ⟨i, hi⟩)
          m (offs.get ⟨i, hioffs⟩)), ?_, ?_, ?_, ?_⟩
      · exact List.mem_append.2 (Or.inl (List.mem_append.2 (Or.inr
          (hnodes _ (List.mem_append.2 (Or.inl
            (List.mem_cons_of_mem _ (List.mem_cons_self _ _))))))))
      · exact (Gen.updIn_id_eq _ _ _).trans rfl
      · exact (Gen.updIn_kind _ _ _).trans rfl
      · rw [Gen.updIn_inputs_self (m + 1)
          (Gen.layerPlan cs s ((tools.get_renderable_view_layers s).get
            ⟨i, hi⟩) m (offs.get ⟨i, hioffs⟩)).2.2
          (Gen.layerFO fp ((tools.get_renderable_view_layers s).get ⟨i, hi⟩)
            m (offs.get ⟨i, hioffs⟩)) rfl]
        exact Gen.layerPlan_slots cs s _ m _
    · intro j sock hmem hen hskip
      obtain ⟨k, hk, hroute⟩ := Gen.layerPlan_route cs s
        ((tools.get_renderable_view_layers s).get ⟨i, hi⟩) m
        (offs.get ⟨i, hioffs⟩) j sock hmem hen hskip
      refine ⟨k, ?_, ?_⟩
      · rw [← Gen.layerPlan_slots cs s
          ((tools.get_renderable_view_layers s).get ⟨i, hi⟩) m
          (offs.get ⟨i, hioffs⟩)]
        exact hk
      · rcases hroute with hdir |
          ⟨h, hb1, hb2, ⟨nd, hnd, hidh, hkh⟩, hL0, hL3⟩
        · exact Or.inl (List.mem_append.2 (Or.inl (List.mem_append.2
            (Or.inr (hlks _ hdir)))))
        · refine Or.inr ⟨h, hb1, ?_, ⟨nd, ?_, hidh, hkh⟩, ?_, ?_⟩
          · omega
          · exact List.mem_append.2 (Or.inl (List.mem_append.2 (Or.inr
              (hnodes nd (List.mem_append.2 (Or.inr hnd))))))
          · exact List.mem_append.2 (Or.inl (List.mem_append.2 (Or.inr
              (hlks _ hL0))))
          · exact List.mem_append.2 (Or.inl (List.mem_append.2 (Or.inr
              (hlks _ hL3))))
    · intro j sock hmem hun L hL hfrom hport htgt
      rcases List.mem_append.1 hL with hL1 | hLc
      · rcases List.mem_append.1 hL1 with hLb | hLg
        · have hfb := hlinksB L hLb
          rw [hfrom] at hfb
          omega
        · have hL2 := Gen.genPlan_link_from cs s fp
            ((tools.get_renderable_view_layers s).zip offs) base.nextId i
            hi' m hpair L hLg hfrom
          rw [hzget] at hL2
          refine Gen.layerPlan_no_link cs s
            ((tools.get_renderable_view_layers s).get ⟨i, hi⟩) m
            (offs.get ⟨i, hioffs⟩) j sock hmem hun L ?_ hfrom hport ?_
          · exact hL2
          · rcases htgt with h | h
            · exact Or.inl h
            · exact Or.inr h.1
      · have hge2 := htoN L hLc
        rcases htgt with h | ⟨h0, h1⟩
        · omega
        · omega

def C1consts : PassConsts := ⟨["Depth"], [], []⟩

def C1vl : ViewLayer :=
  ⟨"L", true, 0, false, false, [⟨"Image", true⟩, ⟨"Depth", false⟩]⟩

def C1scene : Scene :=
  { viewLayers := [C1vl], camera := none, renderEngine := "CYCLES",
    useNodes := true, clearNodesFlag := false, makeYUp := false,
    exportCameraFlag := false, updatePathsFlag := false }

def C1tree : Tree := ⟨[], [], 0⟩

theorem generate_claim_C1_witness :
    TreeWF C1tree ∧
    C1tree = (if C1scene.clearNodesFlag then tools.clear_nodes C1tree
      else C1tree) ∧
    (∀ L ∈ C1tree.links, L.fromNode < C1tree.nextId) ∧
    ¬ (tools.get_renderable_view_layers C1scene).isEmpty = true ∧
    (∀ sock : Socket, Gen.slotNameOf sock =
      if sock.name = "Image" then "Beauty" else sock.name) :=
  ⟨⟨by decide, by decide⟩, rfl, by decide, by decide,
   (generate_claim_C1 C1consts C1scene "" C1tree C1tree
     ⟨by decide, by decide⟩ rfl (by decide) (by decide)).1⟩

/-- C9: when `qq_render_make_y_up` is set, an enabled pass named in
INVERT_Y_PASSES that does not qualify for denoising is routed through the
vector-invert node group, whose graph maps (x, y, z) to (x, z, -y);
denoising takes precedence, so a pass that qualifies for denoising never
receives an invert group. -/
theorem generate_claim_C9 (cs : PassConsts) (s : Scene) (t : Tree)
    (rlId foId : Nat) (rl0 fo : Node) (ud myu : Bool)
    (hmyu : myu = s.makeYUp)
    (hw : TreeWF t) (hrl : t.getNode rlId = some rl0)
    (hfo : t.getNode foId = some fo) (hne2 : rlId ≠ foId)
    (hfin : ∀ sk ∈ fo.inputs, sk.enabled = true)
    (hlinks : ∀ L ∈ t.links, L.fromNode ≠ rlId) :
    (∀ x y z : Int,
      VecGroup.groupMap VecGroup.graph (x, y, z) = some (x, z, -y)) ∧
    (∀ j sock, (j, sock) ∈ rl0.outputs.enum → sock.enabled = true →
      cs.skipPasses.contains sock.name = false →
      ((∃ h, t.nextId ≤ h ∧
          (∃ nd, nd ∈ (render_nodes._connect_passes cs t rlId foId ud
              myu).nodes ∧ nd.id = h ∧ nd.kind = .invertGroup) ∧
          (⟨rlId, j, h, 0⟩ : Link) ∈
            (render_nodes._connect_passes cs t rlId foId ud myu).links) ↔
        (s.makeYUp = true ∧ cs.invertYPasses.contains sock.name = true ∧
          Gen.shouldDenoise cs ud
            (if ud then render_nodes._has_denoising_data rl0 else false)
            sock = false)) ∧
      ((s.makeYUp = true ∧ cs.invertYPasses.contains sock.name = true ∧
          Gen.shouldDenoise cs ud
            (if ud then render_nodes._has_denoising_data rl0 else false)
            sock = false) →
        ∃ h k, t.nextId ≤ h ∧
          (∃ nd, nd ∈ (render_nodes._connect_passes cs t rlId foId ud
              myu).nodes ∧ nd.id = h ∧ nd.kind = .invertGroup) ∧
          (⟨rlId, j, h, 0⟩ : Link) ∈
            (render_nodes._connect_passes cs t rlId foId ud myu).links ∧
          (⟨h, 0, foId, k⟩ : Link) ∈
            (render_nodes._connect_passes cs t rlId foId ud myu).links ∧
          (∃ ndF, ndF ∈ (render_nodes._connect_passes cs t rlId foId ud
              myu).nodes ∧ ndF.id = foId ∧
            ndF.inputs[k]? = some ⟨Gen.slotNameOf sock, true⟩))) := by
  have hmap : ∀ x y z : Int,
      VecGroup.groupMap VecGroup.graph (x, y, z) = some (x, z, -y) := by
    intro x y z
    have h : VecGroup.groupMap VecGroup.graph (x, y, z) =
        some (x, z, y * -1) := rfl
    rw [h, Int.mul_neg_one]
  have hinv : ∀ sock : Socket,
      Gen.shouldInvert cs myu sock = true ↔
      (s.makeYUp = true ∧ cs.invertYPasses.contains sock.name = true) := by
    intro sock
    subst hmyu
    unfold Gen.shouldInvert
    simp [Bool.and_eq_true]
  refine ⟨hmap, ?_⟩
  intro j sock hmem hen hskip
  constructor
  · constructor
    · rintro ⟨h, hge, ⟨nd, hndR, hid, hkind⟩, hlink⟩
      have hcl := Gen.connect_passes_route_classify cs t rlId foId ud myu
        rl0 fo hw hrl hfo hne2 hlinks j sock hmem h hge nd hndR hid
        (Or.inr hkind) hlink
      obtain ⟨hdF, hvT⟩ := hcl.2.2.2 hkind
      obtain ⟨h1, h2⟩ := (hinv sock).1 hvT
      exact ⟨h1, h2, hdF⟩
    · rintro ⟨h1, h2, hdF⟩
      obtain ⟨k, -, -, hvI, -⟩ := Gen.connect_passes_route_exists cs t rlId
        foId ud myu rl0 fo hw hrl hfo hne2 hfin j sock hmem hen hskip
      obtain ⟨h, hge, hnode, hL0, -⟩ := hvI hdF ((hinv sock).2 ⟨h1, h2⟩)
      exact ⟨h, hge, hnode, hL0⟩
  · rintro ⟨h1, h2, hdF⟩
    obtain ⟨k, hslotF, -, hvI, -⟩ := Gen.connect_passes_route_exists cs t
      rlId foId ud myu rl0 fo hw hrl hfo hne2 hfin j sock hmem hen hskip
    obtain ⟨h, hge, hnode, hL0, hL1⟩ := hvI hdF ((hinv sock).2 ⟨h1, h2⟩)
    exact ⟨h, k, hge, hnode, hL0, hL1, hslotF⟩

def C9consts : PassConsts := ⟨[], [], ["Vector"]⟩

def C9rl : Node :=
  { id := 0, name := "Render Layers", label := "", kind := .rlayers "L",
    location := (0, 0), hide := false, inputs := [],
    outputs := [⟨"Vector", true⟩], dimY := 0 }

def C9fo : Node :=
  { id := 1, name := "L", label := "L",
    kind := .outputFile "p" FILE_OUTPUT_DEFAULTS, location := (0, 0),
    hide := false, inputs := [], outputs := [], dimY := 0 }

def C9tree : Tree := ⟨[C9rl, C9fo], [], 2⟩

def C9scene : Scene :=
  { viewLayers := [], camera := none, renderEngine := "CYCLES",
    useNodes := true, clearNodesFlag := false, makeYUp := true,
    exportCameraFlag := false, updatePathsFlag := false }

theorem generate_claim_C9_witness :
    (true = C9scene.makeYUp) ∧
    TreeWF C9tree ∧
    C9tree.getNode 0 = some C9rl ∧
    C9tree.getNode 1 = some C9fo ∧
    ((0 : Nat) ≠ 1) ∧
    (∀ sk ∈ C9fo.inputs, sk.enabled = true) ∧
    (∀ L ∈ C9tree.links, L.fromNode ≠ 0) ∧
    ((∀ x y z : Int,
        VecGroup.groupMap VecGroup.graph (x, y, z) = some (x, z, -y)) ∧
     (∀ j sock, (j, sock) ∈ C9rl.outputs.enum → sock.enabled = true →
        C9consts.skipPasses.contains sock.name = false →
        ((∃ h, C9tree.nextId ≤ h ∧
            (∃ nd, nd ∈ (render_nodes._connect_passes C9consts C9tree 0 1
                false true).nodes ∧ nd.id = h ∧ nd.kind = .invertGroup) ∧
            (⟨0, j, h, 0⟩ : Link) ∈
              (render_nodes._connect_passes C9consts C9tree 0 1 false
                true).links) ↔
          (C9scene.makeYUp = true ∧
            C9consts.invertYPasses.contains sock.name = true ∧
            Gen.shouldDenoise C9consts false
              (if false then render_nodes._has_denoising_data C9rl
                else false) sock = false)) ∧
        ((C9scene.makeYUp = true ∧
            C9consts.invertYPasses.contains sock.name = true ∧
            Gen.shouldDenoise C9consts false
              (if false then render_nodes._has_denoising_data C9rl
                else false) sock = false) →
          ∃ h k, C9tree.nextId ≤ h ∧
            (∃ nd, nd ∈ (render_nodes._connect_passes C9consts C9tree 0 1
                false true).nodes ∧ nd.id = h ∧ nd.kind = .invertGroup) ∧
            (⟨0, j, h, 0⟩ : Link) ∈
              (render_nodes._connect_passes C9consts C9tree 0 1 false
                true).links ∧
            (⟨h, 0, 1, k⟩ : Link) ∈
              (render_nodes._connect_passes C9consts C9tree 0 1 false
                true).links ∧
            (∃ ndF, ndF ∈ (render_nodes._connect_passes C9consts C9tree 0 1
                false true).nodes ∧ ndF.id = 1 ∧
              ndF.inputs[k]? = some ⟨Gen.slotNameOf sock, true⟩)))) :=
  ⟨rfl, ⟨by decide, by decide⟩, rfl, rfl, by decide, by decide, by decide,
   generate_claim_C9 C9consts C9scene C9tree 0 1 C9rl C9fo false true
     rfl ⟨by decide, by decide⟩ rfl rfl (by decide) (by decide) (by decide)⟩

def C3consts : PassConsts := ⟨[], ["Image"], []⟩

def C3rl : Node :=
  { id := 0, name := "Render Layers", label := "", kind := .rlayers "L",
    location := (0, 0), hide := false, inputs := [],
    outputs := [⟨"Image", true⟩, ⟨"Denoising Normal", true⟩,
      ⟨"Denoising Albedo", true⟩], dimY := 0 }

def C3fo : Node :=
  { id := 1, name := "L", label := "L",
    kind := .outputFile "p" FILE_OUTPUT_DEFAULTS, location := (0, 0),
    hide := false, inputs := [], outputs := [], dimY := 0 }

def C3tree : Tree := ⟨[C3rl, C3fo], [], 2⟩

def C3vl : ViewLayer :=
  ⟨"L", true, 0, false, true,
   [⟨"Image", true⟩, ⟨"Denoising Normal", true⟩, ⟨"Denoising Albedo", true⟩]⟩

def C3scene : Scene :=
  { viewLayers := [C3vl], camera := none, renderEngine := "CYCLES",
    useNodes := true, clearNodesFlag := false, makeYUp := false,
    exportCameraFlag := false, updatePathsFlag := false }

theorem generate_claim_C3_witness :
    (true = (if C3scene.renderEngine = "CYCLES" then
      C3vl.denoisingStorePasses else false)) ∧
    TreeWF C3tree ∧
    C3tree.getNode 0 = some C3rl ∧
    C3tree.getNode 1 = some C3fo ∧
    ((0 : Nat) ≠ 1) ∧
    (∀ sk ∈ C3fo.inputs, sk.enabled = true) ∧
    (∀ L ∈ C3tree.links, L.fromNode ≠ 0) ∧
    (∀ j sock, (j, sock) ∈ C3rl.outputs.enum → sock.enabled = true →
      C3consts.skipPasses.contains sock.name = false →
      ((∃ h, C3tree.nextId ≤ h ∧
          (∃ nd, nd ∈ (render_nodes._connect_passes C3consts C3tree 0 1 true
              false).nodes ∧ nd.id = h ∧ nd.kind = .denoise) ∧
          (⟨0, j, h, 0⟩ : Link) ∈
            (render_nodes._connect_passes C3consts C3tree 0 1 true
              false).links) ↔
        (C3scene.renderEngine = "CYCLES" ∧
          C3vl.denoisingStorePasses = true ∧
          render_nodes._has_denoising_data C3rl = true ∧
          C3consts.denoisePasses.contains sock.name = true)) ∧
      ((C3scene.renderEngine = "CYCLES" ∧
          C3vl.denoisingStorePasses = true ∧
          render_nodes._has_denoising_data C3rl = true ∧
          C3consts.denoisePasses.contains sock.name = true) →
        ∃ h k jN jA, C3tree.nextId ≤ h ∧
          (∃ nd, nd ∈ (render_nodes._connect_passes C3consts C3tree 0 1 true
              false).nodes ∧ nd.id = h ∧ nd.kind = .denoise) ∧
          (⟨0, j, h, 0⟩ : Link) ∈
            (render_nodes._connect_passes C3consts C3tree 0 1 true
              false).links ∧
          C3rl.outputs.findIdx? (fun sk => sk.name = "Denoising Normal") =
            some jN ∧
          (⟨0, jN, h, 1⟩ : Link) ∈
            (render_nodes._connect_passes C3consts C3tree 0 1 true
              false).links ∧
          C3rl.outputs.findIdx? (fun sk => sk.name = "Denoising Albedo") =
            some jA ∧
          (⟨0, jA, h, 2⟩ : Link) ∈
            (render_nodes._connect_passes C3consts C3tree 0 1 true
              false).links ∧
          (⟨h, 0, 1, k⟩ : Link) ∈
            (render_nodes._connect_passes C3consts C3tree 0 1 true
              false).links ∧
          (∃ ndF, ndF ∈ (render_nodes._connect_passes C3consts C3tree 0 1
              true false).nodes ∧ ndF.id = 1 ∧
            ndF.inputs[k]? = some ⟨Gen.slotNameOf sock, true⟩))) :=
  ⟨by decide, ⟨by decide, by decide⟩, rfl, rfl, by decide, by decide,
   by decide,
   generate_claim_C3 C3consts C3scene C3vl C3tree 0 1 C3rl C3fo true false
     (by decide) ⟨by decide, by decide⟩ rfl rfl (by decide) (by decide)
     (by decide)⟩

end QQRender
